import Mathlib

/-!
Verification development for the mesh conversion core of this repository
(source/blender/bmesh/intern/bmesh_mesh_convert.cc, with the index-mask
utility known through source/blender/blenlib/tests/BLI_index_mask_test.cc).

The C++ code is shallowly embedded: pointer-linked BMesh elements become
index-linked records in lists, floats become exact rationals, and the
per-element custom-data payload of a domain becomes an opaque token that the
generic block-copy helpers move around verbatim.  Helper routines whose
bodies live outside the excerpt (BM_face_create, BKE_keyblock_add,
unit_float_to_uchar_clamp, the custom-data mask constants, the index-mask
class itself) are modelled from the specification; each such definition says
so in its doc comment.
-/

set_option maxRecDepth 8000

namespace Blender

/-- Exact stand-in for a float[3] coordinate triple (position, normal or
shape-key datum).  Conversions copy these verbatim, so exact rationals keep
the round-trip reasoning faithful. -/
structure Q3 where
  x : ℚ
  y : ℚ
  z : ℚ
deriving DecidableEq

def q3zero : Q3 := ⟨0, 0, 0⟩

def q3add (a b : Q3) : Q3 := ⟨a.x + b.x, a.y + b.y, a.z + b.z⟩

def q3sub (a b : Q3) : Q3 := ⟨a.x - b.x, a.y - b.y, a.z - b.z⟩

/-- Dot product of two coordinate triples (dot_v3v3 of the math library). -/
def dot_v3v3 (a b : Q3) : ℚ := a.x * b.x + a.y * b.y + a.z * b.z

/-- Custom-data layer type tags.  shapekey is CD_SHAPEKEY, keyindex is
CD_SHAPE_KEYINDEX, bweight is CD_BWEIGHT, crease is CD_CREASE; every other
layer type the conversion copies without special handling is a generic tag. -/
inductive CDType where
  | shapekey
  | keyindex
  | bweight
  | crease
  | generic (tag : Nat)
deriving DecidableEq

/-- One custom-data layer descriptor: type tag, name and the stable uid that
cross-references shape-key layers with key blocks. -/
structure Layer where
  ty : CDType
  lname : String
  uid : Nat
deriving DecidableEq

/-- Flat-mesh vertex (MVert): position, selection bit, remaining flag bits,
bevel weight byte and the opaque generic custom-data payload for this
element. -/
structure MVert where
  co : Q3
  sel : Bool
  rest : Nat
  bweight : Nat
  attr : Nat
deriving DecidableEq

/-- Flat-mesh edge (MEdge).  The ME_EDGEDRAW bit is kept as its own field
because extraction recomputes it; every other non-selection flag bit lives in
rest. -/
structure MEdge where
  v1 : Nat
  v2 : Nat
  sel : Bool
  draw : Bool
  rest : Nat
  bweight : Nat
  crease : Nat
  attr : Nat
deriving DecidableEq

/-- Flat-mesh loop (MLoop): vertex index, edge index and the generic loop
custom-data payload. -/
structure MLoop where
  v : Nat
  e : Nat
  attr : Nat
deriving DecidableEq

/-- Flat-mesh polygon (MPoly): a slice of the loop array plus flags, material
index and the generic polygon custom-data payload. -/
structure MPoly where
  loopstart : Nat
  totloop : Nat
  sel : Bool
  rest : Nat
  mat : Int
  attr : Nat
deriving DecidableEq

/-- Selection-history record tag of the flat mesh (MSelect.type).  invalid
stands for any value outside ME_VSEL/ME_ESEL/ME_FSEL, which the rebuild
switch skips via its default case. -/
inductive MSelType where
  | vsel
  | esel
  | fsel
  | invalid
deriving DecidableEq

/-- Flat-mesh selection-history record (MSelect). -/
structure MSel where
  dom : MSelType
  index : Nat
deriving DecidableEq

/-- Shape key block (KeyBlock): name, stable uid, index of the block it is
relative to, and its dense per-vertex data.  totelem of the C struct is
data.length here. -/
structure KeyBlock where
  bname : String
  uid : Nat
  relative : Nat
  data : List Q3
deriving DecidableEq

/-- Shape key set (Key): ordered blocks, whether the key is KEY_RELATIVE, and
the list position of the reference key block (refkey). -/
structure Key where
  blocks : List KeyBlock
  isRelative : Bool
  refIndex : Nat
deriving DecidableEq

/-- The mesh cd_flag bits used by the conversion: ME_CDFLAG_VERT_BWEIGHT,
ME_CDFLAG_VERT_CREASE, ME_CDFLAG_EDGE_BWEIGHT, ME_CDFLAG_EDGE_CREASE. -/
structure CdFlags where
  vBweight : Bool
  vCrease : Bool
  eBweight : Bool
  eCrease : Bool
deriving DecidableEq

/-- The flat mesh (Mesh).  vnormals models the cached vertex normals; none
means they are dirty.  The four layer lists are the per-domain custom-data
layer descriptors. -/
structure Mesh where
  mvert : List MVert
  medge : List MEdge
  mloop : List MLoop
  mpoly : List MPoly
  mselect : List MSel
  key : Option Key
  cd_flag : CdFlags
  vnormals : Option (List Q3)
  vlayers : List Layer
  elayers : List Layer
  llayers : List Layer
  players : List Layer
deriving DecidableEq

/-- BMesh element-domain tag (BM_VERT / BM_EDGE / BM_FACE) as carried by
selection-history entries. -/
inductive BMDomain where
  | vert
  | edge
  | face
deriving DecidableEq

/-- Linked-mesh vertex (BMVert) plus the per-vertex values of the special
vertex layers: bevel weight (CD_BWEIGHT, a float), the shape-key original
index (CD_SHAPE_KEYINDEX, -1 is ORIGINDEX_NONE) and one coordinate per
CD_SHAPEKEY layer, in layer order.  The keyindex and shape fields are
meaningful only when the corresponding layers exist in the owning BMesh. -/
structure BMVert where
  co : Q3
  no : Q3
  sel : Bool
  rest : Nat
  bweight : ℚ
  keyindex : Int
  shape : List Q3
  attr : Nat
deriving DecidableEq

/-- Linked-mesh edge (BMEdge): endpoint vertex indices, flags and the values
of the special edge layers. -/
structure BMEdge where
  v1 : Nat
  v2 : Nat
  sel : Bool
  draw : Bool
  rest : Nat
  bweight : ℚ
  crease : ℚ
  attr : Nat
deriving DecidableEq

/-- Linked-mesh loop (BMLoop), one corner of a face cycle. -/
structure BMLoop where
  v : Nat
  e : Nat
  attr : Nat
deriving DecidableEq

/-- Linked-mesh face (BMFace): its loop cycle in order, flags, material and
normal. -/
structure BMFace where
  loops : List BMLoop
  sel : Bool
  rest : Nat
  mat : Int
  no : Q3
  attr : Nat
deriving DecidableEq

/-- The linked mesh (BMesh).  selected is the selection history in order,
each entry a live element named by domain and current list position.
poolsInit records that CustomData_bmesh_init_pool ran for the per-domain
attribute-block pools.  skipped records the polygon indices the builder
reported and skipped. -/
structure BMesh where
  verts : List BMVert
  edges : List BMEdge
  faces : List BMFace
  selected : List (BMDomain × Nat)
  shapenr : Nat
  vlayers : List Layer
  elayers : List Layer
  llayers : List Layer
  players : List Layer
  poolsInit : Bool
  skipped : List Nat
deriving DecidableEq

/-- A freshly created BMesh, as handed to BM_mesh_bm_from_me when entering
edit mode. -/
def emptyBM : BMesh :=
  { verts := [], edges := [], faces := [], selected := [], shapenr := 0,
    vlayers := [], elayers := [], llayers := [], players := [],
    poolsInit := false, skipped := [] }

/-! ## Small list helpers (index-addressed updates used by the embedding) -/

/-- Map with the element index, starting the count at i0. -/
def mapIdxFrom (f : Nat → α → β) : Nat → List α → List β
  | _, [] => []
  | i, a :: as' => f i a :: mapIdxFrom f (i + 1) as'

/-- Map with the element index. -/
def mapIdxL (f : Nat → α → β) (l : List α) : List β := mapIdxFrom f 0 l

/-- Update the element at position i in place; out-of-range leaves the list
unchanged. -/
def listModify (l : List α) (i : Nat) (f : α → α) : List α :=
  match l.get? i with
  | some a => l.set i (f a)
  | none => l

/-! ## Custom-data layer bookkeeping (CustomData_has_layer and friends as the
conversion uses them on layer-descriptor lists) -/

def hasLayer (ls : List Layer) (t : CDType) : Bool :=
  ls.any (fun L => decide (L.ty = t))

def addLayer (ls : List Layer) (t : CDType) (n : String) : List Layer :=
  ls ++ [⟨t, n, 0⟩]

def freeLayer (ls : List Layer) (t : CDType) : List Layer :=
  ls.filter (fun L => !decide (L.ty = t))

def shapeLayers (ls : List Layer) : List Layer :=
  ls.filter (fun L => decide (L.ty = CDType.shapekey))

/-- Modelled from the spec: CustomData_bmesh_merge adds to the destination
every masked source layer it does not already hold (merge-by-mask, layers
already present are left untouched). -/
def mergeLayers (dst src : List Layer) : List Layer :=
  dst ++ src.filter (fun L =>
    !dst.any (fun d => decide (d.ty = L.ty) && decide (d.lname = L.lname)))

/-- Modelled from the spec: the CD_MASK_BMESH copy mask selects every layer
type the editable representation keeps (including shape and original-index
layers). -/
def maskBMESH : CDType → Bool := fun _ => true

/-- Modelled from the spec: the CD_MASK_MESH copy mask selects the layer
types the flat representation persists; the shape and original-index layers
the build adds, and the struct-field-backed bevel-weight/crease layers, are
not among them. -/
def maskMESH : CDType → Bool := fun t =>
  match t with
  | .generic _ => true
  | _ => false

/-- Modelled from the spec: the CD_MASK_DERIVEDMESH copy mask used by the
read-only extraction; it keeps generic and bevel/crease data and no
shape-key or original-index layers. -/
def maskDERIVEDMESH : CDType → Bool := fun t =>
  match t with
  | .generic _ => true
  | .bweight => true
  | .crease => true
  | _ => false

/-- BM_mesh_cd_flag_from_bmesh: read the four cd_flag bits back from layer
presence. -/
def BM_mesh_cd_flag_from_bmesh (bm : BMesh) : CdFlags :=
  { vBweight := hasLayer bm.vlayers .bweight
    vCrease := hasLayer bm.vlayers .crease
    eBweight := hasLayer bm.elayers .bweight
    eCrease := hasLayer bm.elayers .crease }

/-- One add-or-free step of BM_mesh_cd_flag_apply: ensure the layer of the
given type is present exactly when the flag asks for it. -/
def applyFlagLayer (ls : List Layer) (want : Bool) (t : CDType) : List Layer :=
  if want then (if hasLayer ls t then ls else addLayer ls t "")
  else (if hasLayer ls t then freeLayer ls t else ls)

/-- BM_mesh_cd_flag_apply on the vertex and edge layer lists. -/
def cdFlagApplyV (ls : List Layer) (cd : CdFlags) : List Layer :=
  applyFlagLayer (applyFlagLayer ls cd.vBweight .bweight) cd.vCrease .crease

def cdFlagApplyE (ls : List Layer) (cd : CdFlags) : List Layer :=
  applyFlagLayer (applyFlagLayer ls cd.eBweight .bweight) cd.eCrease .crease

def orFlags (a b : CdFlags) : CdFlags :=
  ⟨a.vBweight || b.vBweight, a.vCrease || b.vCrease,
   a.eBweight || b.eBweight, a.eCrease || b.eCrease⟩

/-! ## Face creation (BM_mesh_bm_from_me, polygon loop) -/

/-- The loop slice of one polygon:
mloop plus loopstart/totloop exactly as the builder passes it to
bm_face_create_from_mpoly. -/
def faceLoopSlice (mloop : List MLoop) (p : MPoly) : List MLoop :=
  (mloop.drop p.loopstart).take p.totloop

/-- Whether an edge (given by its endpoint pair) connects the two vertices,
in either direction (BM_verts_in_edge). -/
def edgeConnects (ep : Nat × Nat) (a b : Nat) : Bool :=
  (decide (ep.1 = a) && decide (ep.2 = b)) || (decide (ep.1 = b) && decide (ep.2 = a))

/-- Modelled from the spec: BM_face_create (bmesh core, outside this excerpt)
rejects a face whose loop data is malformed, returning null; the builder then
reports and skips that polygon.  Malformed means: fewer than three corners,
a vertex or edge index outside the element tables, or a j-th edge that does
not pair the j-th and (j+1 mod n)-th corner vertices.  In the C code an
out-of-range index into vtable/etable or a too-short loop slice is undefined
behaviour; per the spec (section 4.3 step 5) it is treated as the same
rejected-polygon outcome here. -/
def bm_face_create_ok (nv : Nat) (eps : List (Nat × Nat)) (ls : List MLoop) : Bool :=
  decide (3 ≤ ls.length) &&
  (List.range ls.length).all (fun j =>
    match ls.get? j, ls.get? ((j + 1) % ls.length) with
    | some l, some l2 =>
      decide (l.v < nv) &&
      (match eps.get? l.e with
       | some ep => edgeConnects ep l.v l2.v
       | none => false)
    | _, _ => false)

def edgeEnds (e : BMEdge) : Nat × Nat := (e.v1, e.v2)

def medgeEnds (e : MEdge) : Nat × Nat := (e.v1, e.v2)

/-- Whether the builder accepts the polygon: its loop slice is fully inside
the loop array and the face-creation check passes on it. -/
def polyCreatable (nv : Nat) (eps : List (Nat × Nat)) (mloop : List MLoop)
    (p : MPoly) : Bool :=
  decide ((faceLoopSlice mloop p).length = p.totloop) &&
    bm_face_create_ok nv eps (faceLoopSlice mloop p)

/-- The face a polygon becomes when face normals are not recomputed. -/
def plainFace (mloop : List MLoop) (p : MPoly) : BMFace :=
  { loops := (faceLoopSlice mloop p).map (fun l => ⟨l.v, l.e, l.attr⟩)
    sel := p.sel
    rest := p.rest
    mat := p.mat
    no := q3zero
    attr := p.attr }

/-- bm_face_create_from_mpoly: look the polygon loop slice up in the vertex
and edge tables and create the face; none when creation is rejected.  The
resulting loop records carry the per-loop custom data the builder copies in
slice order right after creation. -/
def bm_face_create_from_mpoly (nv : Nat) (es : List BMEdge) (mloop : List MLoop)
    (p : MPoly) : Option (List BMLoop) :=
  let ls := faceLoopSlice mloop p
  if decide (ls.length = p.totloop) && bm_face_create_ok nv (es.map edgeEnds) ls then
    some (ls.map (fun l => ⟨l.v, l.e, l.attr⟩))
  else none

/-- Modelled from the spec: BM_face_normal_update computes the face normal
from the loop cycle by the Newell method (normalization omitted: no claim
reads the magnitude). -/
def newellStep (a b : Q3) : Q3 :=
  ⟨(a.y - b.y) * (a.z + b.z), (a.z - b.z) * (a.x + b.x), (a.x - b.x) * (a.y + b.y)⟩

def cyclicPairs : List Q3 → List (Q3 × Q3)
  | [] => []
  | x :: xs => (x :: xs).zip (xs ++ [x])

def newellNormal (l : List Q3) : Q3 :=
  (cyclicPairs l).foldl (fun n p => q3add n (newellStep p.1 p.2)) q3zero

def faceNormalOf (vs : List BMVert) (loops : List BMLoop) : Q3 :=
  newellNormal (loops.map (fun l => ((vs.get? l.v).map (·.co)).getD q3zero))

/-! ## Selection flag propagation (BM_vert_select_set and friends).
Selecting an edge selects its endpoints, selecting a face its corner
vertices and edges; these cascades are part of the marking module the
builder calls. -/

def vsel1 (vs : List BMVert) (i : Nat) : List BMVert :=
  listModify vs i (fun v => { v with sel := true })

def esel1 (es : List BMEdge) (i : Nat) : List BMEdge :=
  listModify es i (fun e => { e with sel := true })

/-! ## BM_mesh_bm_from_me -/

/-- BMeshFromMeshParams. -/
structure BMeshFromMeshParams where
  cd_mask_extra : CDType → Bool
  active_shapekey : Nat
  use_shapekey : Bool
  add_key_index : Bool
  calc_face_normal : Bool

def keyBlocksOf (me : Mesh) : List KeyBlock :=
  match me.key with
  | some k => k.blocks
  | none => []

/-- The vertex pass of the builder: one linked vertex per flat vertex, with
position from the active shape block when requested, flags, normals, the
gated bevel weight, the original-index layer value and every shape layer
value. -/
def buildVert (me : Mesh) (keyco : Option (List Q3)) (keyIndexPresent : Bool)
    (shapeTable : List KeyBlock) (i : Nat) (mv : MVert) : BMVert :=
  { co := match keyco with
          | some t => t.getD i q3zero
          | none => mv.co
    no := match me.vnormals with
          | some ns => ns.getD i q3zero
          | none => q3zero
    sel := mv.sel
    rest := mv.rest
    bweight := if me.cd_flag.vBweight then (mv.bweight : ℚ) / 255 else 0
    keyindex := if keyIndexPresent then (i : Int) else 0
    shape := shapeTable.map (fun b => b.data.getD i q3zero)
    attr := mv.attr }

/-- The edge a flat edge becomes: endpoints, flags and the gated bevel
weight and crease values. -/
def mkBMEdge (cd : CdFlags) (med : MEdge) : BMEdge :=
  { v1 := med.v1
    v2 := med.v2
    sel := med.sel
    draw := med.draw
    rest := med.rest
    bweight := if cd.eBweight then (med.bweight : ℚ) / 255 else 0
    crease := if cd.eCrease then (med.crease : ℚ) / 255 else 0
    attr := med.attr }

/-- The edge pass of the builder: create the edges in array order; a
selected flat edge also selects its endpoint vertices (BM_edge_select_set). -/
def buildEdges (cd : CdFlags) : List MEdge → List BMVert → List BMVert × List BMEdge
  | [], vs => (vs, [])
  | med :: rest, vs =>
    let vs1 := if med.sel then vsel1 (vsel1 vs med.v1) med.v2 else vs
    let o := buildEdges cd rest vs1
    (o.1, mkBMEdge cd med :: o.2)

/-- BM_face_select_set flag propagation: select the corner vertices and
edges of the face being selected. -/
def selFaceLoops (loops : List BMLoop) (vs : List BMVert) (es : List BMEdge) :
    List BMVert × List BMEdge :=
  loops.foldl (fun st l => (vsel1 st.1 l.v, esel1 st.2 l.e)) (vs, es)

def mkBMFace (calcN : Bool) (vs : List BMVert) (p : MPoly) (loops : List BMLoop) : BMFace :=
  { loops := loops
    sel := p.sel
    rest := p.rest
    mat := p.mat
    no := if calcN then faceNormalOf vs loops else q3zero
    attr := p.attr }

/-- Result of the face pass: the (possibly flag-updated) vertex and edge
lists, the created faces in order, the face table used by selection-history
resolution (none at a skipped polygon) and the skipped polygon indices the
builder reported. -/
structure FacesOut where
  vs : List BMVert
  es : List BMEdge
  faces : List BMFace
  ft : List (Option Nat)
  skipped : List Nat

/-- The face pass of the builder: create a face per polygon, skipping and
reporting rejected ones; indices of created faces stay dense (a created face
gets index totface - 1, the count of successes before it). -/
def buildFaces (calcN : Bool) (nv : Nat) (mloop : List MLoop) :
    List MPoly → Nat → Nat → List BMVert → List BMEdge → FacesOut
  | [], _, _, vs, es => ⟨vs, es, [], [], []⟩
  | p :: rest, i, fcount, vs, es =>
    match bm_face_create_from_mpoly nv es mloop p with
    | none =>
      let o := buildFaces calcN nv mloop rest (i + 1) fcount vs es
      ⟨o.vs, o.es, o.faces, none :: o.ft, i :: o.skipped⟩
    | some loops =>
      let st := if p.sel then selFaceLoops loops vs es else (vs, es)
      let f := mkBMFace calcN st.1 p loops
      let o := buildFaces calcN nv mloop rest (i + 1) (fcount + 1) st.1 st.2
      ⟨o.vs, o.es, f :: o.faces, some fcount :: o.ft, o.skipped⟩

/-- The identity resolution table of a freshly built domain of n elements. -/
def idTable (n : Nat) : List (Option Nat) := (List.range n).map some

/-- The table slot a selection record resolves through (none for an unknown
domain tag or an out-of-range index). -/
def selSlot (vt et ft : List (Option Nat)) (r : MSel) : Option Nat :=
  match r.dom with
  | .vsel => vt.getD r.index none
  | .esel => et.getD r.index none
  | .fsel => ft.getD r.index none
  | .invalid => none

/-- Rebuild of the selection history from the serialized MSelect list: each
record resolves through its domain table; a resolved slot is cleared so the
element is stored at most once; records with an unknown domain tag fall to
the switch default and are skipped.  An out-of-range index reads no table
slot here (undefined behaviour in the C code) and the record is dropped. -/
def rebuildSelect :
    List MSel → List (Option Nat) → List (Option Nat) → List (Option Nat) →
    List (BMDomain × Nat)
  | [], _, _, _ => []
  | r :: rest, vt, et, ft =>
    match r.dom with
    | .vsel =>
      match vt.getD r.index none with
      | some vi => (BMDomain.vert, vi) :: rebuildSelect rest (vt.set r.index none) et ft
      | none => rebuildSelect rest vt et ft
    | .esel =>
      match et.getD r.index none with
      | some ei => (BMDomain.edge, ei) :: rebuildSelect rest vt (et.set r.index none) ft
      | none => rebuildSelect rest vt et ft
    | .fsel =>
      match ft.getD r.index none with
      | some fi => (BMDomain.face, fi) :: rebuildSelect rest vt et (ft.set r.index none)
      | none => rebuildSelect rest vt et ft
    | .invalid => rebuildSelect rest vt et ft

/-- The is_new test of the builder: a BMesh with no vertices and no layer on
any domain is freshly created. -/
def bmeshIsNew (bm : BMesh) : Bool :=
  bm.verts.isEmpty && bm.vlayers.isEmpty && bm.elayers.isEmpty &&
    bm.players.isEmpty && bm.llayers.isEmpty

/-- BM_mesh_bm_from_me.  The depsgraph original-id check is modelled as
always true (the flat meshes considered are original documents); the
shape-key uid regeneration fallback is not modelled (blocks carry their
uids). -/
def BM_mesh_bm_from_me (bm : BMesh) (me : Mesh) (params : BMeshFromMeshParams) : BMesh :=
  let is_new := bmeshIsNew bm
  let mask := fun t => maskBMESH t || params.cd_mask_extra t
  if me.mvert.isEmpty then
    -- No verts? still copy custom-data layout (and init the block pools).
    if is_new then
      { bm with
        vlayers := me.vlayers.filter (fun L => mask L.ty)
        elayers := me.elayers.filter (fun L => mask L.ty)
        llayers := me.llayers.filter (fun L => mask L.ty)
        players := me.players.filter (fun L => mask L.ty)
        poolsInit := true }
    else bm
  else
    let vl0 := if is_new then me.vlayers.filter (fun L => mask L.ty)
               else mergeLayers bm.vlayers (me.vlayers.filter (fun L => mask L.ty))
    let el0 := if is_new then me.elayers.filter (fun L => mask L.ty)
               else mergeLayers bm.elayers (me.elayers.filter (fun L => mask L.ty))
    let ll0 := if is_new then me.llayers.filter (fun L => mask L.ty)
               else mergeLayers bm.llayers (me.llayers.filter (fun L => mask L.ty))
    let pl0 := if is_new then me.players.filter (fun L => mask L.ty)
               else mergeLayers bm.players (me.players.filter (fun L => mask L.ty))
    let tot0 := (keyBlocksOf me).length
    let tot_shape_keys := if is_new then tot0 else min tot0 (shapeLayers vl0).length
    let actkey := if !decide (params.active_shapekey = 0) && decide (0 < tot_shape_keys) then
        (keyBlocksOf me).get? (params.active_shapekey - 1)
      else none
    let vl1 := if is_new && (decide (0 < tot_shape_keys) || params.add_key_index) then
        addLayer vl0 .keyindex "" else vl0
    let actValid := match actkey with
      | some ak => decide (ak.data.length = me.mvert.length)
      | none => false
    let keyco : Option (List Q3) :=
      if actValid && params.use_shapekey then actkey.map (·.data) else none
    let shapenr1 := if decide (0 < tot_shape_keys) && actValid && is_new then
        params.active_shapekey else bm.shapenr
    let shapeTable := (keyBlocksOf me).take tot_shape_keys
    let vl2 := if decide (0 < tot_shape_keys) && is_new then
        vl1 ++ shapeTable.map (fun b => (⟨CDType.shapekey, b.bname, b.uid⟩ : Layer))
      else vl1
    let cdIn := if is_new then me.cd_flag
      else orFlags me.cd_flag (BM_mesh_cd_flag_from_bmesh { bm with vlayers := vl2, elayers := el0 })
    let vl3 := cdFlagApplyV vl2 cdIn
    let el3 := cdFlagApplyE el0 cdIn
    let keyIndexPresent := is_new && (decide (0 < tot_shape_keys) || params.add_key_index)
    let verts := mapIdxL (buildVert me keyco keyIndexPresent shapeTable) me.mvert
    let eo := buildEdges me.cd_flag me.medge verts
    let fo := buildFaces params.calc_face_normal me.mvert.length me.mloop me.mpoly 0 0 eo.1 eo.2
    let vt := idTable me.mvert.length
    let et := idTable me.medge.length
    let selected1 := if me.mselect.isEmpty then []
      else bm.selected ++ rebuildSelect me.mselect vt et fo.ft
    { verts := fo.vs
      edges := fo.es
      faces := fo.faces
      selected := selected1
      shapenr := shapenr1
      vlayers := vl3
      elayers := el3
      llayers := ll0
      players := pl0
      poolsInit := bm.poolsInit || is_new
      skipped := fo.skipped }

/-! ## The fresh-build path of the builder, named piecewise.
These definitions name the intermediate values BM_mesh_bm_from_me computes
when the destination BMesh is freshly created; the characterization lemma in
the theorem section equates the builder with their assembly. -/

def fromMeTot (me : Mesh) : Nat := (keyBlocksOf me).length

def fromMeActkey (me : Mesh) (p : BMeshFromMeshParams) : Option KeyBlock :=
  if !decide (p.active_shapekey = 0) && decide (0 < fromMeTot me) then
    (keyBlocksOf me).get? (p.active_shapekey - 1)
  else none

def fromMeActValid (me : Mesh) (p : BMeshFromMeshParams) : Bool :=
  match fromMeActkey me p with
  | some ak => decide (ak.data.length = me.mvert.length)
  | none => false

def fromMeKeyco (me : Mesh) (p : BMeshFromMeshParams) : Option (List Q3) :=
  if fromMeActValid me p && p.use_shapekey then (fromMeActkey me p).map (·.data) else none

def fromMeShapenr (me : Mesh) (p : BMeshFromMeshParams) : Nat :=
  if decide (0 < fromMeTot me) && fromMeActValid me p then p.active_shapekey else 0

def fromMeKIP (me : Mesh) (p : BMeshFromMeshParams) : Bool :=
  decide (0 < fromMeTot me) || p.add_key_index

def fromMeShapeTable (me : Mesh) : List KeyBlock := (keyBlocksOf me).take (fromMeTot me)

def fromMeVertsList (me : Mesh) (p : BMeshFromMeshParams) : List BMVert :=
  mapIdxL (buildVert me (fromMeKeyco me p) (fromMeKIP me p) (fromMeShapeTable me)) me.mvert

def fromMeEO (me : Mesh) (p : BMeshFromMeshParams) : List BMVert × List BMEdge :=
  buildEdges me.cd_flag me.medge (fromMeVertsList me p)

def fromMeFO (me : Mesh) (p : BMeshFromMeshParams) : FacesOut :=
  buildFaces p.calc_face_normal me.mvert.length me.mloop me.mpoly 0 0
    (fromMeEO me p).1 (fromMeEO me p).2

def fromMeVL0 (me : Mesh) (p : BMeshFromMeshParams) : List Layer :=
  me.vlayers.filter (fun L => maskBMESH L.ty || p.cd_mask_extra L.ty)

def fromMeVL1 (me : Mesh) (p : BMeshFromMeshParams) : List Layer :=
  if decide (0 < fromMeTot me) || p.add_key_index then addLayer (fromMeVL0 me p) .keyindex ""
  else fromMeVL0 me p

def fromMeVL2 (me : Mesh) (p : BMeshFromMeshParams) : List Layer :=
  if decide (0 < fromMeTot me) then
    fromMeVL1 me p ++ (fromMeShapeTable me).map
      (fun b => (⟨CDType.shapekey, b.bname, b.uid⟩ : Layer))
  else fromMeVL1 me p

def fromMeVLayers (me : Mesh) (p : BMeshFromMeshParams) : List Layer :=
  cdFlagApplyV (fromMeVL2 me p) me.cd_flag

def fromMeELayers (me : Mesh) (p : BMeshFromMeshParams) : List Layer :=
  cdFlagApplyE (me.elayers.filter (fun L => maskBMESH L.ty || p.cd_mask_extra L.ty))
    me.cd_flag

/-! ## BMesh to Mesh -/

/-- The radial fan of an edge: one face normal per loop that references the
edge, in face/loop creation order (the order radial insertion produces for
faces built in sequence; the first entry stands for e.l, the second for
e.l.radial_next). -/
def edgeRadialNormals (bm : BMesh) (i : Nat) : List Q3 :=
  bm.faces.flatMap (fun f => (f.loops.filter (fun l => decide (l.e = i))).map (fun _ => f.no))

def edgeDrawThreshold : ℚ := 9995 / 10000

/-- bmesh_quick_edgedraw_flag: clear ME_EDGEDRAW exactly when the edge has
two radial loops at least and the first two radial face normals have a dot
product above the 0.9995 threshold; set it otherwise. -/
def bmesh_quick_edgedraw_flag (bm : BMesh) (i : Nat) : Bool :=
  match edgeRadialNormals bm i with
  | n1 :: n2 :: _ => if edgeDrawThreshold < dot_v3v3 n1 n2 then false else true
  | _ => true

/-- unit_float_to_uchar_clamp of the math library, modelled from the spec:
clamp to [0, 255] and round half up. -/
def unit_float_to_uchar_clamp (q : ℚ) : Nat :=
  if q ≤ 0 then 0
  else if 1 - 1 / 510 < q then 255
  else (q * 255 + 1 / 2).floor.toNat

/-- bm_to_mesh_vertex_map: the original-index table, length ototvert.  With
an original-index layer, the first vertex carrying a given valid original
index claims that slot (later duplicates are ignored); without one, the map
is positional.  A negative original index other than -1 would be undefined
in the C code; such values are treated as not resolving. -/
def bm_to_mesh_vertex_map (bm : BMesh) (ototvert : Nat) : List (Option Nat) :=
  let init := (List.range ototvert).map (fun _ => (none : Option Nat))
  if hasLayer bm.vlayers .keyindex then
    (mapIdxL (fun i v => (i, v.keyindex)) bm.verts).foldl
      (fun m p =>
        if 0 ≤ p.2 ∧ p.2 < (ototvert : Int) ∧ m.getD p.2.toNat none = none then
          m.set p.2.toNat (some p.1)
        else m)
      init
  else
    (List.range (min ototvert bm.verts.length)).foldl (fun m i => m.set i (some i)) init

/-- The hook-modifier index loop of BM_mesh_bm_to_me, verbatim: a read
cursor walks the original entries while a write cursor j lags; an in-range
entry that resolves is rewritten at j, an in-range entry that does not
resolve is dropped, and an out-of-range entry advances j without writing. -/
def hookRemapLoop (vm : List (Option Nat)) (oto : Nat) :
    List Nat → List Nat × Nat → List Nat × Nat
  | [], st => st
  | v :: rest, st =>
    if v < oto then
      match vm.getD v none with
      | some ni => hookRemapLoop vm oto rest (st.1.set st.2 ni, st.2 + 1)
      | none => hookRemapLoop vm oto rest st
    else hookRemapLoop vm oto rest (st.1, st.2 + 1)

/-- One hook index array after the loop: the first totindex = j slots. -/
def hookRemapArray (vm : List (Option Nat)) (oto : Nat) (indexar : List Nat) : List Nat :=
  let st := hookRemapLoop vm oto indexar (indexar, 0)
  st.1.take st.2

/-- bm_to_mesh_shape_layer_index_from_kb: the position of the key block
among the shape-key layers, matched by uid; none for -1. -/
def bm_to_mesh_shape_layer_index_from_kb (vls : List Layer) (kb : KeyBlock) : Option Nat :=
  (mapIdxL (fun j L => (j, L.uid)) (shapeLayers vls)).findSome?
    (fun p => if p.2 = kb.uid then some p.1 else none)

/-- Modelled from the spec: BKE_keyblock_add appends a fresh empty block
carrying the layer name; the extractor then stamps its uid.  A fresh block
has no data and a zero relative index. -/
def keyblockSynth (L : Layer) : KeyBlock := ⟨L.lname, L.uid, 0, []⟩

/-- The reconciliation pass over shape layers with no corresponding block:
append a synthesized block per unmatched layer uid. -/
def synthBlocks (k : Key) (vls : List Layer) : List KeyBlock :=
  k.blocks ++
    ((shapeLayers vls).filter
        (fun L => !k.blocks.any (fun b => decide (b.uid = L.uid)))).map keyblockSynth

/-- Modelled from the spec: BKE_keyblock_is_basis holds when, in a relative
key, some other block is relative to the block at the given index. -/
def keyblock_is_basis (k : Key) (idx : Nat) : Bool :=
  k.isRelative &&
    (mapIdxL (fun j b => (j, b.relative)) k.blocks).any
      (fun p => decide (p.1 ≠ idx) && decide (p.2 = idx))

/-- The offset pass of the extractor: when every vertex carries an original
index resolving into the active block, the per-vertex offset of the new
position against the old active data; the whole array is dropped (none) as
soon as one vertex fails to resolve. -/
def computeOfs (verts : List BMVert) (ak : KeyBlock) : Option (List Q3) :=
  if verts.all (fun v => decide (0 ≤ v.keyindex) && decide (v.keyindex < (ak.data.length : Int))) then
    some (verts.map (fun v => q3sub v.co (ak.data.getD v.keyindex.toNat q3zero)))
  else none

/-- The per-vertex value written into the block being rebuilt, before any
offset: the current position for the active block; the bound shape layer
value when the block has one; the old block data at the original index when
that resolves; else the current flat vertex position as a dummy. -/
def shapeFp (isAct : Bool) (layerPos : Option Nat) (keyIndexPresent : Bool)
    (blk : KeyBlock) (mvco : Q3) (eve : BMVert) : Q3 :=
  if isAct then eve.co
  else
    match layerPos with
    | some j => eve.shape.getD j q3zero
    | none =>
      if !blk.data.isEmpty && keyIndexPresent && decide (0 ≤ eve.keyindex) &&
          decide (eve.keyindex < (blk.data.length : Int)) then
        blk.data.getD eve.keyindex.toNat q3zero
      else mvco

/-- Rebuild of one key block inside the extractor loop: produces the new
block data, restores flat vertex positions from the preserved old array when
the active non-reference block is being written, and writes offset values
back into the bound shape layer when the offset applies.  Returns the new
block together with the updated flat-vertex and linked-vertex states. -/
def processBlock (keyIndexPresent : Bool) (oldverts : Option (List MVert))
    (ofs : Option (List Q3)) (shapenr refIndex : Nat) (actSome : Bool)
    (vls : List Layer) (kIdx : Nat) (blk : KeyBlock)
    (mvs : List MVert) (bvs : List BMVert) :
    KeyBlock × List MVert × List BMVert :=
  let layerPos := bm_to_mesh_shape_layer_index_from_kb vls blk
  let isAct := actSome && decide (kIdx = shapenr - 1)
  let actIsRef := decide ((shapenr : Int) - 1 = (refIndex : Int))
  let applyOff := layerPos.isSome && ofs.isSome && !isAct &&
    decide ((shapenr : Int) - 1 = (blk.relative : Int))
  let fpAt : Nat → Q3 := fun i =>
    match bvs.get? i with
    | some eve =>
      let base := shapeFp isAct layerPos keyIndexPresent blk
        (((mvs.get? i).map (·.co)).getD q3zero) eve
      if applyOff then q3add base ((ofs.getD []).getD i q3zero) else base
    | none => q3zero
  let newData := (List.range bvs.length).map fpAt
  let mvs1 :=
    match oldverts with
    | some old =>
      if isAct && !actIsRef && keyIndexPresent then
        mapIdxL (fun i mv =>
          match bvs.get? i with
          | some eve =>
            if 0 ≤ eve.keyindex ∧ eve.keyindex < (blk.data.length : Int) then
              match old.get? eve.keyindex.toNat with
              | some omv => { mv with co := omv.co }
              | none => mv
            else mv
          | none => mv) mvs
      else mvs
    | none => mvs
  let bvs1 :=
    if applyOff then
      mapIdxL (fun i eve =>
        { eve with shape := match layerPos with
                            | some j => eve.shape.set j (fpAt i)
                            | none => eve.shape }) bvs
    else bvs
  ({ blk with data := newData }, mvs1, bvs1)

/-- The extractor loop over all key blocks, threading the flat-vertex and
linked-vertex states through the per-block rebuilds. -/
def processBlocks (keyIndexPresent : Bool) (oldverts : Option (List MVert))
    (ofs : Option (List Q3)) (shapenr refIndex : Nat) (actSome : Bool)
    (vls : List Layer) :
    List (Nat × KeyBlock) → List MVert → List BMVert →
    List KeyBlock × List MVert × List BMVert
  | [], mvs, bvs => ([], mvs, bvs)
  | (kIdx, blk) :: rest, mvs, bvs =>
    let r := processBlock keyIndexPresent oldverts ofs shapenr refIndex actSome vls
      kIdx blk mvs bvs
    let o := processBlocks keyIndexPresent oldverts ofs shapenr refIndex actSome vls
      rest r.2.1 r.2.2
    (r.1 :: o.1, o.2.1, o.2.2)

/-- The face walk of the extractor: polygons get recomputed loopstart values
j and their loops are written out contiguously in cycle order. -/
def facesToPolys : List BMFace → Nat → List MPoly × List MLoop
  | [], _ => ([], [])
  | f :: rest, j =>
    let o := facesToPolys rest (j + f.loops.length)
    ({ loopstart := j, totloop := f.loops.length, sel := f.sel, rest := f.rest,
       mat := f.mat, attr := f.attr } :: o.1,
     f.loops.map (fun l => (⟨l.v, l.e, l.attr⟩ : MLoop)) ++ o.2)

/-- BMeshToMeshParams. -/
structure BMeshToMeshParams where
  cd_mask_extra : CDType → Bool
  calc_object_remap : Bool
  update_shapekey_indices : Bool

/-- Result of BM_mesh_bm_to_me: the repopulated flat mesh, the (possibly
shape-layer- and index-updated) linked mesh, and the hook-modifier index
arrays after the object remap. -/
structure ToMeOut where
  me : Mesh
  bm : BMesh
  hooks : List (List Nat)

def bmDomainToSel : BMDomain → MSelType
  | .vert => .vsel
  | .edge => .esel
  | .face => .fsel

/-- The vertex walk of the extractor. -/
def toMeVerts (bm : BMesh) : List MVert :=
  let hasVB := hasLayer bm.vlayers .bweight
  bm.verts.map (fun v =>
    ({ co := v.co, sel := v.sel, rest := v.rest,
       bweight := if hasVB then unit_float_to_uchar_clamp v.bweight else 0,
       attr := v.attr } : MVert))

/-- The edge walk of the extractor, quick-draw recomputation included. -/
def toMeEdges (bm : BMesh) : List MEdge :=
  let hasEB := hasLayer bm.elayers .bweight
  let hasEC := hasLayer bm.elayers .crease
  mapIdxL (fun i e =>
    ({ v1 := e.v1, v2 := e.v2, sel := e.sel,
       draw := bmesh_quick_edgedraw_flag bm i, rest := e.rest,
       bweight := if hasEB then unit_float_to_uchar_clamp e.bweight else 0,
       crease := if hasEC then unit_float_to_uchar_clamp e.crease else 0,
       attr := e.attr } : MEdge)) bm.edges

/-- The shape-key section of the extractor: the preserved old vertex array,
the key-block synthesis, the basis-offset computation and the per-block
rebuild loop. -/
def toMeShape (bm : BMesh) (me : Mesh) (mvert1 : List MVert) :
    Option Key × List MVert × List BMVert :=
  let keyIndexPresent := hasLayer bm.vlayers .keyindex
  let oldverts : Option (List MVert) :=
    if me.key.isSome && keyIndexPresent then some me.mvert else none
  match me.key with
  | none => (none, mvert1, bm.verts)
  | some k =>
    let actkey := if bm.shapenr = 0 then none else k.blocks.get? (bm.shapenr - 1)
    let blocks1 := synthBlocks k bm.vlayers
    let ofs :=
      if k.isRelative && actkey.isSome && oldverts.isSome && keyIndexPresent &&
          keyblock_is_basis k (bm.shapenr - 1) then
        match actkey with
        | some ak => computeOfs bm.verts ak
        | none => none
      else none
    let r := processBlocks keyIndexPresent oldverts ofs bm.shapenr k.refIndex
      actkey.isSome bm.vlayers (mapIdxL (fun j b => (j, b)) blocks1) mvert1 bm.verts
    (some { k with blocks := r.1 }, r.2.1, r.2.2)

/-- BM_mesh_bm_to_me.  hooks carries the index arrays of the hook modifiers
on objects using this mesh (the vertex-parent remap of the same block is not
modelled).  Tessellation face data, multires re-tessellation and runtime
cache clearing have no observable counterpart here. -/
def BM_mesh_bm_to_me (bm : BMesh) (me : Mesh) (hooks : List (List Nat))
    (params : BMeshToMeshParams) : ToMeOut :=
  let keyIndexPresent := hasLayer bm.vlayers .keyindex
  let ototvert := me.mvert.length
  let mask := fun t => maskMESH t || params.cd_mask_extra t
  let vl := bm.vlayers.filter (fun L => mask L.ty)
  let el := bm.elayers.filter (fun L => mask L.ty)
  let ll := bm.llayers.filter (fun L => mask L.ty)
  let pl := bm.players.filter (fun L => mask L.ty)
  let mvert1 := toMeVerts bm
  let medge1 := toMeEdges bm
  let polyLoop := facesToPolys bm.faces 0
  let hooks1 := if params.calc_object_remap && decide (0 < ototvert) then
      hooks.map (hookRemapArray (bm_to_mesh_vertex_map bm ototvert) ototvert)
    else hooks
  let mselect1 := bm.selected.map (fun p => (⟨bmDomainToSel p.1, p.2⟩ : MSel))
  let shaped := toMeShape bm me mvert1
  let bvsFinal := if params.update_shapekey_indices && keyIndexPresent then
      mapIdxL (fun i v => { v with keyindex := (i : Int) }) shaped.2.2
    else shaped.2.2
  { me := { mvert := shaped.2.1
            medge := medge1
            mloop := polyLoop.2
            mpoly := polyLoop.1
            mselect := mselect1
            key := shaped.1
            cd_flag := BM_mesh_cd_flag_from_bmesh bm
            vnormals := none
            vlayers := vl, elayers := el, llayers := ll, players := pl }
    bm := { bm with verts := bvsFinal }
    hooks := hooks1 }

/-- BM_mesh_bm_to_me_for_eval: the reduced read-only extraction into an
empty destination.  The copy mask is CD_MASK_DERIVEDMESH plus the extra
mask, with shape-key layers stripped from the vertex mask; no selection
history, no remap, no shape reconciliation.  Edge draw handling differs from
interactive extraction: draw is only switched on for single-user edges. -/
def BM_mesh_bm_to_me_for_eval (bm : BMesh) (extra : CDType → Bool) : Mesh :=
  let maskv := fun t => (maskDERIVEDMESH t || extra t) && !decide (t = CDType.shapekey)
  let maske := fun t => maskDERIVEDMESH t || extra t
  let hasVB := hasLayer bm.vlayers .bweight
  let hasEB := hasLayer bm.elayers .bweight
  let hasEC := hasLayer bm.elayers .crease
  let polyLoop := facesToPolys bm.faces 0
  { mvert := bm.verts.map (fun v =>
      ({ co := v.co, sel := v.sel, rest := v.rest,
         bweight := if hasVB then unit_float_to_uchar_clamp v.bweight else 0,
         attr := v.attr } : MVert))
    medge := mapIdxL (fun i e =>
      ({ v1 := e.v1, v2 := e.v2, sel := e.sel,
         draw := e.draw || decide ((edgeRadialNormals bm i).length = 1),
         rest := e.rest,
         bweight := if hasEB then unit_float_to_uchar_clamp e.bweight else 0,
         crease := if hasEC then unit_float_to_uchar_clamp e.crease else 0,
         attr := e.attr } : MEdge)) bm.edges
    mloop := polyLoop.2
    mpoly := polyLoop.1
    mselect := []
    key := none
    cd_flag := BM_mesh_cd_flag_from_bmesh bm
    vnormals := none
    vlayers := bm.vlayers.filter (fun L => maskv L.ty)
    elayers := bm.elayers.filter (fun L => maske L.ty)
    llayers := bm.llayers.filter (fun L => maske L.ty)
    players := bm.players.filter (fun L => maske L.ty) }

/-! ## The Index Set utility.
Only the test file BLI_index_mask_test.cc of this utility is in the
repository excerpt, so the type and its operations are modelled from the
spec (section 4.1) and checked against the expectations of that test. -/

/-- Modelled from the spec: an Index Set is backed either by a contiguous
range (bounds only) or by an explicit array of values. -/
inductive IndexMaskRep where
  | ofRange (start size : Nat)
  | ofArray (vals : List Int)
deriving DecidableEq

/-- The ascending value list [b, b + 1, ..., b + n - 1]. -/
def rangeList : Int → Nat → List Int
  | _, 0 => []
  | b, n + 1 => b :: rangeList (b + 1) n

/-- The value sequence an Index Set denotes. -/
def imValues : IndexMaskRep → List Int
  | .ofRange s n => rangeList s n
  | .ofArray vs => vs

def imSize (m : IndexMaskRep) : Nat := (imValues m).length

/-- Whether a value list counts up by one from its head. -/
def contiguousFrom : Int → List Int → Bool
  | _, [] => true
  | x, v :: vs => decide (v = x) && contiguousFrom (x + 1) vs

def isContiguous : List Int → Bool
  | [] => true
  | v :: vs => contiguousFrom (v + 1) vs

/-- Modelled from the spec: is_range holds for a non-empty set whose values
are contiguous. -/
def im_is_range (m : IndexMaskRep) : Bool :=
  decide (0 < imSize m) && isContiguous (imValues m)

/-- Modelled from the spec: slice_and_offset takes the subrange of positions
[s, s+k) and re-bases every value by subtracting the first sliced value; a
contiguous result is returned in range form without materializing an array,
otherwise the explicit re-based values are materialized. -/
def slice_and_offset (m : IndexMaskRep) (s k : Nat) : IndexMaskRep :=
  let vals := ((imValues m).drop s).take k
  if isContiguous vals then .ofRange 0 vals.length
  else .ofArray (vals.map (fun v => v - vals.headD 0))

/-! ## Round-trip and editing scenarios used by the claims -/

/-- The builder parameters of a plain enter-edit-mode call: no extra mask,
shape index as given, shapes used for positions, no explicit key-index
request, no face-normal recomputation. -/
def stdFromParams (shapenr : Nat) : BMeshFromMeshParams :=
  { cd_mask_extra := fun _ => false
    active_shapekey := shapenr
    use_shapekey := true
    add_key_index := false
    calc_face_normal := false }

/-- The extractor parameters of a plain exit-edit-mode call. -/
def stdToParams : BMeshToMeshParams :=
  { cd_mask_extra := fun _ => false
    calc_object_remap := false
    update_shapekey_indices := false }

/-- Build from a flat mesh into a fresh BMesh and extract straight back with
no edits. -/
def roundTrip (me : Mesh) : ToMeOut :=
  BM_mesh_bm_to_me (BM_mesh_bm_from_me emptyBM me (stdFromParams 0)) me [] stdToParams

/-- Edit that moves every vertex (only positions change). -/
def setPositions (bm : BMesh) (f : Nat → Q3) : BMesh :=
  { bm with verts := mapIdxL (fun i v => { v with co := f i }) bm.verts }

/-- Edit that rewrites every vertex original index (models topology changes
that strike original indices out). -/
def setKeyindexes (bm : BMesh) (g : Nat → Int) : BMesh :=
  { bm with verts := mapIdxL (fun i v => { v with keyindex := g i }) bm.verts }

/-- Deletion of an isolated vertex during editing (BM_vert_kill on a vertex
no edge or loop references): the vertex leaves the pool, higher vertex
indices shift down in every reference, and the selection history drops the
records of the deleted element (the marking module purges them). -/
def shiftIdx (k i : Nat) : Nat := if k < i then i - 1 else i

def deleteVert (bm : BMesh) (k : Nat) : BMesh :=
  { bm with
    verts := bm.verts.take k ++ bm.verts.drop (k + 1)
    edges := bm.edges.map (fun e => { e with v1 := shiftIdx k e.v1, v2 := shiftIdx k e.v2 })
    faces := bm.faces.map (fun f =>
      { f with loops := f.loops.map (fun l => { l with v := shiftIdx k l.v }) })
    selected := bm.selected.filterMap (fun p =>
      match p.1 with
      | .vert => if p.2 = k then none else some (p.1, shiftIdx k p.2)
      | _ => some p) }

/-! ## Concrete instances used by counterexamples and witnesses -/

/-- A flat mesh with no vertices but one generic vertex layer. -/
def meshEmptyOneLayer : Mesh :=
  { mvert := [], medge := [], mloop := [], mpoly := [], mselect := [],
    key := none, cd_flag := ⟨false, false, false, false⟩, vnormals := none,
    vlayers := [⟨.generic 0, "col", 0⟩], elayers := [], llayers := [], players := [] }

/-- A flat mesh with nothing in it at all. -/
def meshEmptyPlain : Mesh :=
  { mvert := [], medge := [], mloop := [], mpoly := [], mselect := [],
    key := none, cd_flag := ⟨false, false, false, false⟩, vnormals := none,
    vlayers := [], elayers := [], llayers := [], players := [] }

def plainBMVert (q : Q3) : BMVert :=
  { co := q, no := q3zero, sel := false, rest := 0, bweight := 0, keyindex := 0,
    shape := [], attr := 0 }

def plainBMEdge (a b : Nat) : BMEdge :=
  { v1 := a, v2 := b, sel := false, draw := false, rest := 0, bweight := 0,
    crease := 0, attr := 0 }

def fanFace (ls : List BMLoop) : BMFace :=
  { loops := ls, sel := false, rest := 0, mat := 0, no := ⟨0, 0, 1⟩, attr := 0 }

/-- A linked mesh whose edge 0 is shared by three triangles with identical
unit normals: a non-manifold fan around that edge. -/
def bmEdgeFan3 : BMesh :=
  { emptyBM with
    verts := [plainBMVert ⟨0, 0, 0⟩, plainBMVert ⟨1, 0, 0⟩, plainBMVert ⟨0, 1, 0⟩,
              plainBMVert ⟨0, 2, 0⟩, plainBMVert ⟨0, 3, 0⟩]
    edges := [plainBMEdge 0 1, plainBMEdge 1 2, plainBMEdge 2 0,
              plainBMEdge 1 3, plainBMEdge 3 0, plainBMEdge 1 4, plainBMEdge 4 0]
    faces := [fanFace [⟨0, 0, 0⟩, ⟨1, 1, 0⟩, ⟨2, 2, 0⟩],
              fanFace [⟨0, 0, 0⟩, ⟨1, 3, 0⟩, ⟨3, 4, 0⟩],
              fanFace [⟨0, 0, 0⟩, ⟨1, 5, 0⟩, ⟨4, 6, 0⟩]] }

/-- A flat mesh with one plain vertex. -/
def meshOneVert : Mesh :=
  { meshEmptyPlain with mvert := [{ co := ⟨0, 0, 0⟩, sel := false, rest := 0,
                                    bweight := 0, attr := 0 }] }

/-- A linked mesh with an original-index layer whose only vertex carries the
stale original index 5, so no slot of a one-entry original-index map
resolves. -/
def bmStaleIndex : BMesh :=
  { emptyBM with
    verts := [{ plainBMVert ⟨0, 0, 0⟩ with keyindex := 5 }]
    vlayers := [⟨.keyindex, "", 0⟩] }

/-- Extraction parameters with the object remap requested. -/
def remapToParams : BMeshToMeshParams :=
  { cd_mask_extra := fun _ => false
    calc_object_remap := true
    update_shapekey_indices := false }

/-- A selection record that references a live element of the flat mesh: a
known domain tag and an index inside that domain. -/
def mselValidB (me : Mesh) (r : MSel) : Bool :=
  match r.dom with
  | .vsel => decide (r.index < me.mvert.length)
  | .esel => decide (r.index < me.medge.length)
  | .fsel => decide (r.index < me.mpoly.length)
  | .invalid => false

/-- The BMesh domain a valid selection tag resolves to (the invalid tag
never resolves). -/
def selDomOf : MSelType → BMDomain
  | .vsel => .vert
  | .esel => .edge
  | .fsel => .face
  | .invalid => .vert

def mvPlain (q : Q3) : MVert :=
  { co := q, sel := false, rest := 0, bweight := 0, attr := 0 }

/-- A single flat triangle with one generic vertex layer. -/
def meshTri : Mesh :=
  { mvert := [mvPlain ⟨0, 0, 0⟩, mvPlain ⟨1, 0, 0⟩, mvPlain ⟨0, 1, 0⟩]
    medge := [⟨0, 1, false, true, 0, 0, 0, 0⟩, ⟨1, 2, false, true, 0, 0, 0, 0⟩,
              ⟨2, 0, false, true, 0, 0, 0, 0⟩]
    mloop := [⟨0, 0, 10⟩, ⟨1, 1, 11⟩, ⟨2, 2, 12⟩]
    mpoly := [⟨0, 3, false, 0, 0, 7⟩]
    mselect := []
    key := none
    cd_flag := ⟨false, false, false, false⟩
    vnormals := none
    vlayers := [⟨.generic 1, "col", 0⟩], elayers := [], llayers := [], players := [] }

/-- The triangle mesh with a malformed polygon in front: the bad polygon
references loops whose edge (edge 0 throughout) does not pair its corner
vertices. -/
def meshTriBad : Mesh :=
  { meshTri with
    mloop := meshTri.mloop ++ [⟨0, 0, 20⟩, ⟨1, 0, 21⟩, ⟨2, 0, 22⟩]
    mpoly := [⟨3, 3, false, 0, 0, 8⟩, ⟨0, 3, false, 0, 0, 7⟩] }

/-- The triangle with a selection history covering all three domains. -/
def meshTriSel : Mesh :=
  { meshTri with mselect := [⟨.fsel, 0⟩, ⟨.vsel, 2⟩, ⟨.esel, 1⟩] }

/-- Two isolated vertices with a selection history that names vertex 0
twice: every record references a live element. -/
def meshDupSel : Mesh :=
  { meshEmptyPlain with
    mvert := [mvPlain ⟨0, 0, 0⟩, mvPlain ⟨1, 0, 0⟩]
    mselect := [⟨.vsel, 0⟩, ⟨.vsel, 0⟩] }

/-- Contiguity of the polygon loop slices: starting at write position j the
polygons tile the loop array back to back and together they exhaust it. -/
def polysTile (nloops : Nat) : Nat → List MPoly → Bool
  | j, [] => decide (j = nloops)
  | j, p :: rest => decide (p.loopstart = j) && polysTile nloops (j + p.totloop) rest

/-- The vertex at index i is selected (vacuously true out of range, where the
selection cascade touches nothing). -/
def vertSelOk (mvert : List MVert) (i : Nat) : Bool :=
  match mvert.get? i with
  | some v => v.sel
  | none => true

def edgeSelOk (medge : List MEdge) (i : Nat) : Bool :=
  match medge.get? i with
  | some e => e.sel
  | none => true

/-- The selection flags of the flat mesh are closed under the cascades the
builder runs: a selected edge has selected endpoints and a selected polygon
has selected corner vertices and edges. -/
def selConsistent (me : Mesh) : Bool :=
  me.medge.all (fun e => !e.sel || (vertSelOk me.mvert e.v1 && vertSelOk me.mvert e.v2)) &&
  me.mpoly.all (fun q => !q.sel || (faceLoopSlice me.mloop q).all (fun l =>
    vertSelOk me.mvert l.v && edgeSelOk me.medge l.e))

/-- The byte-valued fields are genuine bytes and are zero wherever the
cd_flag bit that gates their transfer is unset. -/
def bytesOk (me : Mesh) : Bool :=
  me.mvert.all (fun v => decide (v.bweight ≤ 255) &&
    (me.cd_flag.vBweight || decide (v.bweight = 0))) &&
  me.medge.all (fun e => decide (e.bweight ≤ 255) && decide (e.crease ≤ 255) &&
    (me.cd_flag.eBweight || decide (e.bweight = 0)) &&
    (me.cd_flag.eCrease || decide (e.crease = 0)))

/-- Every attribute layer of the flat mesh is of a type the flat copy mask
persists. -/
def layersPersist (me : Mesh) : Bool :=
  (me.vlayers ++ me.elayers ++ me.llayers ++ me.players).all (fun L => maskMESH L.ty)

/-- Two isolated vertices joined by an edge whose draw flag is cleared. -/
def meshEdgeDraw : Mesh :=
  { meshEmptyPlain with
    mvert := [mvPlain ⟨0, 0, 0⟩, mvPlain ⟨1, 0, 0⟩]
    medge := [⟨0, 1, false, false, 0, 0, 0, 0⟩] }

/-- A basis shape block and a block relative to it, with distinct uids. -/
def shapeB : KeyBlock := ⟨"Basis", 1, 0, [⟨0, 0, 0⟩]⟩

def shapeD : KeyBlock := ⟨"Dep", 2, 0, [⟨5, 0, 0⟩]⟩

/-- A one-vertex flat mesh carrying a relative two-block shape key whose
second block is relative to the first. -/
def shapeMe : Mesh :=
  { meshEmptyPlain with
    mvert := [mvPlain ⟨0, 0, 0⟩]
    key := some ⟨[shapeB, shapeD], true, 0⟩ }

/-- A table is injective on filled slots. -/
def tableInj (t : List (Option Nat)) : Prop :=
  ∀ i j x, t.getD i none = some x → t.getD j none = some x → i = j

/-- Some slot of the table holds x. -/
def memTable (t : List (Option Nat)) (x : Nat) : Prop :=
  ∃ i, t.getD i none = some x

/-! ## Generic lemmas about the list helpers -/

theorem mapIdxFrom_length (f : Nat → α → β) (i : Nat) (l : List α) :
    (mapIdxFrom f i l).length = l.length := by
  induction l generalizing i with
  | nil => rfl
  | cons a as ih => simp [mapIdxFrom, ih]

theorem mapIdxFrom_get? (f : Nat → α → β) (i n : Nat) (l : List α) :
    (mapIdxFrom f i l).get? n = (l.get? n).map (f (i + n)) := by
  induction l generalizing i n with
  | nil => simp [mapIdxFrom]
  | cons a as ih =>
    cases n with
    | zero => simp [mapIdxFrom]
    | succ m =>
      simp only [mapIdxFrom, List.get?_cons_succ, ih]
      have he : i + 1 + m = i + (m + 1) := by omega
      rw [he]

theorem mapIdxL_length (f : Nat → α → β) (l : List α) :
    (mapIdxL f l).length = l.length := mapIdxFrom_length f 0 l

theorem mapIdxL_get? (f : Nat → α → β) (n : Nat) (l : List α) :
    (mapIdxL f l).get? n = (l.get? n).map (f n) := by
  simpa using mapIdxFrom_get? f 0 n l

theorem mapIdxFrom_eq_map (f : Nat → α → β) (g : α → β) (i : Nat) (l : List α)
    (h : ∀ j a, f j a = g a) : mapIdxFrom f i l = l.map g := by
  induction l generalizing i with
  | nil => rfl
  | cons a as ih => simp [mapIdxFrom, h, ih]

theorem mapIdxFrom_eq_self (f : Nat → α → α) (i : Nat) (l : List α)
    (h : ∀ j a, l.get? j = some a → f (i + j) a = a) : mapIdxFrom f i l = l := by
  induction l generalizing i with
  | nil => rfl
  | cons a as ih =>
    simp only [mapIdxFrom]
    have h0 : f (i + 0) a = a := h 0 a rfl
    rw [Nat.add_zero] at h0
    rw [h0, ih (i + 1) (fun j b hb => by
      have hx := h (j + 1) b hb
      have he : i + (j + 1) = i + 1 + j := by omega
      rw [he] at hx
      exact hx)]

theorem mapIdxFrom_map (f : Nat → β → γ) (g : α → β) (i : Nat) (l : List α) :
    mapIdxFrom f i (l.map g) = mapIdxFrom (fun j a => f j (g a)) i l := by
  induction l generalizing i with
  | nil => rfl
  | cons a as ih => simp [mapIdxFrom, ih]

theorem map_mapIdxFrom (f : Nat → α → β) (g : β → γ) (i : Nat) (l : List α) :
    (mapIdxFrom f i l).map g = mapIdxFrom (fun j a => g (f j a)) i l := by
  induction l generalizing i with
  | nil => rfl
  | cons a as ih => simp [mapIdxFrom, ih]

theorem get?_set' (l : List α) (i n : Nat) (b : α) :
    (l.set i b).get? n = if n = i then (l.get? n).map (fun _ => b) else l.get? n := by
  induction l generalizing i n with
  | nil => simp [List.set]
  | cons a as ih =>
    cases i with
    | zero =>
      cases n with
      | zero => simp
      | succ m => simp
    | succ j =>
      cases n with
      | zero => simp
      | succ m => simpa using ih j m

theorem set_eq_self_of_get? (l : List α) (i : Nat) (a : α) (h : l.get? i = some a) :
    l.set i a = l := by
  induction l generalizing i with
  | nil => rfl
  | cons x xs ih =>
    cases i with
    | zero =>
      have hx : x = a := Option.some.inj h
      simp [List.set, hx]
    | succ j =>
      have h' : xs.get? j = some a := h
      simp [List.set, ih j h']

theorem listModify_noop (l : List α) (i : Nat) (f : α → α)
    (h : ∀ a, l.get? i = some a → f a = a) : listModify l i f = l := by
  unfold listModify
  cases hg : l.get? i with
  | none => rfl
  | some a =>
    simp only [hg]
    rw [h a hg]
    exact set_eq_self_of_get? l i a hg

theorem get?_listModify (l : List α) (i n : Nat) (f : α → α) :
    (listModify l i f).get? n =
      if n = i ∧ (l.get? i).isSome then (l.get? n).map f else l.get? n := by
  unfold listModify
  cases hg : l.get? i with
  | none => simp [hg]
  | some a =>
    simp only [hg, Option.isSome_some, and_true]
    rw [get?_set' l i n (f a)]
    by_cases hn : n = i
    · subst hn
      rw [hg]
      simp
    · simp [hn]

/-! ## Lemmas about resolution tables -/

theorem getD_none_eq (l : List (Option α)) (n : Nat) :
    l.getD n none = (l.get? n).getD none := by
  induction l generalizing n with
  | nil => cases n <;> rfl
  | cons a t ih =>
    cases n with
    | zero => rfl
    | succ m => exact ih m

theorem getD_set_none (l : List (Option Nat)) (i j : Nat) :
    (l.set i none).getD j none = if j = i then none else l.getD j none := by
  rw [getD_none_eq, getD_none_eq, get?_set' l i j none]
  by_cases hj : j = i
  · rw [if_pos hj, if_pos hj]
    cases l.get? j <;> rfl
  · rw [if_neg hj, if_neg hj]

theorem tableInj_set_none (t : List (Option Nat)) (i : Nat) (h : tableInj t) :
    tableInj (t.set i none) := by
  intro a b x ha hb
  rw [getD_set_none] at ha hb
  by_cases hai : a = i
  · rw [if_pos hai] at ha; cases ha
  · rw [if_neg hai] at ha
    by_cases hbi : b = i
    · rw [if_pos hbi] at hb; cases hb
    · rw [if_neg hbi] at hb
      exact h a b x ha hb

theorem memTable_of_set_none (t : List (Option Nat)) (i : Nat) (x : Nat)
    (h : memTable (t.set i none) x) : memTable t x := by
  obtain ⟨j, hj⟩ := h
  rw [getD_set_none] at hj
  by_cases hji : j = i
  · rw [if_pos hji] at hj; cases hj
  · rw [if_neg hji] at hj
    exact ⟨j, hj⟩

theorem not_memTable_set_none_self (t : List (Option Nat)) (i : Nat) (x : Nat)
    (hinj : tableInj t) (hi : t.getD i none = some x) :
    ¬ memTable (t.set i none) x := by
  rintro ⟨j, hj⟩
  rw [getD_set_none] at hj
  by_cases hji : j = i
  · rw [if_pos hji] at hj; cases hj
  · rw [if_neg hji] at hj
    exact hji (hinj j i x hj hi)

theorem idTable_getD (n i : Nat) :
    (idTable n).getD i none = if i < n then some i else none := by
  rw [getD_none_eq]
  unfold idTable
  rw [List.get?_map]
  by_cases hi : i < n
  · rw [if_pos hi, List.get?_range hi]
    rfl
  · rw [if_neg hi]
    have : (List.range n).get? i = none := by
      rw [List.get?_eq_none]
      simpa using Nat.le_of_not_lt hi
    rw [this]
    rfl

theorem tableInj_idTable (n : Nat) : tableInj (idTable n) := by
  intro i j x hi hj
  rw [idTable_getD] at hi hj
  by_cases h1 : i < n
  · rw [if_pos h1] at hi
    by_cases h2 : j < n
    · rw [if_pos h2] at hj
      have := Option.some.inj hi
      have := Option.some.inj hj
      omega
    · rw [if_neg h2] at hj; cases hj
  · rw [if_neg h1] at hi
    cases hi

/-! ## The builder on a fresh BMesh -/

/-- On a fresh BMesh and a mesh with vertices the builder computes exactly
the assembly of the named fresh-path pieces. -/
theorem from_me_fresh (me : Mesh) (p : BMeshFromMeshParams)
    (h : me.mvert.isEmpty = false) :
    BM_mesh_bm_from_me emptyBM me p =
      { verts := (fromMeFO me p).vs
        edges := (fromMeFO me p).es
        faces := (fromMeFO me p).faces
        selected := if me.mselect.isEmpty then []
          else rebuildSelect me.mselect (idTable me.mvert.length)
            (idTable me.medge.length) (fromMeFO me p).ft
        shapenr := fromMeShapenr me p
        vlayers := fromMeVLayers me p
        elayers := fromMeELayers me p
        llayers := me.llayers.filter (fun L => maskBMESH L.ty || p.cd_mask_extra L.ty)
        players := me.players.filter (fun L => maskBMESH L.ty || p.cd_mask_extra L.ty)
        poolsInit := true
        skipped := (fromMeFO me p).skipped } := by
  unfold BM_mesh_bm_from_me
  have hnew : bmeshIsNew emptyBM = true := rfl
  have hsel : emptyBM.selected = [] := rfl
  have hnr : emptyBM.shapenr = 0 := rfl
  have hpool : emptyBM.poolsInit = false := rfl
  rw [hnew, h]
  simp only [Bool.false_eq_true, if_false, if_true, Bool.true_and, Bool.and_true,
    hsel, hnr, hpool, List.nil_append, Bool.false_or, Bool.or_true, Bool.true_or]
  unfold fromMeFO fromMeEO fromMeVertsList fromMeKeyco fromMeActValid fromMeActkey
    fromMeShapenr fromMeKIP fromMeShapeTable fromMeVLayers fromMeVL2 fromMeVL1
    fromMeVL0 fromMeELayers fromMeTot
  rfl

/-! ## Claim C5: the read-only extraction never carries shape data -/

/-- C5: for every linked mesh and every extra attribute mask, the read-only
extraction BM_mesh_bm_to_me_for_eval (whose destination is an empty mesh
built from scratch) strips CD_SHAPEKEY from its vertex copy mask, so the
destination holds no shape-key vertex layer no matter how many shape layers
the linked mesh carries. -/
theorem eval_extraction_has_no_shapekey_layer (bm : BMesh) (extra : CDType → Bool) :
    hasLayer (BM_mesh_bm_to_me_for_eval bm extra).vlayers CDType.shapekey = false := by
  simp only [BM_mesh_bm_to_me_for_eval, hasLayer]
  rw [List.any_eq_false]
  intro L hL
  have hp := List.of_mem_filter hL
  simp only [Bool.and_eq_true, Bool.not_eq_true'] at hp
  simp [hp.2]

/-! ## Claim C8: the empty-input path of the builder -/

/-- C8 counterexample to the claim as stated: on an empty flat mesh and a
fresh BMesh the builder does run the per-domain attribute-block pool
initialization (CustomData_bmesh_init_pool is called in the empty-input
path, lines 203-206 of the source), so it does more than only copying the
attribute layout: the pools-initialized state flips from false to true. -/
theorem from_me_empty_input_initializes_pools :
    emptyBM.poolsInit = false ∧
    (BM_mesh_bm_from_me emptyBM meshEmptyOneLayer (stdFromParams 0)).poolsInit = true := by
  constructor
  · rfl
  · rfl

/-- C8 (amended): for every flat mesh with zero vertices the builder
allocates no linked element and reports no skipped polygon: vertex, edge and
face pools and the skip report are returned exactly as they came.  On a
fresh BMesh it copies the masked attribute layout of every domain and
initializes the attribute-block pools; on a non-fresh BMesh it does nothing
at all. -/
theorem from_me_empty_input_path (bm : BMesh) (me : Mesh) (params : BMeshFromMeshParams)
    (h : me.mvert = []) :
    (BM_mesh_bm_from_me bm me params).verts = bm.verts ∧
    (BM_mesh_bm_from_me bm me params).edges = bm.edges ∧
    (BM_mesh_bm_from_me bm me params).faces = bm.faces ∧
    (BM_mesh_bm_from_me bm me params).skipped = bm.skipped ∧
    (bmeshIsNew bm = true →
      (BM_mesh_bm_from_me bm me params).vlayers =
        me.vlayers.filter (fun L => maskBMESH L.ty || params.cd_mask_extra L.ty) ∧
      (BM_mesh_bm_from_me bm me params).elayers =
        me.elayers.filter (fun L => maskBMESH L.ty || params.cd_mask_extra L.ty) ∧
      (BM_mesh_bm_from_me bm me params).poolsInit = true) ∧
    (bmeshIsNew bm = false → BM_mesh_bm_from_me bm me params = bm) := by
  unfold BM_mesh_bm_from_me
  rw [h]
  cases hn : bmeshIsNew bm <;> simp [hn]

/-- C8 witness: the amended empty-input behaviour at the concrete empty
one-layer mesh built into a fresh BMesh. -/
theorem from_me_empty_input_path_witness :
    (BM_mesh_bm_from_me emptyBM meshEmptyOneLayer (stdFromParams 0)).verts = emptyBM.verts ∧
    (BM_mesh_bm_from_me emptyBM meshEmptyOneLayer (stdFromParams 0)).edges = emptyBM.edges ∧
    (BM_mesh_bm_from_me emptyBM meshEmptyOneLayer (stdFromParams 0)).faces = emptyBM.faces ∧
    (BM_mesh_bm_from_me emptyBM meshEmptyOneLayer (stdFromParams 0)).skipped = emptyBM.skipped ∧
    (bmeshIsNew emptyBM = true →
      (BM_mesh_bm_from_me emptyBM meshEmptyOneLayer (stdFromParams 0)).vlayers =
        meshEmptyOneLayer.vlayers.filter
          (fun L => maskBMESH L.ty || (stdFromParams 0).cd_mask_extra L.ty) ∧
      (BM_mesh_bm_from_me emptyBM meshEmptyOneLayer (stdFromParams 0)).elayers =
        meshEmptyOneLayer.elayers.filter
          (fun L => maskBMESH L.ty || (stdFromParams 0).cd_mask_extra L.ty) ∧
      (BM_mesh_bm_from_me emptyBM meshEmptyOneLayer (stdFromParams 0)).poolsInit = true) ∧
    (bmeshIsNew emptyBM = false →
      BM_mesh_bm_from_me emptyBM meshEmptyOneLayer (stdFromParams 0) = emptyBM) :=
  from_me_empty_input_path emptyBM meshEmptyOneLayer (stdFromParams 0) rfl

/-! ## Lemmas about the selection-history rebuild -/

/-- Every rebuilt entry value came from a filled slot of the matching
table. -/
theorem rebuildSelect_mem_table (l : List MSel) (vt et ft : List (Option Nat))
    (d : BMDomain) (x : Nat) (h : (d, x) ∈ rebuildSelect l vt et ft) :
    (d = .vert → memTable vt x) ∧ (d = .edge → memTable et x) ∧
      (d = .face → memTable ft x) := by
  induction l generalizing vt et ft with
  | nil => simp [rebuildSelect] at h
  | cons r rest ih =>
    cases hd : r.dom with
    | vsel =>
      simp only [rebuildSelect, hd] at h
      cases hg : vt.getD r.index none with
      | none =>
        rw [hg] at h
        rcases ih _ _ _ h with ⟨h1, h2, h3⟩
        exact ⟨h1, h2, h3⟩
      | some vi =>
        rw [hg] at h
        rcases List.mem_cons.1 h with he | ht
        · have hdx : d = BMDomain.vert ∧ x = vi := by
            constructor <;> [exact congrArg Prod.fst he; exact congrArg Prod.snd he]
          refine ⟨fun _ => ⟨r.index, hdx.2 ▸ hg⟩, fun hdd => ?_, fun hdd => ?_⟩ <;>
            · rw [hdx.1] at hdd; cases hdd
        · rcases ih _ _ _ ht with ⟨h1, h2, h3⟩
          exact ⟨fun hv => memTable_of_set_none _ _ _ (h1 hv), h2, h3⟩
    | esel =>
      simp only [rebuildSelect, hd] at h
      cases hg : et.getD r.index none with
      | none =>
        rw [hg] at h
        exact ih _ _ _ h
      | some ei =>
        rw [hg] at h
        rcases List.mem_cons.1 h with he | ht
        · have hdx : d = BMDomain.edge ∧ x = ei := by
            constructor <;> [exact congrArg Prod.fst he; exact congrArg Prod.snd he]
          refine ⟨fun hdd => ?_, fun _ => ⟨r.index, hdx.2 ▸ hg⟩, fun hdd => ?_⟩ <;>
            · rw [hdx.1] at hdd; cases hdd
        · rcases ih _ _ _ ht with ⟨h1, h2, h3⟩
          exact ⟨h1, fun hv => memTable_of_set_none _ _ _ (h2 hv), h3⟩
    | fsel =>
      simp only [rebuildSelect, hd] at h
      cases hg : ft.getD r.index none with
      | none =>
        rw [hg] at h
        exact ih _ _ _ h
      | some fi =>
        rw [hg] at h
        rcases List.mem_cons.1 h with he | ht
        · have hdx : d = BMDomain.face ∧ x = fi := by
            constructor <;> [exact congrArg Prod.fst he; exact congrArg Prod.snd he]
          refine ⟨fun hdd => ?_, fun hdd => ?_, fun _ => ⟨r.index, hdx.2 ▸ hg⟩⟩ <;>
            · rw [hdx.1] at hdd; cases hdd
        · rcases ih _ _ _ ht with ⟨h1, h2, h3⟩
          exact ⟨h1, h2, fun hv => memTable_of_set_none _ _ _ (h3 hv)⟩
    | invalid =>
      simp only [rebuildSelect, hd] at h
      exact ih _ _ _ h

/-- With injective tables the rebuilt history holds each element at most
once. -/
theorem rebuildSelect_nodup (l : List MSel) (vt et ft : List (Option Nat))
    (hv : tableInj vt) (he : tableInj et) (hf : tableInj ft) :
    (rebuildSelect l vt et ft).Nodup := by
  induction l generalizing vt et ft with
  | nil => simp [rebuildSelect]
  | cons r rest ih =>
    cases hd : r.dom with
    | vsel =>
      simp only [rebuildSelect, hd]
      cases hg : vt.getD r.index none with
      | none => exact ih _ _ _ hv he hf
      | some vi =>
        refine List.nodup_cons.2 ⟨?_, ih _ _ _ (tableInj_set_none _ _ hv) he hf⟩
        intro hmem
        have := (rebuildSelect_mem_table _ _ _ _ _ _ hmem).1 rfl
        exact not_memTable_set_none_self vt r.index vi hv hg this
    | esel =>
      simp only [rebuildSelect, hd]
      cases hg : et.getD r.index none with
      | none => exact ih _ _ _ hv he hf
      | some ei =>
        refine List.nodup_cons.2 ⟨?_, ih _ _ _ hv (tableInj_set_none _ _ he) hf⟩
        intro hmem
        have := (rebuildSelect_mem_table _ _ _ _ _ _ hmem).2.1 rfl
        exact not_memTable_set_none_self et r.index ei he hg this
    | fsel =>
      simp only [rebuildSelect, hd]
      cases hg : ft.getD r.index none with
      | none => exact ih _ _ _ hv he hf
      | some fi =>
        refine List.nodup_cons.2 ⟨?_, ih _ _ _ hv he (tableInj_set_none _ _ hf)⟩
        intro hmem
        have := (rebuildSelect_mem_table _ _ _ _ _ _ hmem).2.2 rfl
        exact not_memTable_set_none_self ft r.index fi hf hg this
    | invalid =>
      simp only [rebuildSelect, hd]
      exact ih _ _ _ hv he hf

/-- Processing a record whose slot already reads none changes nothing. -/
theorem rebuildSelect_skip (r : MSel) (l : List MSel) (vt et ft : List (Option Nat))
    (h : selSlot vt et ft r = none) :
    rebuildSelect (r :: l) vt et ft = rebuildSelect l vt et ft := by
  cases hd : r.dom with
  | vsel =>
    simp only [selSlot, hd] at h
    simp only [rebuildSelect, hd, h]
  | esel =>
    simp only [selSlot, hd] at h
    simp only [rebuildSelect, hd, h]
  | fsel =>
    simp only [selSlot, hd] at h
    simp only [rebuildSelect, hd, h]
  | invalid => simp only [rebuildSelect, hd]

/-- After a record is processed its own slot reads none, whatever it read
before. -/
theorem selSlot_after_step (r : MSel) (l : List MSel) (vt et ft : List (Option Nat)) :
    (r.dom = .vsel → selSlot (vt.set r.index none) et ft r = none) ∧
    (r.dom = .esel → selSlot vt (et.set r.index none) ft r = none) ∧
    (r.dom = .fsel → selSlot vt et (ft.set r.index none) r = none) := by
  refine ⟨fun hd => ?_, fun hd => ?_, fun hd => ?_⟩ <;>
    · simp only [selSlot, hd]
      rw [getD_set_none, if_pos rfl]

/-- Clearing any slot preserves an already-cleared slot. -/
theorem selSlot_none_mono (r : MSel) (vt et ft : List (Option Nat))
    (i : Nat) (h : selSlot vt et ft r = none) :
    selSlot (vt.set i none) et ft r = none ∧
    selSlot vt (et.set i none) ft r = none ∧
    selSlot vt et (ft.set i none) r = none := by
  have hset : ∀ (t : List (Option Nat)), t.getD r.index none = none →
      (t.set i none).getD r.index none = none := by
    intro t ht
    rw [getD_set_none]
    by_cases hi : r.index = i
    · rw [if_pos hi]
    · rw [if_neg hi]; exact ht
  cases hd : r.dom with
  | vsel =>
    simp only [selSlot, hd] at h ⊢
    exact ⟨hset vt h, h, h⟩
  | esel =>
    simp only [selSlot, hd] at h ⊢
    exact ⟨h, hset et h, h⟩
  | fsel =>
    simp only [selSlot, hd] at h ⊢
    exact ⟨h, h, hset ft h⟩
  | invalid =>
    simp [selSlot, hd]

/-- A later duplicate of a record already in the processed prefix is
silently dropped: the rebuilt history is the same with and without it. -/
theorem rebuildSelect_drop_dup (l1 : List MSel) (r : MSel) (l2 : List MSel)
    (vt et ft : List (Option Nat)) (h : r ∈ l1 ∨ selSlot vt et ft r = none) :
    rebuildSelect (l1 ++ r :: l2) vt et ft = rebuildSelect (l1 ++ l2) vt et ft := by
  induction l1 generalizing vt et ft with
  | nil =>
    rcases h with h | h
    · simp at h
    · simpa using rebuildSelect_skip r l2 vt et ft h
  | cons s l1' ih =>
    have hnext : ∀ vt' et' ft',
        (r ∈ l1' ∨ selSlot vt' et' ft' r = none) →
        rebuildSelect (l1' ++ r :: l2) vt' et' ft' =
          rebuildSelect (l1' ++ l2) vt' et' ft' := fun vt' et' ft' hh => ih vt' et' ft' hh
    have hcase : r = s ∨ (r ∈ l1' ∨ selSlot vt et ft r = none) := by
      rcases h with h | h
      · rcases List.mem_cons.1 h with h | h
        · exact Or.inl h
        · exact Or.inr (Or.inl h)
      · exact Or.inr (Or.inr h)
    cases hd : s.dom with
    | vsel =>
      simp only [List.cons_append, rebuildSelect, hd]
      cases hg : vt.getD s.index none with
      | none =>
        show rebuildSelect (l1' ++ r :: l2) vt et ft = rebuildSelect (l1' ++ l2) vt et ft
        apply hnext
        rcases hcase with h | h | h
        · subst h
          exact Or.inr (by simp only [selSlot, hd]; exact hg)
        · exact Or.inl h
        · exact Or.inr h
      | some vi =>
        show (BMDomain.vert, vi) :: rebuildSelect (l1' ++ r :: l2) (vt.set s.index none) et ft =
          (BMDomain.vert, vi) :: rebuildSelect (l1' ++ l2) (vt.set s.index none) et ft
        congr 1
        apply hnext
        rcases hcase with h | h | h
        · subst h
          exact Or.inr ((selSlot_after_step r l2 vt et ft).1 hd)
        · exact Or.inl h
        · exact Or.inr (selSlot_none_mono r vt et ft s.index h).1
    | esel =>
      simp only [List.cons_append, rebuildSelect, hd]
      cases hg : et.getD s.index none with
      | none =>
        show rebuildSelect (l1' ++ r :: l2) vt et ft = rebuildSelect (l1' ++ l2) vt et ft
        apply hnext
        rcases hcase with h | h | h
        · subst h
          exact Or.inr (by simp only [selSlot, hd]; exact hg)
        · exact Or.inl h
        · exact Or.inr h
      | some ei =>
        show (BMDomain.edge, ei) :: rebuildSelect (l1' ++ r :: l2) vt (et.set s.index none) ft =
          (BMDomain.edge, ei) :: rebuildSelect (l1' ++ l2) vt (et.set s.index none) ft
        congr 1
        apply hnext
        rcases hcase with h | h | h
        · subst h
          exact Or.inr ((selSlot_after_step r l2 vt et ft).2.1 hd)
        · exact Or.inl h
        · exact Or.inr (selSlot_none_mono r vt et ft s.index h).2.1
    | fsel =>
      simp only [List.cons_append, rebuildSelect, hd]
      cases hg : ft.getD s.index none with
      | none =>
        show rebuildSelect (l1' ++ r :: l2) vt et ft = rebuildSelect (l1' ++ l2) vt et ft
        apply hnext
        rcases hcase with h | h | h
        · subst h
          exact Or.inr (by simp only [selSlot, hd]; exact hg)
        · exact Or.inl h
        · exact Or.inr h
      | some fi =>
        show (BMDomain.face, fi) :: rebuildSelect (l1' ++ r :: l2) vt et (ft.set s.index none) =
          (BMDomain.face, fi) :: rebuildSelect (l1' ++ l2) vt et (ft.set s.index none)
        congr 1
        apply hnext
        rcases hcase with h | h | h
        · subst h
          exact Or.inr ((selSlot_after_step r l2 vt et ft).2.2 hd)
        · exact Or.inl h
        · exact Or.inr (selSlot_none_mono r vt et ft s.index h).2.2
    | invalid =>
      simp only [List.cons_append, rebuildSelect, hd]
      apply hnext
      rcases hcase with h | h | h
      · subst h
        exact Or.inr (by simp [selSlot, hd])
      · exact Or.inl h
      · exact Or.inr h

/-! ## Claim C9: Index Set slicing -/

theorem rangeList_length (b : Int) (n : Nat) : (rangeList b n).length = n := by
  induction n generalizing b with
  | zero => rfl
  | succ m ih => simp [rangeList, ih]

theorem rangeList_drop (b : Int) (n s : Nat) :
    (rangeList b n).drop s = rangeList (b + s) (n - s) := by
  induction n generalizing b s with
  | zero => simp [rangeList]
  | succ m ih =>
    cases s with
    | zero => simp [rangeList]
    | succ t =>
      simp only [rangeList, List.drop_succ_cons, ih (b + 1) t, Nat.succ_sub_succ]
      congr 1
      push_cast
      ring

theorem rangeList_take (b : Int) (n k : Nat) :
    (rangeList b n).take k = rangeList b (min k n) := by
  induction n generalizing b k with
  | zero => simp [rangeList]
  | succ m ih =>
    cases k with
    | zero => simp [rangeList]
    | succ t =>
      simp only [rangeList, List.take_succ_cons, ih (b + 1) t]
      have : min (t + 1) (m + 1) = min t m + 1 := by omega
      rw [this, rangeList]

theorem rangeList_get? (b : Int) (n i : Nat) :
    (rangeList b n).get? i = if i < n then some (b + i) else none := by
  induction n generalizing b i with
  | zero => simp [rangeList]
  | succ m ih =>
    cases i with
    | zero => simp [rangeList]
    | succ t =>
      simp only [rangeList, List.get?_cons_succ, ih (b + 1) t]
      by_cases hi : t < m
      · simp only [if_pos hi, if_pos (by omega : t + 1 < m + 1)]
        congr 1
        push_cast
        ring
      · simp only [if_neg hi, if_neg (by omega : ¬(t + 1 < m + 1))]

theorem contiguousFrom_rangeList (b : Int) (n : Nat) :
    contiguousFrom b (rangeList b n) = true := by
  induction n generalizing b with
  | zero => rfl
  | succ m ih => simp [rangeList, contiguousFrom, ih]

theorem isContiguous_rangeList (b : Int) (n : Nat) :
    isContiguous (rangeList b n) = true := by
  cases n with
  | zero => rfl
  | succ m => simp [rangeList, isContiguous, contiguousFrom_rangeList]

theorem contiguousFrom_get? (b : Int) (l : List Int) (h : contiguousFrom b l = true)
    (i : Nat) (a : Int) (ha : l.get? i = some a) : a = b + i := by
  induction l generalizing b i with
  | nil => simp at ha
  | cons x xs ih =>
    simp only [contiguousFrom, Bool.and_eq_true, decide_eq_true_eq] at h
    cases i with
    | zero =>
      have : x = a := Option.some.inj ha
      omega
    | succ t =>
      have := ih (b + 1) h.2 t (by exact ha)
      omega

theorem isContiguous_get? (l : List Int) (h : isContiguous l = true)
    (i : Nat) (a h0 : Int) (ha : l.get? i = some a) (hh : l.get? 0 = some h0) :
    a = h0 + i := by
  cases l with
  | nil => simp at ha
  | cons x xs =>
    have hx : x = h0 := Option.some.inj hh
    simp only [isContiguous] at h
    cases i with
    | zero =>
      have : x = a := Option.some.inj ha
      omega
    | succ t =>
      have := contiguousFrom_get? (x + 1) xs h t a (by exact ha)
      omega

theorem contiguousFrom_map_sub (b c : Int) (l : List Int) :
    contiguousFrom (b - c) (l.map (fun v => v - c)) = contiguousFrom b l := by
  induction l generalizing b with
  | nil => rfl
  | cons x xs ih =>
    simp only [List.map_cons, contiguousFrom]
    have he : b - c + 1 = (b + 1) - c := by ring
    rw [he, ih (b + 1)]
    by_cases hx : x = b
    · simp [hx]
    · have h1 : decide (x - c = b - c) = false := by
        simp only [decide_eq_false_iff_not]
        intro hcc
        exact hx (by linarith)
      have h2 : decide (x = b) = false := by simp [hx]
      rw [h1, h2]

theorem isContiguous_map_sub (c : Int) (l : List Int) :
    isContiguous (l.map (fun v => v - c)) = isContiguous l := by
  cases l with
  | nil => rfl
  | cons x xs =>
    simp only [List.map_cons, isContiguous]
    have he : x - c + 1 = (x + 1) - c := by ring
    rw [he, contiguousFrom_map_sub]

theorem headD_eq_get? (l : List Int) (d : Int) (a : Int) (h : l.get? 0 = some a) :
    l.headD d = a := by
  cases l with
  | nil => simp at h
  | cons x xs => exact Option.some.inj h

/-- C9: Index Set slicing.  (i) Slicing a range-backed set over positions
[s, s+k) with s + k within bounds yields the range [0, k) itself, in range
form.  (ii) For an array-backed set the i-th sliced-and-offset value equals
the value at position s + i minus the value at position s.  (iii) Whenever
the sliced values are not contiguous the result does not report itself as a
range. -/
theorem index_mask_slice_and_offset_spec :
    (∀ (a n s k : Nat), s + k ≤ n →
      slice_and_offset (.ofRange a n) s k = .ofRange 0 k) ∧
    (∀ (vs : List Int) (s k i : Nat), s + k ≤ vs.length → i < k →
      (imValues (slice_and_offset (.ofArray vs) s k)).get? i =
        some (vs.getD (s + i) 0 - vs.getD s 0)) ∧
    (∀ (vs : List Int) (s k : Nat),
      isContiguous ((vs.drop s).take k) = false →
      im_is_range (slice_and_offset (.ofArray vs) s k) = false) := by
  refine ⟨?_, ?_, ?_⟩
  · intro a n s k hsk
    simp only [slice_and_offset, imValues, rangeList_drop, rangeList_take]
    have hmin : min k (n - s) = k := by omega
    rw [hmin, isContiguous_rangeList]
    simp [rangeList_length]
  · intro vs s k i hsk hik
    have hslen : ((vs.drop s).take k).length = k := by
      simp only [List.length_take, List.length_drop]
      omega
    have hget : ∀ j, j < k → ((vs.drop s).take k).get? j = vs.get? (s + j) := by
      intro j hj
      rw [List.get?_take hj, List.get?_drop]
    have hsi : vs.get? (s + i) = some (vs.getD (s + i) 0) := by
      have : s + i < vs.length := by omega
      simp [List.getD, List.get?_eq_getElem?, List.getElem?_eq_getElem this]
    have hs0 : vs.get? s = some (vs.getD s 0) := by
      have : s < vs.length := by omega
      simp [List.getD, List.get?_eq_getElem?, List.getElem?_eq_getElem this]
    simp only [slice_and_offset, imValues]
    by_cases hc : isContiguous ((vs.drop s).take k) = true
    · rw [if_pos hc]
      simp only [imValues, hslen]
      rw [rangeList_get?, if_pos hik]
      have hv : ((vs.drop s).take k).get? i = some (vs.getD (s + i) 0) := by
        rw [hget i hik, hsi]
      have hv0 : ((vs.drop s).take k).get? 0 = some (vs.getD s 0) := by
        have h0k : 0 < k := by omega
        rw [hget 0 h0k]
        simpa using hs0
      have heq := isContiguous_get? _ hc i _ _ hv hv0
      rw [heq]
      congr 1
      ring
    · rw [if_neg hc]
      simp only [imValues, List.get?_map]
      rw [hget i hik, hsi]
      have hv0 : ((vs.drop s).take k).get? 0 = some (vs.getD s 0) := by
        have h0k : 0 < k := by omega
        rw [hget 0 h0k]
        simpa using hs0
      rw [headD_eq_get? _ _ _ hv0]
      rfl
  · intro vs s k hnc
    simp only [slice_and_offset, imValues]
    rw [if_neg (by simp [hnc])]
    simp only [im_is_range, imValues]
    rw [isContiguous_map_sub]
    simp [hnc]

/-! ## Claim C10: selection de-duplication in the builder -/

theorem getD_cons_zero_opt (a : Option Nat) (t : List (Option Nat)) :
    (a :: t).getD 0 none = a := rfl

theorem getD_cons_succ_opt (a : Option Nat) (t : List (Option Nat)) (n : Nat) :
    (a :: t).getD (n + 1) none = t.getD n none := rfl

/-- The face table the builder fills carries strictly increasing indices at
its filled slots, so it is injective. -/
theorem buildFaces_ft_inj (calcN : Bool) (nv : Nat) (mloop : List MLoop) :
    ∀ (polys : List MPoly) (i fc : Nat) (vs : List BMVert) (es : List BMEdge),
      (∀ n x, (buildFaces calcN nv mloop polys i fc vs es).ft.getD n none = some x →
        fc ≤ x) ∧
      tableInj (buildFaces calcN nv mloop polys i fc vs es).ft := by
  intro polys
  induction polys with
  | nil =>
    intro i fc vs es
    constructor
    · intro n x h
      simp only [buildFaces] at h
      cases n <;> cases h
    · intro a b x ha hb
      simp only [buildFaces] at ha
      cases a <;> cases ha
  | cons p rest ih =>
    intro i fc vs es
    cases hc : bm_face_create_from_mpoly nv es mloop p with
    | none =>
      have hrec := ih (i + 1) fc vs es
      constructor
      · intro n x h
        simp only [buildFaces, hc] at h
        cases n with
        | zero => cases h
        | succ m =>
          rw [getD_cons_succ_opt] at h
          exact hrec.1 m x h
      · intro a b x ha hb
        simp only [buildFaces, hc] at ha hb
        cases a with
        | zero => cases ha
        | succ a' =>
          cases b with
          | zero => cases hb
          | succ b' =>
            rw [getD_cons_succ_opt] at ha hb
            have := hrec.2 a' b' x ha hb
            omega
    | some loops =>
      have hrec := ih (i + 1) (fc + 1)
        (if p.sel then selFaceLoops loops vs es else (vs, es)).1
        (if p.sel then selFaceLoops loops vs es else (vs, es)).2
      constructor
      · intro n x h
        simp only [buildFaces, hc] at h
        cases n with
        | zero =>
          rw [getD_cons_zero_opt] at h
          have := Option.some.inj h
          omega
        | succ m =>
          rw [getD_cons_succ_opt] at h
          have := hrec.1 m x h
          omega
      · intro a b x ha hb
        simp only [buildFaces, hc] at ha hb
        cases a with
        | zero =>
          cases b with
          | zero => rfl
          | succ b' =>
            rw [getD_cons_zero_opt] at ha
            rw [getD_cons_succ_opt] at hb
            have h1 := Option.some.inj ha
            have h2 := hrec.1 b' x hb
            omega
        | succ a' =>
          cases b with
          | zero =>
            rw [getD_cons_succ_opt] at ha
            rw [getD_cons_zero_opt] at hb
            have h1 := Option.some.inj hb
            have h2 := hrec.1 a' x ha
            omega
          | succ b' =>
            rw [getD_cons_succ_opt] at ha hb
            have := hrec.2 a' b' x ha hb
            omega

/-- C10: selection de-duplication and unknown-domain skipping in the
builder.  (i) The selection history the builder rebuilds holds each mesh
element at most once, for every input mesh.  (ii) A record equal to one
already processed earlier in the list is silently dropped: removing the
duplicate leaves the rebuilt history unchanged (its table slot was cleared
when the first copy resolved).  (iii) A record whose domain tag is not
vertex, edge or face is skipped without error: removing it leaves the
rebuilt history unchanged. -/
theorem selection_rebuild_dedup_and_skip :
    (∀ (me : Mesh) (params : BMeshFromMeshParams),
      (BM_mesh_bm_from_me emptyBM me params).selected.Nodup) ∧
    (∀ (l1 l2 : List MSel) (r : MSel) (vt et ft : List (Option Nat)), r ∈ l1 →
      rebuildSelect (l1 ++ r :: l2) vt et ft = rebuildSelect (l1 ++ l2) vt et ft) ∧
    (∀ (l1 l2 : List MSel) (r : MSel) (vt et ft : List (Option Nat)),
      r.dom = MSelType.invalid →
      rebuildSelect (l1 ++ r :: l2) vt et ft = rebuildSelect (l1 ++ l2) vt et ft) := by
  refine ⟨?_, ?_, ?_⟩
  · intro me params
    unfold BM_mesh_bm_from_me
    by_cases hme : me.mvert.isEmpty
    · simp only [hme, if_true]
      have hnew : bmeshIsNew emptyBM = true := rfl
      rw [hnew]
      exact List.nodup_nil
    · simp only [hme, Bool.false_eq_true, if_false]
      by_cases hsel : me.mselect.isEmpty
      · simp only [hsel, if_true]
        exact List.nodup_nil
      · simp only [hsel, Bool.false_eq_true, if_false]
        have hnil : emptyBM.selected = [] := rfl
        rw [hnil, List.nil_append]
        exact rebuildSelect_nodup _ _ _ _ (tableInj_idTable _) (tableInj_idTable _)
          (buildFaces_ft_inj params.calc_face_normal me.mvert.length me.mloop
            me.mpoly 0 0 _ _).2
  · intro l1 l2 r vt et ft h
    exact rebuildSelect_drop_dup l1 r l2 vt et ft (Or.inl h)
  · intro l1 l2 r vt et ft hd
    induction l1 generalizing vt et ft with
    | nil =>
      simp only [List.nil_append]
      simp only [rebuildSelect, hd]
    | cons s l1' ih =>
      cases hds : s.dom with
      | vsel =>
        simp only [List.cons_append, rebuildSelect, hds]
        cases hg : vt.getD s.index none with
        | none => exact ih _ _ _
        | some vi =>
          show (BMDomain.vert, vi) :: rebuildSelect (l1' ++ r :: l2) (vt.set s.index none) et ft =
            (BMDomain.vert, vi) :: rebuildSelect (l1' ++ l2) (vt.set s.index none) et ft
          rw [ih _ _ _]
      | esel =>
        simp only [List.cons_append, rebuildSelect, hds]
        cases hg : et.getD s.index none with
        | none => exact ih _ _ _
        | some ei =>
          show (BMDomain.edge, ei) :: rebuildSelect (l1' ++ r :: l2) vt (et.set s.index none) ft =
            (BMDomain.edge, ei) :: rebuildSelect (l1' ++ l2) vt (et.set s.index none) ft
          rw [ih _ _ _]
      | fsel =>
        simp only [List.cons_append, rebuildSelect, hds]
        cases hg : ft.getD s.index none with
        | none => exact ih _ _ _
        | some fi =>
          show (BMDomain.face, fi) :: rebuildSelect (l1' ++ r :: l2) vt et (ft.set s.index none) =
            (BMDomain.face, fi) :: rebuildSelect (l1' ++ l2) vt et (ft.set s.index none)
          rw [ih _ _ _]
      | invalid =>
        simp only [List.cons_append, rebuildSelect, hds]
        exact ih _ _ _

/-! ## Lemmas about the edge and face passes of the builder -/

theorem buildEdges_snd (cd : CdFlags) (meds : List MEdge) (vs : List BMVert) :
    (buildEdges cd meds vs).2 = meds.map (mkBMEdge cd) := by
  induction meds generalizing vs with
  | nil => rfl
  | cons m rest ih => simp [buildEdges, ih]

theorem map_listModify (l : List α) (i : Nat) (f : α → α) (g : α → β)
    (h : ∀ a, g (f a) = g a) : (listModify l i f).map g = l.map g := by
  unfold listModify
  cases hg : l.get? i with
  | none => rfl
  | some a =>
    simp only [hg]
    rw [List.map_set, h a]
    apply set_eq_self_of_get?
    rw [List.get?_map, hg]
    rfl

theorem map_edgeEnds_esel1 (es : List BMEdge) (i : Nat) :
    (esel1 es i).map edgeEnds = es.map edgeEnds :=
  map_listModify es i _ edgeEnds (fun a => rfl)

theorem selFaceLoops_snd_ends (loops : List BMLoop) (vs : List BMVert)
    (es : List BMEdge) :
    (selFaceLoops loops vs es).2.map edgeEnds = es.map edgeEnds := by
  induction loops generalizing vs es with
  | nil => rfl
  | cons l rest ih =>
    simp only [selFaceLoops, List.foldl_cons]
    have := ih (vsel1 vs l.v) (esel1 es l.e)
    simpa [selFaceLoops, map_edgeEnds_esel1] using this

theorem bm_face_create_from_mpoly_eq (nv : Nat) (es : List BMEdge)
    (mloop : List MLoop) (p : MPoly) :
    bm_face_create_from_mpoly nv es mloop p =
      if polyCreatable nv (es.map edgeEnds) mloop p then
        some ((faceLoopSlice mloop p).map (fun l => ⟨l.v, l.e, l.attr⟩))
      else none := rfl

/-- Appending polygon lists splits the face pass into two runs, the second
starting from the states, polygon index and face count of the first. -/
theorem buildFaces_append (calcN : Bool) (nv : Nat) (mloop : List MLoop)
    (l1 l2 : List MPoly) (i fc : Nat) (vs : List BMVert) (es : List BMEdge) :
    buildFaces calcN nv mloop (l1 ++ l2) i fc vs es =
      { vs := (buildFaces calcN nv mloop l2 (i + l1.length)
          (fc + (buildFaces calcN nv mloop l1 i fc vs es).faces.length)
          (buildFaces calcN nv mloop l1 i fc vs es).vs
          (buildFaces calcN nv mloop l1 i fc vs es).es).vs
        es := (buildFaces calcN nv mloop l2 (i + l1.length)
          (fc + (buildFaces calcN nv mloop l1 i fc vs es).faces.length)
          (buildFaces calcN nv mloop l1 i fc vs es).vs
          (buildFaces calcN nv mloop l1 i fc vs es).es).es
        faces := (buildFaces calcN nv mloop l1 i fc vs es).faces ++
          (buildFaces calcN nv mloop l2 (i + l1.length)
            (fc + (buildFaces calcN nv mloop l1 i fc vs es).faces.length)
            (buildFaces calcN nv mloop l1 i fc vs es).vs
            (buildFaces calcN nv mloop l1 i fc vs es).es).faces
        ft := (buildFaces calcN nv mloop l1 i fc vs es).ft ++
          (buildFaces calcN nv mloop l2 (i + l1.length)
            (fc + (buildFaces calcN nv mloop l1 i fc vs es).faces.length)
            (buildFaces calcN nv mloop l1 i fc vs es).vs
            (buildFaces calcN nv mloop l1 i fc vs es).es).ft
        skipped := (buildFaces calcN nv mloop l1 i fc vs es).skipped ++
          (buildFaces calcN nv mloop l2 (i + l1.length)
            (fc + (buildFaces calcN nv mloop l1 i fc vs es).faces.length)
            (buildFaces calcN nv mloop l1 i fc vs es).vs
            (buildFaces calcN nv mloop l1 i fc vs es).es).skipped } := by
  induction l1 generalizing i fc vs es with
  | nil => simp [buildFaces]
  | cons p rest ih =>
    simp only [List.cons_append, buildFaces, List.append_eq]
    cases hc : bm_face_create_from_mpoly nv es mloop p with
    | none =>
      simp only [ih (i + 1) fc vs es]
      simp only [List.length_cons, List.cons_append]
      have he : i + 1 + rest.length = i + (rest.length + 1) := by omega
      rw [he]
    | some loops =>
      simp only [ih (i + 1) (fc + 1)]
      simp only [List.length_cons, List.cons_append]
      have he : i + 1 + rest.length = i + (rest.length + 1) := by omega
      have he2 : fc + 1 + (buildFaces calcN nv mloop rest (i + 1) (fc + 1)
          (if p.sel then selFaceLoops loops vs es else (vs, es)).1
          (if p.sel then selFaceLoops loops vs es else (vs, es)).2).faces.length =
          fc + ((buildFaces calcN nv mloop rest (i + 1) (fc + 1)
          (if p.sel then selFaceLoops loops vs es else (vs, es)).1
          (if p.sel then selFaceLoops loops vs es else (vs, es)).2).faces.length + 1) := by
        omega
      rw [he, he2]

/-- The face pass over polygons the builder accepts: every face is created,
nothing is skipped, the face table is positional and the edge endpoints are
untouched. -/
theorem buildFaces_allOk (nv : Nat) (mloop : List MLoop) (eps : List (Nat × Nat)) :
    ∀ (polys : List MPoly) (i fc : Nat) (vs : List BMVert) (es : List BMEdge),
      es.map edgeEnds = eps →
      (∀ q ∈ polys, polyCreatable nv eps mloop q = true) →
      (buildFaces false nv mloop polys i fc vs es).faces = polys.map (plainFace mloop) ∧
      (buildFaces false nv mloop polys i fc vs es).ft =
        (List.range polys.length).map (fun j => some (fc + j)) ∧
      (buildFaces false nv mloop polys i fc vs es).skipped = [] ∧
      (buildFaces false nv mloop polys i fc vs es).es.map edgeEnds = eps := by
  intro polys
  induction polys with
  | nil =>
    intro i fc vs es hends _
    exact ⟨rfl, rfl, rfl, hends⟩
  | cons p rest ih =>
    intro i fc vs es hends hok
    have hcreate : bm_face_create_from_mpoly nv es mloop p =
        some ((faceLoopSlice mloop p).map (fun l => ⟨l.v, l.e, l.attr⟩)) := by
      rw [bm_face_create_from_mpoly_eq, hends,
        if_pos (hok p (List.mem_cons_self p rest))]
    have hends2 : (if p.sel then selFaceLoops ((faceLoopSlice mloop p).map
          (fun l => ⟨l.v, l.e, l.attr⟩)) vs es else (vs, es)).2.map edgeEnds = eps := by
      by_cases hs : p.sel
      · rw [if_pos hs, selFaceLoops_snd_ends]
        exact hends
      · rw [if_neg hs]
        exact hends
    have hrec := ih (i + 1) (fc + 1)
      (if p.sel = true then selFaceLoops ((faceLoopSlice mloop p).map
        (fun l => ⟨l.v, l.e, l.attr⟩)) vs es else (vs, es)).1
      (if p.sel = true then selFaceLoops ((faceLoopSlice mloop p).map
        (fun l => ⟨l.v, l.e, l.attr⟩)) vs es else (vs, es)).2
      hends2 (fun q hq => hok q (List.mem_cons_of_mem p hq))
    simp only [buildFaces, hcreate]
    refine ⟨?_, ?_, hrec.2.2.1, hrec.2.2.2⟩
    · rw [hrec.1]
      simp only [List.map_cons]
      rfl
    · rw [hrec.2.1]
      have hr : List.range (rest.length + 1) = 0 :: (List.range rest.length).map Nat.succ :=
        List.range_succ_eq_map rest.length
      simp only [List.length_cons, hr, List.map_cons, List.map_map, Nat.add_zero]
      congr 1
      apply List.map_congr_left
      intro a _
      simp only [Function.comp_apply]
      congr 1
      omega

theorem facesToPolys_fst_length (faces : List BMFace) (j : Nat) :
    (facesToPolys faces j).1.length = faces.length := by
  induction faces generalizing j with
  | nil => rfl
  | cons f rest ih => simp [facesToPolys, ih]

/-! ## Claim C3: polygon skip -/

/-- C3: a flat mesh whose polygon list is l1 ++ p :: l2, where p fails the
face-creation check and every polygon of l1 and l2 passes it, builds into a
BMesh that reports and skips exactly polygon number (length of l1), creates
exactly the faces of the remaining polygons in order (so the face count is
one less than the polygon count), and extracts back to a flat mesh with
exactly that many polygons: the conversion is never aborted as a whole. -/
theorem polygon_skip_and_continue (me : Mesh) (l1 l2 : List MPoly) (p : MPoly)
    (h0 : me.mvert.isEmpty = false)
    (hsplit : me.mpoly = l1 ++ p :: l2)
    (hbad : polyCreatable me.mvert.length (me.medge.map medgeEnds) me.mloop p = false)
    (hok : ∀ q ∈ l1 ++ l2,
      polyCreatable me.mvert.length (me.medge.map medgeEnds) me.mloop q = true) :
    (BM_mesh_bm_from_me emptyBM me (stdFromParams 0)).skipped = [l1.length] ∧
    (BM_mesh_bm_from_me emptyBM me (stdFromParams 0)).faces =
      (l1 ++ l2).map (plainFace me.mloop) ∧
    (BM_mesh_bm_from_me emptyBM me (stdFromParams 0)).faces.length =
      me.mpoly.length - 1 ∧
    (BM_mesh_bm_to_me (BM_mesh_bm_from_me emptyBM me (stdFromParams 0)) me []
        stdToParams).me.mpoly.length = me.mpoly.length - 1 := by
  have hends : (fromMeEO me (stdFromParams 0)).2.map edgeEnds =
      me.medge.map medgeEnds := by
    unfold fromMeEO
    rw [buildEdges_snd]
    induction me.medge with
    | nil => rfl
    | cons m rest ih => simp [mkBMEdge, edgeEnds, medgeEnds, ih]
  have hcalc : (stdFromParams 0).calc_face_normal = false := rfl
  have hfo : fromMeFO me (stdFromParams 0) =
      buildFaces false me.mvert.length me.mloop me.mpoly 0 0
        (fromMeEO me (stdFromParams 0)).1 (fromMeEO me (stdFromParams 0)).2 := by
    unfold fromMeFO
    rw [hcalc]
  have h1 := buildFaces_allOk me.mvert.length me.mloop (me.medge.map medgeEnds)
    l1 0 0 (fromMeEO me (stdFromParams 0)).1 (fromMeEO me (stdFromParams 0)).2
    hends (fun q hq => hok q (List.mem_append_left l2 hq))
  have hbadstep : bm_face_create_from_mpoly me.mvert.length
      (buildFaces false me.mvert.length me.mloop l1 0 0
        (fromMeEO me (stdFromParams 0)).1 (fromMeEO me (stdFromParams 0)).2).es
      me.mloop p = none := by
    rw [bm_face_create_from_mpoly_eq, h1.2.2.2, if_neg (by simp [hbad])]
  have hsplit2 : fromMeFO me (stdFromParams 0) =
      buildFaces false me.mvert.length me.mloop (l1 ++ p :: l2) 0 0
        (fromMeEO me (stdFromParams 0)).1 (fromMeEO me (stdFromParams 0)).2 := by
    rw [hfo, hsplit]
  have h2 := buildFaces_allOk me.mvert.length me.mloop (me.medge.map medgeEnds)
    l2 (l1.length + 1) l1.length
    (buildFaces false me.mvert.length me.mloop l1 0 0
      (fromMeEO me (stdFromParams 0)).1 (fromMeEO me (stdFromParams 0)).2).vs
    (buildFaces false me.mvert.length me.mloop l1 0 0
      (fromMeEO me (stdFromParams 0)).1 (fromMeEO me (stdFromParams 0)).2).es
    h1.2.2.2 (fun q hq => hok q (List.mem_append_right l1 hq))
  have hsk : (fromMeFO me (stdFromParams 0)).skipped = [l1.length] := by
    rw [hsplit2, buildFaces_append]
    simp only [buildFaces, hbadstep, Nat.zero_add]
    rw [h1.1]
    simp only [List.length_map]
    rw [h1.2.2.1, h2.2.2.1]
    rfl
  have hfc : (fromMeFO me (stdFromParams 0)).faces = (l1 ++ l2).map (plainFace me.mloop) := by
    rw [hsplit2, buildFaces_append]
    simp only [buildFaces, hbadstep, Nat.zero_add]
    rw [h1.1]
    simp only [List.length_map]
    rw [h2.1]
    simp only [List.map_append]
  refine ⟨?_, ?_, ?_, ?_⟩
  · rw [from_me_fresh me (stdFromParams 0) h0]
    exact hsk
  · rw [from_me_fresh me (stdFromParams 0) h0]
    exact hfc
  · rw [from_me_fresh me (stdFromParams 0) h0]
    show (fromMeFO me (stdFromParams 0)).faces.length = me.mpoly.length - 1
    rw [hfc, hsplit]
    simp only [List.length_append, List.length_map, List.length_cons]
    omega
  · have hmp : (BM_mesh_bm_to_me (BM_mesh_bm_from_me emptyBM me (stdFromParams 0)) me []
        stdToParams).me.mpoly =
        (facesToPolys (BM_mesh_bm_from_me emptyBM me (stdFromParams 0)).faces 0).1 := rfl
    rw [hmp, facesToPolys_fst_length]
    rw [from_me_fresh me (stdFromParams 0) h0]
    show (fromMeFO me (stdFromParams 0)).faces.length = me.mpoly.length - 1
    rw [hfc, hsplit]
    simp only [List.length_append, List.length_map, List.length_cons]
    omega

/-- C3 witness: the skip behaviour at the concrete triangle mesh with one
malformed polygon in front of one valid one. -/
theorem polygon_skip_and_continue_witness :
    (BM_mesh_bm_from_me emptyBM meshTriBad (stdFromParams 0)).skipped =
      [([] : List MPoly).length] ∧
    (BM_mesh_bm_from_me emptyBM meshTriBad (stdFromParams 0)).faces =
      (([] : List MPoly) ++ [(⟨0, 3, false, 0, 0, 7⟩ : MPoly)]).map
        (plainFace meshTriBad.mloop) ∧
    (BM_mesh_bm_from_me emptyBM meshTriBad (stdFromParams 0)).faces.length =
      meshTriBad.mpoly.length - 1 ∧
    (BM_mesh_bm_to_me (BM_mesh_bm_from_me emptyBM meshTriBad (stdFromParams 0)) meshTriBad
        [] stdToParams).me.mpoly.length = meshTriBad.mpoly.length - 1 :=
  polygon_skip_and_continue meshTriBad [] [(⟨0, 3, false, 0, 0, 7⟩ : MPoly)]
    (⟨3, 3, false, 0, 0, 8⟩ : MPoly) rfl rfl (by decide) (by decide)

/-! ## Claim C4: selection history survival -/

theorem msel_ext (a b : MSel) (h1 : a.dom = b.dom) (h2 : a.index = b.index) : a = b := by
  cases a
  cases b
  simp only [MSel.mk.injEq]
  exact ⟨h1, h2⟩

theorem range_map_zero_add (n : Nat) :
    (List.range n).map (fun j => some (0 + j)) = idTable n := by
  unfold idTable
  apply List.map_congr_left
  intro a _
  simp

/-- On tables resolving every listed record to its own index, the rebuild
reproduces the records in order, provided no record repeats. -/
theorem rebuildSelect_identity (msel : List MSel) (vt et ft : List (Option Nat))
    (hnodup : msel.Nodup)
    (hres : ∀ r ∈ msel, selSlot vt et ft r = some r.index) :
    rebuildSelect msel vt et ft = msel.map (fun r => (selDomOf r.dom, r.index)) := by
  induction msel generalizing vt et ft with
  | nil => rfl
  | cons r rest ih =>
    have hr := hres r (List.mem_cons_self r rest)
    have hnd := List.nodup_cons.1 hnodup
    have hpres : ∀ (t : List (Option Nat)) (idx i : Nat),
        t.getD idx none = some idx → idx ≠ i → (t.set i none).getD idx none = some idx := by
      intro t idx i h hne
      rw [getD_set_none, if_neg hne]
      exact h
    cases hd : r.dom with
    | invalid =>
      rw [show selSlot vt et ft r = none by simp [selSlot, hd]] at hr
      cases hr
    | vsel =>
      have hg : vt.getD r.index none = some r.index := by
        have := hr
        simp only [selSlot, hd] at this
        exact this
      have htail : rebuildSelect rest (vt.set r.index none) et ft =
          rest.map (fun r => (selDomOf r.dom, r.index)) := by
        apply ih _ _ _ hnd.2
        intro rr hrr
        have hrres := hres rr (List.mem_cons_of_mem r hrr)
        cases hdd : rr.dom with
        | vsel =>
          simp only [selSlot, hdd] at hrres ⊢
          by_cases hix : rr.index = r.index
          · exact absurd (by rw [← msel_ext rr r (hd ▸ hdd) hix]; exact hrr) hnd.1
          · exact hpres vt rr.index r.index hrres hix
        | esel =>
          simp only [selSlot, hdd] at hrres ⊢
          exact hrres
        | fsel =>
          simp only [selSlot, hdd] at hrres ⊢
          exact hrres
        | invalid =>
          rw [show selSlot vt et ft rr = none by simp [selSlot, hdd]] at hrres
          cases hrres
      simp only [rebuildSelect, hd, hg, List.map_cons, htail, selDomOf]
    | esel =>
      have hg : et.getD r.index none = some r.index := by
        have := hr
        simp only [selSlot, hd] at this
        exact this
      have htail : rebuildSelect rest vt (et.set r.index none) ft =
          rest.map (fun r => (selDomOf r.dom, r.index)) := by
        apply ih _ _ _ hnd.2
        intro rr hrr
        have hrres := hres rr (List.mem_cons_of_mem r hrr)
        cases hdd : rr.dom with
        | esel =>
          simp only [selSlot, hdd] at hrres ⊢
          by_cases hix : rr.index = r.index
          · exact absurd (by rw [← msel_ext rr r (hd ▸ hdd) hix]; exact hrr) hnd.1
          · exact hpres et rr.index r.index hrres hix
        | vsel =>
          simp only [selSlot, hdd] at hrres ⊢
          exact hrres
        | fsel =>
          simp only [selSlot, hdd] at hrres ⊢
          exact hrres
        | invalid =>
          rw [show selSlot vt et ft rr = none by simp [selSlot, hdd]] at hrres
          cases hrres
      simp only [rebuildSelect, hd, hg, List.map_cons, htail, selDomOf]
    | fsel =>
      have hg : ft.getD r.index none = some r.index := by
        have := hr
        simp only [selSlot, hd] at this
        exact this
      have htail : rebuildSelect rest vt et (ft.set r.index none) =
          rest.map (fun r => (selDomOf r.dom, r.index)) := by
        apply ih _ _ _ hnd.2
        intro rr hrr
        have hrres := hres rr (List.mem_cons_of_mem r hrr)
        cases hdd : rr.dom with
        | fsel =>
          simp only [selSlot, hdd] at hrres ⊢
          by_cases hix : rr.index = r.index
          · exact absurd (by rw [← msel_ext rr r (hd ▸ hdd) hix]; exact hrr) hnd.1
          · exact hpres ft rr.index r.index hrres hix
        | vsel =>
          simp only [selSlot, hdd] at hrres ⊢
          exact hrres
        | esel =>
          simp only [selSlot, hdd] at hrres ⊢
          exact hrres
        | invalid =>
          rw [show selSlot vt et ft rr = none by simp [selSlot, hdd]] at hrres
          cases hrres
      simp only [rebuildSelect, hd, hg, List.map_cons, htail, selDomOf]

/-- The selection history the builder produces on a fresh BMesh from a
valid, duplicate-free selection list, with every polygon accepted: the
records in order, as domain-and-index pairs. -/
theorem from_me_selected_eq (me : Mesh)
    (h0 : me.mvert.isEmpty = false)
    (hvalid : ∀ r ∈ me.mselect, mselValidB me r = true)
    (hnodup : me.mselect.Nodup)
    (hok : ∀ q ∈ me.mpoly,
      polyCreatable me.mvert.length (me.medge.map medgeEnds) me.mloop q = true) :
    (BM_mesh_bm_from_me emptyBM me (stdFromParams 0)).selected =
      me.mselect.map (fun r => (selDomOf r.dom, r.index)) := by
  have hends : (fromMeEO me (stdFromParams 0)).2.map edgeEnds =
      me.medge.map medgeEnds := by
    unfold fromMeEO
    rw [buildEdges_snd]
    induction me.medge with
    | nil => rfl
    | cons m rest ih => simp [mkBMEdge, edgeEnds, medgeEnds, ih]
  have hft : (fromMeFO me (stdFromParams 0)).ft = idTable me.mpoly.length := by
    have hfo : fromMeFO me (stdFromParams 0) =
        buildFaces false me.mvert.length me.mloop me.mpoly 0 0
          (fromMeEO me (stdFromParams 0)).1 (fromMeEO me (stdFromParams 0)).2 := rfl
    rw [hfo]
    rw [(buildFaces_allOk me.mvert.length me.mloop (me.medge.map medgeEnds)
      me.mpoly 0 0 _ _ hends hok).2.1]
    exact range_map_zero_add me.mpoly.length
  rw [from_me_fresh me (stdFromParams 0) h0]
  show (if me.mselect.isEmpty then []
    else rebuildSelect me.mselect (idTable me.mvert.length)
      (idTable me.medge.length) (fromMeFO me (stdFromParams 0)).ft) =
    me.mselect.map (fun r => (selDomOf r.dom, r.index))
  by_cases hsel : me.mselect.isEmpty
  · rw [if_pos hsel]
    rw [List.isEmpty_iff.1 hsel]
    rfl
  · rw [if_neg hsel, hft]
    apply rebuildSelect_identity me.mselect _ _ _ hnodup
    intro r hrr
    have hv := hvalid r hrr
    cases hd : r.dom with
    | vsel =>
      simp only [mselValidB, hd, decide_eq_true_eq] at hv
      simp only [selSlot, hd, idTable_getD, if_pos hv]
    | esel =>
      simp only [mselValidB, hd, decide_eq_true_eq] at hv
      simp only [selSlot, hd, idTable_getD, if_pos hv]
    | fsel =>
      simp only [mselValidB, hd, decide_eq_true_eq] at hv
      simp only [selSlot, hd, idTable_getD, if_pos hv]
    | invalid =>
      rw [show mselValidB me r = false by simp [mselValidB, hd]] at hv
      cases hv

theorem filterMap_congr_mem (l : List α) (f g : α → Option β)
    (h : ∀ a ∈ l, f a = g a) : l.filterMap f = l.filterMap g := by
  induction l with
  | nil => rfl
  | cons a rest ih =>
    simp only [List.filterMap_cons, h a (List.mem_cons_self a rest)]
    cases g a <;> simp [ih (fun b hb => h b (List.mem_cons_of_mem a hb))]

/-- C4 counterexample to the claim as stated: a selection list whose two
records both reference live vertex 0 does not survive the round trip with
identical ordering and values: the duplicate is dropped by the table-slot
clearing the builder performs, so only one record comes back. -/
theorem selection_duplicate_not_preserved :
    meshDupSel.mselect = [⟨.vsel, 0⟩, ⟨.vsel, 0⟩] ∧
    (∀ r ∈ meshDupSel.mselect, mselValidB meshDupSel r = true) ∧
    (roundTrip meshDupSel).me.mselect = [⟨.vsel, 0⟩] ∧
    decide ((roundTrip meshDupSel).me.mselect = meshDupSel.mselect) = false := by
  refine ⟨rfl, by decide, rfl, by decide⟩

/-- C4 (amended): a duplicate-free selection-history list whose records all
reference live elements survives a build-extract round trip with identical
ordering, domain tags and index values; and when an isolated vertex k is
deleted during editing, the records referencing it are absent from the
extracted list while the remaining records survive in order (vertex records
renumbered to the new vertex ordering). -/
theorem selection_history_roundtrip (me : Mesh)
    (h0 : me.mvert.isEmpty = false)
    (hvalid : ∀ r ∈ me.mselect, mselValidB me r = true)
    (hnodup : me.mselect.Nodup)
    (hok : ∀ q ∈ me.mpoly,
      polyCreatable me.mvert.length (me.medge.map medgeEnds) me.mloop q = true) :
    (roundTrip me).me.mselect = me.mselect ∧
    (∀ k, (∀ e ∈ me.medge, e.v1 ≠ k ∧ e.v2 ≠ k) → (∀ l ∈ me.mloop, l.v ≠ k) →
      (BM_mesh_bm_to_me (deleteVert (BM_mesh_bm_from_me emptyBM me (stdFromParams 0)) k)
          me [] stdToParams).me.mselect =
        me.mselect.filterMap (fun r =>
          if r.dom = MSelType.vsel ∧ r.index = k then none
          else some ⟨r.dom, if r.dom = MSelType.vsel then shiftIdx k r.index
            else r.index⟩)) := by
  have hbm := from_me_selected_eq me h0 hvalid hnodup hok
  constructor
  · have hsel : (roundTrip me).me.mselect =
        (BM_mesh_bm_from_me emptyBM me (stdFromParams 0)).selected.map
          (fun p => (⟨bmDomainToSel p.1, p.2⟩ : MSel)) := rfl
    rw [hsel, hbm, List.map_map]
    have hid : ∀ r ∈ me.mselect,
        (⟨bmDomainToSel (selDomOf r.dom), r.index⟩ : MSel) = r := by
      intro r hrr
      have hv := hvalid r hrr
      apply msel_ext
      · cases hd : r.dom with
        | vsel => simp [selDomOf, bmDomainToSel, hd]
        | esel => simp [selDomOf, bmDomainToSel, hd]
        | fsel => simp [selDomOf, bmDomainToSel, hd]
        | invalid =>
          rw [show mselValidB me r = false by simp [mselValidB, hd]] at hv
          cases hv
      · rfl
    calc me.mselect.map ((fun p => (⟨bmDomainToSel p.1, p.2⟩ : MSel)) ∘
          (fun r => (selDomOf r.dom, r.index)))
        = me.mselect.map (fun r => r) := by
          apply List.map_congr_left
          intro r hrr
          exact hid r hrr
      _ = me.mselect := List.map_id _
  · intro k hke hkl
    have hdel : (deleteVert (BM_mesh_bm_from_me emptyBM me (stdFromParams 0)) k).selected =
        (BM_mesh_bm_from_me emptyBM me (stdFromParams 0)).selected.filterMap
          (fun p => match p.1 with
            | BMDomain.vert => if p.2 = k then none else some (p.1, shiftIdx k p.2)
            | _ => some p) := rfl
    have hsel : (BM_mesh_bm_to_me (deleteVert (BM_mesh_bm_from_me emptyBM me
          (stdFromParams 0)) k) me [] stdToParams).me.mselect =
        (deleteVert (BM_mesh_bm_from_me emptyBM me (stdFromParams 0)) k).selected.map
          (fun p => (⟨bmDomainToSel p.1, p.2⟩ : MSel)) := rfl
    rw [hsel, hdel, hbm, List.filterMap_map, List.map_filterMap]
    apply filterMap_congr_mem
    intro r hrr
    have hv := hvalid r hrr
    simp only [Function.comp_apply]
    cases hd : r.dom with
    | vsel =>
      simp only [selDomOf]
      by_cases hik : r.index = k
      · simp [hik, hd]
      · simp [hik, hd, bmDomainToSel]
    | esel =>
      simp [selDomOf, hd, bmDomainToSel]
    | fsel =>
      simp [selDomOf, hd, bmDomainToSel]
    | invalid =>
      rw [show mselValidB me r = false by simp [mselValidB, hd]] at hv
      cases hv

/-- C4 witness: the amended round-trip and deletion behaviour at the
concrete selected triangle. -/
theorem selection_history_roundtrip_witness :
    (roundTrip meshTriSel).me.mselect = meshTriSel.mselect ∧
    (∀ k, (∀ e ∈ meshTriSel.medge, e.v1 ≠ k ∧ e.v2 ≠ k) →
      (∀ l ∈ meshTriSel.mloop, l.v ≠ k) →
      (BM_mesh_bm_to_me (deleteVert (BM_mesh_bm_from_me emptyBM meshTriSel
          (stdFromParams 0)) k) meshTriSel [] stdToParams).me.mselect =
        meshTriSel.mselect.filterMap (fun r =>
          if r.dom = MSelType.vsel ∧ r.index = k then none
          else some ⟨r.dom, if r.dom = MSelType.vsel then shiftIdx k r.index
            else r.index⟩)) :=
  selection_history_roundtrip meshTriSel rfl (by decide) (by decide) (by decide)

/-! ## Claim C1: round-trip idempotence -/

theorem filter_congr_mem (l : List α) (p q : α → Bool) (h : ∀ a ∈ l, p a = q a) :
    l.filter p = l.filter q := by
  induction l with
  | nil => rfl
  | cons a rest ih =>
    simp only [List.filter_cons, h a (List.mem_cons_self a rest)]
    rw [ih (fun b hb => h b (List.mem_cons_of_mem a hb))]

theorem mapIdxFrom_congr (f g : Nat → α → β) (i : Nat) (l : List α)
    (h : ∀ j a, l.get? j = some a → f (i + j) a = g (i + j) a) :
    mapIdxFrom f i l = mapIdxFrom g i l := by
  induction l generalizing i with
  | nil => rfl
  | cons a as ih =>
    simp only [mapIdxFrom]
    have h0 : f (i + 0) a = g (i + 0) a := h 0 a rfl
    rw [Nat.add_zero] at h0
    rw [h0, ih (i + 1) (fun j b hb => by
      have hx := h (j + 1) b hb
      have he : i + (j + 1) = i + 1 + j := by omega
      rw [he] at hx
      exact hx)]

theorem hasLayer_freeLayer_self (ls : List Layer) (t : CDType) :
    hasLayer (freeLayer ls t) t = false := by
  rw [Bool.eq_false_iff]
  intro h
  simp only [hasLayer, freeLayer, List.any_eq_true, List.mem_filter,
    decide_eq_true_eq] at h
  obtain ⟨L, ⟨_, hkeep⟩, hty⟩ := h
  rw [decide_eq_true hty] at hkeep
  cases hkeep

theorem hasLayer_freeLayer_other (ls : List Layer) (t t' : CDType) (h : t' ≠ t) :
    hasLayer (freeLayer ls t) t' = hasLayer ls t' := by
  induction ls with
  | nil => rfl
  | cons L rest ih =>
    simp only [freeLayer, List.filter_cons] at ih ⊢
    by_cases hL : L.ty = t
    · rw [decide_eq_true hL]
      have hd2 : decide (L.ty = t') = false := by
        rw [hL]
        exact decide_eq_false (fun he => h he.symm)
      simp only [Bool.not_true, Bool.false_eq_true, if_false]
      rw [ih]
      simp [hasLayer, hd2]
    · rw [decide_eq_false hL]
      rw [if_pos (by simp)]
      simp only [hasLayer, List.any_cons] at ih ⊢
      rw [ih]

theorem hasLayer_addLayer_self (ls : List Layer) (t : CDType) (n : String) :
    hasLayer (addLayer ls t n) t = true := by
  simp [hasLayer, addLayer, List.any_append]

theorem hasLayer_addLayer_other (ls : List Layer) (t t' : CDType) (n : String)
    (h : t' ≠ t) : hasLayer (addLayer ls t n) t' = hasLayer ls t' := by
  have hd : decide (t = t') = false := decide_eq_false (fun he => h he.symm)
  simp [hasLayer, addLayer, List.any_append, hd]

theorem hasLayer_applyFlagLayer_self (ls : List Layer) (w : Bool) (t : CDType) :
    hasLayer (applyFlagLayer ls w t) t = w := by
  unfold applyFlagLayer
  cases w with
  | true =>
    rw [if_pos rfl]
    by_cases hl : hasLayer ls t
    · rw [if_pos hl]
      exact hl
    · rw [if_neg hl]
      exact hasLayer_addLayer_self ls t ""
  | false =>
    rw [if_neg (by simp)]
    by_cases hl : hasLayer ls t
    · rw [if_pos hl]
      exact hasLayer_freeLayer_self ls t
    · rw [if_neg hl]
      exact Bool.eq_false_iff.2 hl

theorem hasLayer_applyFlagLayer_other (ls : List Layer) (w : Bool) (t t' : CDType)
    (h : t' ≠ t) : hasLayer (applyFlagLayer ls w t) t' = hasLayer ls t' := by
  unfold applyFlagLayer
  cases w with
  | true =>
    rw [if_pos rfl]
    by_cases hl : hasLayer ls t
    · rw [if_pos hl]
    · rw [if_neg hl]
      exact hasLayer_addLayer_other ls t t' "" h
  | false =>
    rw [if_neg (by simp)]
    by_cases hl : hasLayer ls t
    · rw [if_pos hl]
      exact hasLayer_freeLayer_other ls t t' h
    · rw [if_neg hl]

theorem hasLayer_applyBC_bw (ls : List Layer) (a b : Bool) :
    hasLayer (applyFlagLayer (applyFlagLayer ls a .bweight) b .crease) .bweight = a := by
  rw [hasLayer_applyFlagLayer_other _ b .crease .bweight (by decide)]
  exact hasLayer_applyFlagLayer_self ls a .bweight

theorem hasLayer_applyBC_cr (ls : List Layer) (a b : Bool) :
    hasLayer (applyFlagLayer (applyFlagLayer ls a .bweight) b .crease) .crease = b :=
  hasLayer_applyFlagLayer_self _ b .crease

theorem filter_maskMESH_freeLayer (ls : List Layer) (t : CDType)
    (ht : maskMESH t = false) :
    (freeLayer ls t).filter (fun L => maskMESH L.ty) =
      ls.filter (fun L => maskMESH L.ty) := by
  induction ls with
  | nil => rfl
  | cons L rest ih =>
    simp only [freeLayer, List.filter_cons] at ih ⊢
    by_cases hL : L.ty = t
    · have hm : maskMESH L.ty = false := by rw [hL]; exact ht
      rw [decide_eq_true hL]
      simp only [Bool.not_true, Bool.false_eq_true, if_false]
      rw [ih, hm]
      simp
    · rw [decide_eq_false hL]
      simp only [Bool.not_false, if_pos]
      rw [List.filter_cons, ih]

theorem filter_maskMESH_applyFlagLayer (ls : List Layer) (w : Bool) (t : CDType)
    (ht : maskMESH t = false) :
    (applyFlagLayer ls w t).filter (fun L => maskMESH L.ty) =
      ls.filter (fun L => maskMESH L.ty) := by
  unfold applyFlagLayer
  cases w with
  | true =>
    rw [if_pos rfl]
    by_cases hl : hasLayer ls t
    · rw [if_pos hl]
    · rw [if_neg hl]
      unfold addLayer
      rw [List.filter_append]
      simp [ht]
  | false =>
    rw [if_neg (by simp)]
    by_cases hl : hasLayer ls t
    · rw [if_pos hl]
      exact filter_maskMESH_freeLayer ls t ht
    · rw [if_neg hl]

theorem filter_maskMESH_applyBC (ls : List Layer) (a b : Bool) :
    (applyFlagLayer (applyFlagLayer ls a .bweight) b .crease).filter
        (fun L => maskMESH L.ty) = ls.filter (fun L => maskMESH L.ty) := by
  rw [filter_maskMESH_applyFlagLayer _ b .crease rfl,
    filter_maskMESH_applyFlagLayer _ a .bweight rfl]

/-- unit_float_to_uchar_clamp undoes the byte-to-unit-float conversion of the
builder on genuine byte values. -/
theorem unit_float_to_uchar_clamp_byte (b : Nat) (hb : b ≤ 255) :
    unit_float_to_uchar_clamp ((b : ℚ) / 255) = b := by
  unfold unit_float_to_uchar_clamp
  rcases Nat.eq_zero_or_pos b with h0 | h1
  · subst h0
    norm_num
  · have hbq1 : (1 : ℚ) ≤ (b : ℚ) := by exact_mod_cast h1
    have hnot0 : ¬ ((b : ℚ) / 255 ≤ 0) := by
      rw [not_le]
      positivity
    rw [if_neg hnot0]
    rcases Nat.lt_or_ge b 255 with h255 | h255
    · have hble : (b : ℚ) ≤ 254 := by
        have : b ≤ 254 := by omega
        exact_mod_cast this
      have hnot1 : ¬ ((1 : ℚ) - 1 / 510 < (b : ℚ) / 255) := by
        rw [not_lt, div_le_iff (by norm_num : (0 : ℚ) < 255)]
        linarith
      rw [if_neg hnot1]
      have harg : (b : ℚ) / 255 * 255 + 1 / 2 = (b : ℚ) + 1 / 2 := by
        field_simp
      rw [harg]
      have hfl : ⌊(b : ℚ) + 1 / 2⌋ = (b : ℤ) := by
        rw [Int.floor_eq_iff]
        constructor
        · push_cast
          linarith
        · push_cast
          linarith
      have hconv : ((b : ℚ) + 1 / 2).floor = ⌊(b : ℚ) + 1 / 2⌋ := rfl
      rw [hconv, hfl]
      exact Int.toNat_natCast b
    · have hbe : b = 255 := le_antisymm hb h255
      subst hbe
      norm_num

theorem vsel1_noop (vs : List BMVert) (i : Nat)
    (h : ∀ v, vs.get? i = some v → v.sel = true) : vsel1 vs i = vs := by
  apply listModify_noop
  intro v hv
  have hs := h v hv
  cases v with
  | mk c n s r b k sh a =>
    simp only at hs
    subst hs
    rfl

theorem esel1_noop (es : List BMEdge) (i : Nat)
    (h : ∀ e, es.get? i = some e → e.sel = true) : esel1 es i = es := by
  apply listModify_noop
  intro e he
  have hs := h e he
  cases e with
  | mk u w s d r b c a =>
    simp only at hs
    subst hs
    rfl

/-- The edge pass leaves the vertex list alone when every selected flat edge
already has selected endpoints. -/
theorem buildEdges_fst_noop (cd : CdFlags) (meds : List MEdge) (vs : List BMVert)
    (h : ∀ e ∈ meds, e.sel = true →
      (∀ v, vs.get? e.v1 = some v → v.sel = true) ∧
      (∀ v, vs.get? e.v2 = some v → v.sel = true)) :
    (buildEdges cd meds vs).1 = vs := by
  induction meds with
  | nil => rfl
  | cons m rest ih =>
    simp only [buildEdges]
    by_cases hs : m.sel = true
    · have hm := h m (List.mem_cons_self m rest) hs
      rw [if_pos hs, vsel1_noop vs m.v1 hm.1, vsel1_noop vs m.v2 hm.2]
      exact ih (fun e he hsel => h e (List.mem_cons_of_mem m he) hsel)
    · rw [if_neg hs]
      exact ih (fun e he hsel => h e (List.mem_cons_of_mem m he) hsel)

/-- The face-selection cascade is the identity when every corner vertex and
edge it touches is already selected. -/
theorem selFaceLoops_noop (loops : List BMLoop) (vs : List BMVert) (es : List BMEdge)
    (h : ∀ l ∈ loops, (∀ v, vs.get? l.v = some v → v.sel = true) ∧
      (∀ e, es.get? l.e = some e → e.sel = true)) :
    selFaceLoops loops vs es = (vs, es) := by
  induction loops with
  | nil => rfl
  | cons l rest ih =>
    have hl := h l (List.mem_cons_self l rest)
    show selFaceLoops rest (vsel1 vs l.v) (esel1 es l.e) = (vs, es)
    rw [vsel1_noop vs l.v hl.1, esel1_noop es l.e hl.2]
    exact ih (fun b hb => h b (List.mem_cons_of_mem l hb))

/-- The face pass leaves the vertex and edge lists alone when every polygon
is accepted and every selected polygon has selected corners. -/
theorem buildFaces_state_noop (nv : Nat) (mloop : List MLoop) :
    ∀ (polys : List MPoly) (i fc : Nat) (vs : List BMVert) (es : List BMEdge),
      (∀ q ∈ polys, polyCreatable nv (es.map edgeEnds) mloop q = true) →
      (∀ q ∈ polys, q.sel = true → ∀ l ∈ faceLoopSlice mloop q,
        (∀ v, vs.get? l.v = some v → v.sel = true) ∧
        (∀ e, es.get? l.e = some e → e.sel = true)) →
      (buildFaces false nv mloop polys i fc vs es).vs = vs ∧
      (buildFaces false nv mloop polys i fc vs es).es = es := by
  intro polys
  induction polys with
  | nil =>
    intro i fc vs es _ _
    exact ⟨rfl, rfl⟩
  | cons p rest ih =>
    intro i fc vs es hok hsel
    have hcreate : bm_face_create_from_mpoly nv es mloop p =
        some ((faceLoopSlice mloop p).map (fun l => ⟨l.v, l.e, l.attr⟩)) := by
      rw [bm_face_create_from_mpoly_eq, if_pos (hok p (List.mem_cons_self p rest))]
    have hst : (if p.sel = true then
        selFaceLoops ((faceLoopSlice mloop p).map (fun l => ⟨l.v, l.e, l.attr⟩)) vs es
        else (vs, es)) = (vs, es) := by
      by_cases hs : p.sel = true
      · rw [if_pos hs]
        apply selFaceLoops_noop
        intro bl hbl
        obtain ⟨ml, hml, hbleq⟩ := List.mem_map.1 hbl
        have hm := hsel p (List.mem_cons_self p rest) hs ml hml
        rw [← hbleq]
        exact hm
      · rw [if_neg hs]
    simp only [buildFaces, hcreate, hst]
    exact ih (i + 1) (fc + 1) vs es
      (fun q hq => hok q (List.mem_cons_of_mem p hq))
      (fun q hq hqs => hsel q (List.mem_cons_of_mem p hq) hqs)

/-- The face walk of the extractor inverts the face pass of the builder on a
contiguous polygon list: the polygons and the loop tail come back verbatim. -/
theorem facesToPolys_tile (mloop : List MLoop) :
    ∀ (polys : List MPoly) (j : Nat),
      polysTile mloop.length j polys = true →
      (∀ q ∈ polys, (faceLoopSlice mloop q).length = q.totloop) →
      facesToPolys (polys.map (plainFace mloop)) j = (polys, mloop.drop j) := by
  intro polys
  induction polys with
  | nil =>
    intro j htile _
    have hj : j = mloop.length := by
      simpa [polysTile] using htile
    subst hj
    simp [facesToPolys, List.drop_length]
  | cons p rest ih =>
    intro j htile hlen
    have ht : p.loopstart = j ∧ polysTile mloop.length (j + p.totloop) rest = true := by
      simpa [polysTile] using htile
    have hlp : (plainFace mloop p).loops.length = p.totloop := by
      show ((faceLoopSlice mloop p).map
        (fun l => (⟨l.v, l.e, l.attr⟩ : BMLoop))).length = p.totloop
      rw [List.length_map]
      exact hlen p (List.mem_cons_self p rest)
    have hrec := ih (j + p.totloop) ht.2 (fun q hq => hlen q (List.mem_cons_of_mem p hq))
    simp only [List.map_cons, facesToPolys, hlp, hrec]
    simp only [Prod.mk.injEq]
    constructor
    · show ({ loopstart := j, totloop := p.totloop, sel := p.sel, rest := p.rest,
              mat := p.mat, attr := p.attr } : MPoly) :: rest = p :: rest
      rw [← ht.1]
    · show ((faceLoopSlice mloop p).map (fun l => (⟨l.v, l.e, l.attr⟩ : BMLoop))).map
          (fun l => (⟨l.v, l.e, l.attr⟩ : MLoop)) ++ mloop.drop (j + p.totloop) = mloop.drop j
      rw [List.map_map]
      have hid : ((fun l => (⟨l.v, l.e, l.attr⟩ : MLoop)) ∘
          (fun l : MLoop => (⟨l.v, l.e, l.attr⟩ : BMLoop))) = id := rfl
      rw [hid, List.map_id]
      have hsl : faceLoopSlice mloop p = (mloop.drop j).take p.totloop := by
        unfold faceLoopSlice
        rw [ht.1]
      rw [hsl]
      have hdd : mloop.drop (j + p.totloop) = ((mloop.drop j).drop p.totloop) := by
        rw [List.drop_drop]
      rw [hdd, List.take_append_drop]

/-- C1 (amended): on a flat mesh with no shape blocks whose polygons are all
creatable and tile the loop array, whose selection flags are closed under the
cascades, whose byte fields are genuine gated bytes and whose layers are all
of persisted types, the build-extract round trip restores every array and
the layer lists exactly - except that each edge draw flag comes back as the
recomputed quick-draw value of the built mesh, not as its stored value. -/
theorem round_trip_preserves_arrays (me : Mesh)
    (h0 : me.mvert.isEmpty = false)
    (hkey : me.key = none)
    (hok : ∀ q ∈ me.mpoly,
      polyCreatable me.mvert.length (me.medge.map medgeEnds) me.mloop q = true)
    (htile : polysTile me.mloop.length 0 me.mpoly = true)
    (hsel : selConsistent me = true)
    (hbytes : bytesOk me = true)
    (hlay : layersPersist me = true) :
    (roundTrip me).me.mvert = me.mvert ∧
    (roundTrip me).me.medge = mapIdxL (fun i e =>
      { e with draw := (bmesh_quick_edgedraw_flag
          (BM_mesh_bm_from_me emptyBM me (stdFromParams 0)) i) }) me.medge ∧
    (roundTrip me).me.mloop = me.mloop ∧
    (roundTrip me).me.mpoly = me.mpoly ∧
    (roundTrip me).me.key = me.key ∧
    (roundTrip me).me.cd_flag = me.cd_flag ∧
    (roundTrip me).me.vlayers = me.vlayers ∧
    (roundTrip me).me.elayers = me.elayers ∧
    (roundTrip me).me.llayers = me.llayers ∧
    (roundTrip me).me.players = me.players := by
  have hselC : (me.medge.all (fun e => !e.sel ||
        (vertSelOk me.mvert e.v1 && vertSelOk me.mvert e.v2))) = true ∧
      (me.mpoly.all (fun q => !q.sel || (faceLoopSlice me.mloop q).all (fun l =>
        vertSelOk me.mvert l.v && edgeSelOk me.medge l.e))) = true := by
    have h := hsel
    unfold selConsistent at h
    rw [Bool.and_eq_true] at h
    exact h
  have hbytesC : (me.mvert.all (fun v => decide (v.bweight ≤ 255) &&
        (me.cd_flag.vBweight || decide (v.bweight = 0)))) = true ∧
      (me.medge.all (fun e => decide (e.bweight ≤ 255) && decide (e.crease ≤ 255) &&
        (me.cd_flag.eBweight || decide (e.bweight = 0)) &&
        (me.cd_flag.eCrease || decide (e.crease = 0)))) = true := by
    have h := hbytes
    unfold bytesOk at h
    rw [Bool.and_eq_true] at h
    exact h
  have hselE : ∀ e ∈ me.medge, e.sel = true →
      vertSelOk me.mvert e.v1 = true ∧ vertSelOk me.mvert e.v2 = true := by
    intro e he hes
    have h1 := (List.all_eq_true.1 hselC.1) e he
    rw [hes] at h1
    simp only [Bool.not_true, Bool.false_or, Bool.and_eq_true] at h1
    exact h1
  have hselF : ∀ q ∈ me.mpoly, q.sel = true → ∀ l ∈ faceLoopSlice me.mloop q,
      vertSelOk me.mvert l.v = true ∧ edgeSelOk me.medge l.e = true := by
    intro q hq hqs l hl
    have h1 := (List.all_eq_true.1 hselC.2) q hq
    rw [hqs] at h1
    simp only [Bool.not_true, Bool.false_or, List.all_eq_true] at h1
    have h2 := h1 l hl
    simpa [Bool.and_eq_true] using h2
  have hbytesV : ∀ v ∈ me.mvert, v.bweight ≤ 255 ∧
      (me.cd_flag.vBweight = false → v.bweight = 0) := by
    intro v hv
    have h1 := (List.all_eq_true.1 hbytesC.1) v hv
    simp only [Bool.and_eq_true, decide_eq_true_eq, Bool.or_eq_true] at h1
    refine ⟨h1.1, ?_⟩
    intro hf
    rcases h1.2 with hc | hc
    · rw [hf] at hc
      cases hc
    · exact hc
  have hbytesE : ∀ e ∈ me.medge, e.bweight ≤ 255 ∧ e.crease ≤ 255 ∧
      (me.cd_flag.eBweight = false → e.bweight = 0) ∧
      (me.cd_flag.eCrease = false → e.crease = 0) := by
    intro e he
    have h1 := (List.all_eq_true.1 hbytesC.2) e he
    simp only [Bool.and_eq_true, decide_eq_true_eq, Bool.or_eq_true] at h1
    obtain ⟨⟨⟨hA, hB⟩, hC⟩, hD⟩ := h1
    refine ⟨hA, hB, ?_, ?_⟩
    · intro hf
      rcases hC with hc | hc
      · rw [hf] at hc
        cases hc
      · exact hc
    · intro hf
      rcases hD with hc | hc
      · rw [hf] at hc
        cases hc
      · exact hc
  have hVsel : ∀ i, vertSelOk me.mvert i = true →
      ∀ bv, (fromMeVertsList me (stdFromParams 0)).get? i = some bv → bv.sel = true := by
    intro i hi bv hbv
    unfold fromMeVertsList at hbv
    rw [mapIdxL_get?] at hbv
    cases hv : me.mvert.get? i with
    | none =>
      rw [hv] at hbv
      cases hbv
    | some mv =>
      rw [hv] at hbv
      simp only [Option.map_some'] at hbv
      rw [← Option.some.inj hbv]
      show mv.sel = true
      unfold vertSelOk at hi
      rw [hv] at hi
      exact hi
  have hEsel : ∀ i, edgeSelOk me.medge i = true →
      ∀ be, (me.medge.map (mkBMEdge me.cd_flag)).get? i = some be → be.sel = true := by
    intro i hi be hbe
    rw [List.get?_map] at hbe
    cases hv : me.medge.get? i with
    | none =>
      rw [hv] at hbe
      cases hbe
    | some med =>
      rw [hv] at hbe
      simp only [Option.map_some'] at hbe
      rw [← Option.some.inj hbe]
      show med.sel = true
      unfold edgeSelOk at hi
      rw [hv] at hi
      exact hi
  have hends : (fromMeEO me (stdFromParams 0)).2.map edgeEnds =
      me.medge.map medgeEnds := by
    unfold fromMeEO
    rw [buildEdges_snd]
    induction me.medge with
    | nil => rfl
    | cons m rest ih => simp [mkBMEdge, edgeEnds, medgeEnds, ih]
  have hedges2 : (fromMeEO me (stdFromParams 0)).2 =
      me.medge.map (mkBMEdge me.cd_flag) := by
    unfold fromMeEO
    rw [buildEdges_snd]
  have hvs0 : (fromMeEO me (stdFromParams 0)).1 = fromMeVertsList me (stdFromParams 0) := by
    unfold fromMeEO
    apply buildEdges_fst_noop
    intro e he hes
    have hok2 := hselE e he hes
    exact ⟨hVsel e.v1 hok2.1, hVsel e.v2 hok2.2⟩
  have hstate := buildFaces_state_noop me.mvert.length me.mloop me.mpoly 0 0
      (fromMeEO me (stdFromParams 0)).1 (fromMeEO me (stdFromParams 0)).2
      (by
        intro q hq
        rw [hends]
        exact hok q hq)
      (by
        intro q hq hqs l hl
        have hf := hselF q hq hqs l hl
        constructor
        · rw [hvs0]
          exact hVsel l.v hf.1
        · rw [hedges2]
          exact hEsel l.e hf.2)
  have hfo : fromMeFO me (stdFromParams 0) =
      buildFaces false me.mvert.length me.mloop me.mpoly 0 0
        (fromMeEO me (stdFromParams 0)).1 (fromMeEO me (stdFromParams 0)).2 := rfl
  have hverts : (fromMeFO me (stdFromParams 0)).vs = fromMeVertsList me (stdFromParams 0) := by
    rw [hfo, hstate.1, hvs0]
  have hedges : (fromMeFO me (stdFromParams 0)).es =
      me.medge.map (mkBMEdge me.cd_flag) := by
    rw [hfo, hstate.2, hedges2]
  have hfaces : (fromMeFO me (stdFromParams 0)).faces =
      me.mpoly.map (plainFace me.mloop) := by
    rw [hfo]
    exact (buildFaces_allOk me.mvert.length me.mloop (me.medge.map medgeEnds)
      me.mpoly 0 0 _ _ hends hok).1
  have htot : fromMeTot me = 0 := by
    simp [fromMeTot, keyBlocksOf, hkey]
  have hvl2 : fromMeVL2 me (stdFromParams 0) = fromMeVL0 me (stdFromParams 0) := by
    unfold fromMeVL2 fromMeVL1
    rw [htot]
    simp [stdFromParams]
  have hfilterAllV : fromMeVL0 me (stdFromParams 0) = me.vlayers := by
    unfold fromMeVL0
    exact List.filter_eq_self.mpr (fun a _ => rfl)
  have hlayAll := List.all_eq_true.1 hlay
  have hlayV : ∀ L ∈ me.vlayers, maskMESH L.ty = true := fun L hL =>
    hlayAll L (by simp [hL])
  have hlayE : ∀ L ∈ me.elayers, maskMESH L.ty = true := fun L hL =>
    hlayAll L (by simp [hL])
  have hlayL : ∀ L ∈ me.llayers, maskMESH L.ty = true := fun L hL =>
    hlayAll L (by simp [hL])
  have hlayP : ∀ L ∈ me.players, maskMESH L.ty = true := fun L hL =>
    hlayAll L (by simp [hL])
  have hcongr : ∀ (ls : List Layer),
      ls.filter (fun L => maskMESH L.ty || stdToParams.cd_mask_extra L.ty) =
        ls.filter (fun L => maskMESH L.ty) :=
    fun ls => filter_congr_mem ls _ _ (fun a _ => by simp [stdToParams])
  have hVB : hasLayer (BM_mesh_bm_from_me emptyBM me (stdFromParams 0)).vlayers
      .bweight = me.cd_flag.vBweight := by
    rw [from_me_fresh me (stdFromParams 0) h0]
    show hasLayer (fromMeVLayers me (stdFromParams 0)) .bweight = me.cd_flag.vBweight
    unfold fromMeVLayers cdFlagApplyV
    exact hasLayer_applyBC_bw _ _ _
  have hVC : hasLayer (BM_mesh_bm_from_me emptyBM me (stdFromParams 0)).vlayers
      .crease = me.cd_flag.vCrease := by
    rw [from_me_fresh me (stdFromParams 0) h0]
    show hasLayer (fromMeVLayers me (stdFromParams 0)) .crease = me.cd_flag.vCrease
    unfold fromMeVLayers cdFlagApplyV
    exact hasLayer_applyBC_cr _ _ _
  have hEB : hasLayer (BM_mesh_bm_from_me emptyBM me (stdFromParams 0)).elayers
      .bweight = me.cd_flag.eBweight := by
    rw [from_me_fresh me (stdFromParams 0) h0]
    show hasLayer (fromMeELayers me (stdFromParams 0)) .bweight = me.cd_flag.eBweight
    unfold fromMeELayers cdFlagApplyE
    exact hasLayer_applyBC_bw _ _ _
  have hEC : hasLayer (BM_mesh_bm_from_me emptyBM me (stdFromParams 0)).elayers
      .crease = me.cd_flag.eCrease := by
    rw [from_me_fresh me (stdFromParams 0) h0]
    show hasLayer (fromMeELayers me (stdFromParams 0)) .crease = me.cd_flag.eCrease
    unfold fromMeELayers cdFlagApplyE
    exact hasLayer_applyBC_cr _ _ _
  have hVerts : (BM_mesh_bm_from_me emptyBM me (stdFromParams 0)).verts =
      fromMeVertsList me (stdFromParams 0) := by
    rw [from_me_fresh me (stdFromParams 0) h0]
    exact hverts
  have hE : (BM_mesh_bm_from_me emptyBM me (stdFromParams 0)).edges =
      me.medge.map (mkBMEdge me.cd_flag) := by
    rw [from_me_fresh me (stdFromParams 0) h0]
    exact hedges
  have hF : (BM_mesh_bm_from_me emptyBM me (stdFromParams 0)).faces =
      me.mpoly.map (plainFace me.mloop) := by
    rw [from_me_fresh me (stdFromParams 0) h0]
    exact hfaces
  have hToV : toMeVerts (BM_mesh_bm_from_me emptyBM me (stdFromParams 0)) = me.mvert := by
    show (BM_mesh_bm_from_me emptyBM me (stdFromParams 0)).verts.map (fun v =>
      ({ co := v.co, sel := v.sel, rest := v.rest,
         bweight := if hasLayer (BM_mesh_bm_from_me emptyBM me
             (stdFromParams 0)).vlayers .bweight then
           unit_float_to_uchar_clamp v.bweight else 0,
         attr := v.attr } : MVert)) = me.mvert
    rw [hVB, hVerts]
    unfold fromMeVertsList mapIdxL
    rw [map_mapIdxFrom]
    apply mapIdxFrom_eq_self
    intro j mv hj
    have hbv := hbytesV mv (List.get?_mem hj)
    have hbw : (if me.cd_flag.vBweight = true then
        unit_float_to_uchar_clamp (if me.cd_flag.vBweight = true then
          (mv.bweight : ℚ) / 255 else 0) else 0) = mv.bweight := by
      cases hvb : me.cd_flag.vBweight with
      | false =>
        rw [if_neg Bool.false_ne_true]
        exact (hbv.2 hvb).symm
      | true =>
        rw [if_pos rfl, if_pos rfl]
        exact unit_float_to_uchar_clamp_byte mv.bweight hbv.1
    show ({ co := mv.co, sel := mv.sel, rest := mv.rest,
            bweight := if me.cd_flag.vBweight = true then
              unit_float_to_uchar_clamp (if me.cd_flag.vBweight = true then
                (mv.bweight : ℚ) / 255 else 0) else 0,
            attr := mv.attr } : MVert) = mv
    rw [hbw]
  have hToE : toMeEdges (BM_mesh_bm_from_me emptyBM me (stdFromParams 0)) =
      mapIdxL (fun i e => { e with draw := (bmesh_quick_edgedraw_flag
        (BM_mesh_bm_from_me emptyBM me (stdFromParams 0)) i) }) me.medge := by
    show mapIdxL (fun i e =>
      ({ v1 := e.v1, v2 := e.v2, sel := e.sel,
         draw := (bmesh_quick_edgedraw_flag
           (BM_mesh_bm_from_me emptyBM me (stdFromParams 0)) i),
         rest := e.rest,
         bweight := if hasLayer (BM_mesh_bm_from_me emptyBM me
             (stdFromParams 0)).elayers .bweight then
           unit_float_to_uchar_clamp e.bweight else 0,
         crease := if hasLayer (BM_mesh_bm_from_me emptyBM me
             (stdFromParams 0)).elayers .crease then
           unit_float_to_uchar_clamp e.crease else 0,
         attr := e.attr } : MEdge))
        (BM_mesh_bm_from_me emptyBM me (stdFromParams 0)).edges =
      mapIdxL (fun i e => { e with draw := (bmesh_quick_edgedraw_flag
        (BM_mesh_bm_from_me emptyBM me (stdFromParams 0)) i) }) me.medge
    rw [hEB, hEC, hE]
    unfold mapIdxL
    rw [mapIdxFrom_map]
    apply mapIdxFrom_congr
    intro j med hj
    have hbe := hbytesE med (List.get?_mem hj)
    have hbw : (if me.cd_flag.eBweight = true then
        unit_float_to_uchar_clamp (if me.cd_flag.eBweight = true then
          (med.bweight : ℚ) / 255 else 0) else 0) = med.bweight := by
      cases hvb : me.cd_flag.eBweight with
      | false =>
        rw [if_neg Bool.false_ne_true]
        exact (hbe.2.2.1 hvb).symm
      | true =>
        rw [if_pos rfl, if_pos rfl]
        exact unit_float_to_uchar_clamp_byte med.bweight hbe.1
    have hcr : (if me.cd_flag.eCrease = true then
        unit_float_to_uchar_clamp (if me.cd_flag.eCrease = true then
          (med.crease : ℚ) / 255 else 0) else 0) = med.crease := by
      cases hvc : me.cd_flag.eCrease with
      | false =>
        rw [if_neg Bool.false_ne_true]
        exact (hbe.2.2.2 hvc).symm
      | true =>
        rw [if_pos rfl, if_pos rfl]
        exact unit_float_to_uchar_clamp_byte med.crease hbe.2.1
    show ({ v1 := med.v1, v2 := med.v2, sel := med.sel,
            draw := (bmesh_quick_edgedraw_flag
              (BM_mesh_bm_from_me emptyBM me (stdFromParams 0)) (0 + j)),
            rest := med.rest,
            bweight := if me.cd_flag.eBweight = true then
              unit_float_to_uchar_clamp (if me.cd_flag.eBweight = true then
                (med.bweight : ℚ) / 255 else 0) else 0,
            crease := if me.cd_flag.eCrease = true then
              unit_float_to_uchar_clamp (if me.cd_flag.eCrease = true then
                (med.crease : ℚ) / 255 else 0) else 0,
            attr := med.attr } : MEdge) =
        { med with draw := (bmesh_quick_edgedraw_flag
            (BM_mesh_bm_from_me emptyBM me (stdFromParams 0)) (0 + j)) }
    rw [hbw, hcr]
  have hPL : facesToPolys (BM_mesh_bm_from_me emptyBM me (stdFromParams 0)).faces 0 =
      (me.mpoly, me.mloop) := by
    have hlen : ∀ q ∈ me.mpoly, (faceLoopSlice me.mloop q).length = q.totloop := by
      intro q hq
      have h1 := hok q hq
      unfold polyCreatable at h1
      rw [Bool.and_eq_true] at h1
      exact of_decide_eq_true h1.1
    rw [hF, facesToPolys_tile me.mloop me.mpoly 0 htile hlen]
    rw [List.drop_zero]
  have hCD : BM_mesh_cd_flag_from_bmesh
      (BM_mesh_bm_from_me emptyBM me (stdFromParams 0)) = me.cd_flag := by
    unfold BM_mesh_cd_flag_from_bmesh
    rw [hVB, hVC, hEB, hEC]
  have hShape : toMeShape (BM_mesh_bm_from_me emptyBM me (stdFromParams 0)) me
      (toMeVerts (BM_mesh_bm_from_me emptyBM me (stdFromParams 0))) =
      (none, toMeVerts (BM_mesh_bm_from_me emptyBM me (stdFromParams 0)),
        (BM_mesh_bm_from_me emptyBM me (stdFromParams 0)).verts) := by
    simp only [toMeShape, hkey]
  have hVL : (BM_mesh_bm_from_me emptyBM me (stdFromParams 0)).vlayers.filter
      (fun L => maskMESH L.ty || stdToParams.cd_mask_extra L.ty) = me.vlayers := by
    rw [from_me_fresh me (stdFromParams 0) h0]
    show (fromMeVLayers me (stdFromParams 0)).filter
      (fun L => maskMESH L.ty || stdToParams.cd_mask_extra L.ty) = me.vlayers
    rw [hcongr]
    unfold fromMeVLayers cdFlagApplyV
    rw [filter_maskMESH_applyBC, hvl2, hfilterAllV]
    exact List.filter_eq_self.mpr hlayV
  have hEL : (BM_mesh_bm_from_me emptyBM me (stdFromParams 0)).elayers.filter
      (fun L => maskMESH L.ty || stdToParams.cd_mask_extra L.ty) = me.elayers := by
    rw [from_me_fresh me (stdFromParams 0) h0]
    show (fromMeELayers me (stdFromParams 0)).filter
      (fun L => maskMESH L.ty || stdToParams.cd_mask_extra L.ty) = me.elayers
    rw [hcongr]
    unfold fromMeELayers cdFlagApplyE
    rw [filter_maskMESH_applyBC]
    rw [show me.elayers.filter (fun L => maskBMESH L.ty ||
        (stdFromParams 0).cd_mask_extra L.ty) = me.elayers from
      List.filter_eq_self.mpr (fun a _ => rfl)]
    exact List.filter_eq_self.mpr hlayE
  have hLL : (BM_mesh_bm_from_me emptyBM me (stdFromParams 0)).llayers.filter
      (fun L => maskMESH L.ty || stdToParams.cd_mask_extra L.ty) = me.llayers := by
    rw [from_me_fresh me (stdFromParams 0) h0]
    show (me.llayers.filter (fun L => maskBMESH L.ty ||
        (stdFromParams 0).cd_mask_extra L.ty)).filter
      (fun L => maskMESH L.ty || stdToParams.cd_mask_extra L.ty) = me.llayers
    rw [hcongr]
    rw [show me.llayers.filter (fun L => maskBMESH L.ty ||
        (stdFromParams 0).cd_mask_extra L.ty) = me.llayers from
      List.filter_eq_self.mpr (fun a _ => rfl)]
    exact List.filter_eq_self.mpr hlayL
  have hPLrs : (BM_mesh_bm_from_me emptyBM me (stdFromParams 0)).players.filter
      (fun L => maskMESH L.ty || stdToParams.cd_mask_extra L.ty) = me.players := by
    rw [from_me_fresh me (stdFromParams 0) h0]
    show (me.players.filter (fun L => maskBMESH L.ty ||
        (stdFromParams 0).cd_mask_extra L.ty)).filter
      (fun L => maskMESH L.ty || stdToParams.cd_mask_extra L.ty) = me.players
    rw [hcongr]
    rw [show me.players.filter (fun L => maskBMESH L.ty ||
        (stdFromParams 0).cd_mask_extra L.ty) = me.players from
      List.filter_eq_self.mpr (fun a _ => rfl)]
    exact List.filter_eq_self.mpr hlayP
  refine ⟨?_, ?_, ?_, ?_, ?_, ?_, ?_, ?_, ?_, ?_⟩
  · show (toMeShape (BM_mesh_bm_from_me emptyBM me (stdFromParams 0)) me
      (toMeVerts (BM_mesh_bm_from_me emptyBM me (stdFromParams 0)))).2.1 = me.mvert
    rw [hShape]
    exact hToV
  · exact hToE
  · show (facesToPolys (BM_mesh_bm_from_me emptyBM me (stdFromParams 0)).faces 0).2 =
      me.mloop
    rw [hPL]
  · show (facesToPolys (BM_mesh_bm_from_me emptyBM me (stdFromParams 0)).faces 0).1 =
      me.mpoly
    rw [hPL]
  · show (toMeShape (BM_mesh_bm_from_me emptyBM me (stdFromParams 0)) me
      (toMeVerts (BM_mesh_bm_from_me emptyBM me (stdFromParams 0)))).1 = me.key
    rw [hShape, hkey]
  · exact hCD
  · exact hVL
  · exact hEL
  · exact hLL
  · exact hPLrs

/-- C1 witness: the amended round-trip equalities at the concrete triangle
mesh. -/
theorem round_trip_preserves_arrays_witness :
    (roundTrip meshTri).me.mvert = meshTri.mvert ∧
    (roundTrip meshTri).me.medge = mapIdxL (fun i e =>
      { e with draw := (bmesh_quick_edgedraw_flag
          (BM_mesh_bm_from_me emptyBM meshTri (stdFromParams 0)) i) }) meshTri.medge ∧
    (roundTrip meshTri).me.mloop = meshTri.mloop ∧
    (roundTrip meshTri).me.mpoly = meshTri.mpoly ∧
    (roundTrip meshTri).me.key = meshTri.key ∧
    (roundTrip meshTri).me.cd_flag = meshTri.cd_flag ∧
    (roundTrip meshTri).me.vlayers = meshTri.vlayers ∧
    (roundTrip meshTri).me.elayers = meshTri.elayers ∧
    (roundTrip meshTri).me.llayers = meshTri.llayers ∧
    (roundTrip meshTri).me.players = meshTri.players :=
  round_trip_preserves_arrays meshTri rfl rfl (by decide) (by decide) (by decide)
    (by decide) (by decide)

/-- C1 counterexample to the claim as stated: a cleared edge draw flag does
not survive the round trip - extraction recomputes it and a faceless edge
comes back marked drawn, so the edge array is not restored byte for byte
even though the mesh has no shape blocks. -/
theorem round_trip_changes_edge_draw :
    meshEdgeDraw.key = none ∧
    meshEdgeDraw.medge.map (fun e => e.draw) = [false] ∧
    (roundTrip meshEdgeDraw).me.medge.map (fun e => e.draw) = [true] ∧
    decide ((roundTrip meshEdgeDraw).me.medge = meshEdgeDraw.medge) = false :=
  ⟨rfl, rfl, rfl, by decide⟩

/-! ## Claim C2: shape basis propagation -/

theorem mapIdxFrom_mapIdxFrom (g : Nat → α → β) (f : Nat → β → γ) (i : Nat)
    (l : List α) :
    mapIdxFrom f i (mapIdxFrom g i l) = mapIdxFrom (fun j a => f j (g j a)) i l := by
  induction l generalizing i with
  | nil => rfl
  | cons a as ih => simp [mapIdxFrom, ih]

theorem getD_eq_get?' (l : List α) (n : Nat) (d : α) :
    l.getD n d = (l.get? n).getD d := by
  induction l generalizing n with
  | nil => cases n <;> rfl
  | cons a t ih =>
    cases n with
    | zero => rfl
    | succ m => exact ih m

theorem getD_range_map (F : Nat → α) (m i : Nat) (d : α) (h : i < m) :
    ((List.range m).map F).getD i d = F i := by
  rw [getD_eq_get?', List.get?_map, List.get?_range h]
  rfl

theorem c2_layerpos_B (B D : KeyBlock) :
    bm_to_mesh_shape_layer_index_from_kb
      [⟨.keyindex, "", 0⟩, ⟨.shapekey, B.bname, B.uid⟩, ⟨.shapekey, D.bname, D.uid⟩] B =
    some 0 := by
  simp [bm_to_mesh_shape_layer_index_from_kb, shapeLayers, mapIdxL, mapIdxFrom,
    List.findSome?]

theorem c2_layerpos_D (B D : KeyBlock) (huid : B.uid ≠ D.uid) :
    bm_to_mesh_shape_layer_index_from_kb
      [⟨.keyindex, "", 0⟩, ⟨.shapekey, B.bname, B.uid⟩, ⟨.shapekey, D.bname, D.uid⟩] D =
    some 1 := by
  simp [bm_to_mesh_shape_layer_index_from_kb, shapeLayers, mapIdxL, mapIdxFrom,
    List.findSome?, huid]

theorem c2_basis (B D : KeyBlock) (hrel : D.relative = 0) :
    keyblock_is_basis ⟨[B, D], true, 0⟩ 0 = true := by
  simp [keyblock_is_basis, mapIdxL, mapIdxFrom, hrel]

theorem c2_synth (B D : KeyBlock) :
    synthBlocks ⟨[B, D], true, 0⟩
      [⟨.keyindex, "", 0⟩, ⟨.shapekey, B.bname, B.uid⟩, ⟨.shapekey, D.bname, D.uid⟩] =
    [B, D] := by
  simp [synthBlocks, shapeLayers]

theorem c2_pb0 (B D : KeyBlock) (old : List MVert) (OFSv : Option (List Q3))
    (mvs : List MVert) (bvs : List BMVert) :
    (processBlock true (some old) OFSv 1 0 true
      [⟨.keyindex, "", 0⟩, ⟨.shapekey, B.bname, B.uid⟩, ⟨.shapekey, D.bname, D.uid⟩]
      0 B mvs bvs).2 = (mvs, bvs) := by
  unfold processBlock
  simp

theorem c2_pb1 (B D : KeyBlock) (huid : B.uid ≠ D.uid) (hrel : D.relative = 0)
    (old : List MVert) (OFSL : List Q3) (mvs : List MVert) (bvs : List BMVert) :
    processBlock true (some old) (some OFSL) 1 0 true
      [⟨.keyindex, "", 0⟩, ⟨.shapekey, B.bname, B.uid⟩, ⟨.shapekey, D.bname, D.uid⟩]
      1 D mvs bvs =
    ({ D with data := (List.range bvs.length).map (fun i =>
        match bvs.get? i with
        | some eve => q3add (eve.shape.getD 1 q3zero) (OFSL.getD i q3zero)
        | none => q3zero) },
     mvs,
     mapIdxL (fun i eve => { eve with shape := (eve.shape.set 1
        (match bvs.get? i with
         | some eve2 => q3add (eve2.shape.getD 1 q3zero) (OFSL.getD i q3zero)
         | none => q3zero)) }) bvs) := by
  have hlp := c2_layerpos_D B D huid
  unfold processBlock
  rw [hlp]
  simp [shapeFp, hrel]

theorem c2_pb1n (B D : KeyBlock) (huid : B.uid ≠ D.uid)
    (old : List MVert) (mvs : List MVert) (bvs : List BMVert) :
    processBlock true (some old) none 1 0 true
      [⟨.keyindex, "", 0⟩, ⟨.shapekey, B.bname, B.uid⟩, ⟨.shapekey, D.bname, D.uid⟩]
      1 D mvs bvs =
    ({ D with data := (List.range bvs.length).map (fun i =>
        match bvs.get? i with
        | some eve => eve.shape.getD 1 q3zero
        | none => q3zero) },
     mvs, bvs) := by
  have hlp := c2_layerpos_D B D huid
  unfold processBlock
  rw [hlp]
  simp [shapeFp]

/-- C2: in a relative two-block shape key whose active block B is the basis
of block D, editing only vertex positions between build and extract changes
D's stored value at each vertex by exactly the per-vertex delta applied to B
at that vertex's original index, and the same value is written back into D's
bound shape layer; if the original indices are additionally struck out so
that some vertex fails to resolve into B's data, the whole offset is dropped:
D's data comes back unchanged and nothing is written into the shape layer. -/
theorem shape_basis_propagation (me : Mesh) (B D : KeyBlock) (f : Nat → Q3)
    (h0 : me.mvert.isEmpty = false)
    (hkey : me.key = some ⟨[B, D], true, 0⟩)
    (hvn : me.vnormals = none)
    (hvl : me.vlayers = [])
    (hcd : me.cd_flag = ⟨false, false, false, false⟩)
    (hmed : me.medge = []) (hmp : me.mpoly = [])
    (hB : B.data.length = me.mvert.length)
    (hD : D.data.length = me.mvert.length)
    (hrel : D.relative = 0)
    (huid : B.uid ≠ D.uid) :
    (∀ i, i < me.mvert.length →
      (BM_mesh_bm_to_me (setPositions (BM_mesh_bm_from_me emptyBM me (stdFromParams 1)) f)
          me [] stdToParams).me.key.map (fun k2 =>
        (k2.blocks.getD 1 ⟨"", 0, 0, []⟩).data.getD i q3zero) =
      some (q3add (D.data.getD i q3zero) (q3sub (f i) (B.data.getD i q3zero))) ∧
      ((BM_mesh_bm_to_me (setPositions (BM_mesh_bm_from_me emptyBM me (stdFromParams 1)) f)
          me [] stdToParams).bm.verts.get? i).map (fun v => v.shape.getD 1 q3zero) =
      some (q3add (D.data.getD i q3zero) (q3sub (f i) (B.data.getD i q3zero)))) ∧
    (∀ g : Nat → Int,
      (∃ j, j < me.mvert.length ∧ (g j < 0 ∨ (me.mvert.length : Int) ≤ g j)) →
      ∀ i, i < me.mvert.length →
      (BM_mesh_bm_to_me (setKeyindexes (setPositions (BM_mesh_bm_from_me emptyBM me
          (stdFromParams 1)) f) g) me [] stdToParams).me.key.map (fun k2 =>
        (k2.blocks.getD 1 ⟨"", 0, 0, []⟩).data.getD i q3zero) =
      some (D.data.getD i q3zero) ∧
      ((BM_mesh_bm_to_me (setKeyindexes (setPositions (BM_mesh_bm_from_me emptyBM me
          (stdFromParams 1)) f) g) me [] stdToParams).bm.verts.get? i).map
        (fun v => v.shape.getD 1 q3zero) =
      some (D.data.getD i q3zero)) := by
  have hkb : keyBlocksOf me = [B, D] := by
    unfold keyBlocksOf
    rw [hkey]
  have htot2 : fromMeTot me = 2 := by
    unfold fromMeTot
    rw [hkb]
    rfl
  have hact : fromMeActkey me (stdFromParams 1) = some B := by
    unfold fromMeActkey
    rw [htot2, hkb]
    rfl
  have hvalid2 : fromMeActValid me (stdFromParams 1) = true := by
    unfold fromMeActValid
    rw [hact]
    show decide (B.data.length = me.mvert.length) = true
    exact decide_eq_true hB
  have hkeyco2 : fromMeKeyco me (stdFromParams 1) = some B.data := by
    unfold fromMeKeyco
    rw [hvalid2, hact]
    rfl
  have hkip2 : fromMeKIP me (stdFromParams 1) = true := by
    unfold fromMeKIP
    rw [htot2]
    rfl
  have hshT : fromMeShapeTable me = [B, D] := by
    unfold fromMeShapeTable
    rw [htot2, hkb]
    rfl
  have hnr2 : fromMeShapenr me (stdFromParams 1) = 1 := by
    unfold fromMeShapenr
    rw [htot2, hvalid2]
    rfl
  have hVL0 : fromMeVL0 me (stdFromParams 1) = [] := by
    unfold fromMeVL0
    rw [hvl]
    rfl
  have hVL2 : fromMeVL2 me (stdFromParams 1) =
      [⟨.keyindex, "", 0⟩, ⟨.shapekey, B.bname, B.uid⟩, ⟨.shapekey, D.bname, D.uid⟩] := by
    unfold fromMeVL2 fromMeVL1
    rw [htot2, hVL0, hshT]
    rfl
  have hVLs : fromMeVLayers me (stdFromParams 1) =
      [⟨.keyindex, "", 0⟩, ⟨.shapekey, B.bname, B.uid⟩, ⟨.shapekey, D.bname, D.uid⟩] := by
    unfold fromMeVLayers
    rw [hVL2, hcd]
    rfl
  have hbmverts : (BM_mesh_bm_from_me emptyBM me (stdFromParams 1)).verts =
      mapIdxL (buildVert me (some B.data) true [B, D]) me.mvert := by
    rw [from_me_fresh me (stdFromParams 1) h0]
    show (fromMeFO me (stdFromParams 1)).vs = _
    unfold fromMeFO fromMeEO
    rw [hmp, hmed]
    show fromMeVertsList me (stdFromParams 1) = _
    unfold fromMeVertsList
    rw [hkeyco2, hkip2, hshT]
  have hbmvl : (BM_mesh_bm_from_me emptyBM me (stdFromParams 1)).vlayers =
      [⟨.keyindex, "", 0⟩, ⟨.shapekey, B.bname, B.uid⟩, ⟨.shapekey, D.bname, D.uid⟩] := by
    rw [from_me_fresh me (stdFromParams 1) h0]
    exact hVLs
  have hbmnr : (BM_mesh_bm_from_me emptyBM me (stdFromParams 1)).shapenr = 1 := by
    rw [from_me_fresh me (stdFromParams 1) h0]
    exact hnr2
  have hsetP : (setPositions (BM_mesh_bm_from_me emptyBM me (stdFromParams 1)) f).verts =
      mapIdxL (fun j (v : BMVert) => { v with co := f j })
        (BM_mesh_bm_from_me emptyBM me (stdFromParams 1)).verts := rfl
  have hsetK : ∀ (g : Nat → Int),
      (setKeyindexes (setPositions (BM_mesh_bm_from_me emptyBM me (stdFromParams 1)) f)
        g).verts =
      mapIdxL (fun j (v : BMVert) => { v with keyindex := g j })
        (setPositions (BM_mesh_bm_from_me emptyBM me (stdFromParams 1)) f).verts :=
    fun _ => rfl
  have hv1 : ∀ i mv, me.mvert.get? i = some mv →
      (setPositions (BM_mesh_bm_from_me emptyBM me (stdFromParams 1)) f).verts.get? i =
      some ({ co := f i, no := q3zero, sel := mv.sel, rest := mv.rest, bweight := 0,
              keyindex := (i : Int),
              shape := [B.data.getD i q3zero, D.data.getD i q3zero],
              attr := mv.attr } : BMVert) := by
    intro i mv hm
    rw [hsetP, mapIdxL_get?, hbmverts, mapIdxL_get?, hm]
    simp only [Option.map_some']
    congr 1
    show ({ buildVert me (some B.data) true [B, D] i mv with co := f i } : BMVert) = _
    unfold buildVert
    rw [hvn, hcd]
    rfl
  have hv2 : ∀ (g : Nat → Int) i mv, me.mvert.get? i = some mv →
      (setKeyindexes (setPositions (BM_mesh_bm_from_me emptyBM me (stdFromParams 1)) f)
        g).verts.get? i =
      some ({ co := f i, no := q3zero, sel := mv.sel, rest := mv.rest, bweight := 0,
              keyindex := g i,
              shape := [B.data.getD i q3zero, D.data.getD i q3zero],
              attr := mv.attr } : BMVert) := by
    intro g i mv hm
    rw [hsetK g, mapIdxL_get?, hv1 i mv hm]
    simp only [Option.map_some']
  have hlen1 : (setPositions (BM_mesh_bm_from_me emptyBM me
      (stdFromParams 1)) f).verts.length = me.mvert.length := by
    rw [hsetP, mapIdxL_length, hbmverts, mapIdxL_length]
  have hlen2 : ∀ (g : Nat → Int),
      (setKeyindexes (setPositions (BM_mesh_bm_from_me emptyBM me
        (stdFromParams 1)) f) g).verts.length = me.mvert.length := by
    intro g
    rw [hsetK g, mapIdxL_length, hlen1]
  have hofs1 : computeOfs (setPositions (BM_mesh_bm_from_me emptyBM me
      (stdFromParams 1)) f).verts B =
      some ((setPositions (BM_mesh_bm_from_me emptyBM me (stdFromParams 1)) f).verts.map
        (fun v => q3sub v.co (B.data.getD v.keyindex.toNat q3zero))) := by
    unfold computeOfs
    rw [if_pos ?hc]
    case hc =>
      apply List.all_eq_true.2
      intro v hv
      obtain ⟨j, hj⟩ := List.mem_iff_get?.1 hv
      cases hmm : me.mvert.get? j with
      | none =>
        rw [show (setPositions (BM_mesh_bm_from_me emptyBM me
            (stdFromParams 1)) f).verts.get? j = none by
          rw [hsetP, mapIdxL_get?, hbmverts, mapIdxL_get?, hmm]
          rfl] at hj
        cases hj
      | some mv =>
        rw [hv1 j mv hmm] at hj
        have hjlt : j < me.mvert.length := by
          by_contra hno
          rw [List.get?_eq_none.2 (Nat.le_of_not_lt hno)] at hmm
          cases hmm
        rw [← Option.some.inj hj]
        show (decide ((0 : Int) ≤ (j : Int)) &&
          decide ((j : Int) < (B.data.length : Int))) = true
        have h1 : (0 : Int) ≤ (j : Int) := Int.natCast_nonneg j
        have h2 : ((j : Int)) < (B.data.length : Int) := by
          rw [hB]
          exact_mod_cast hjlt
        simp [h1, h2]
  have hofs2 : ∀ (g : Nat → Int),
      (∃ j, j < me.mvert.length ∧ (g j < 0 ∨ (me.mvert.length : Int) ≤ g j)) →
      computeOfs (setKeyindexes (setPositions (BM_mesh_bm_from_me emptyBM me
        (stdFromParams 1)) f) g).verts B = none := by
    intro g hbad
    obtain ⟨j, hjlt, hgj⟩ := hbad
    unfold computeOfs
    rw [if_neg ?hc]
    case hc =>
      intro hall
      have hm : me.mvert.get? j = some (me.mvert.get ⟨j, hjlt⟩) := List.get?_eq_get hjlt
      have hjv := hv2 g j _ hm
      have hmem := List.get?_mem hjv
      have hp := List.all_eq_true.1 hall _ hmem
      rw [hB] at hp
      simp only [Bool.and_eq_true, decide_eq_true_eq] at hp
      rcases hgj with h | h
      · have := hp.1
        simp only at this
        omega
      · have := hp.2
        simp only at this
        omega
  have hTMS : ∀ (bmE : BMesh),
      bmE.vlayers = [⟨.keyindex, "", 0⟩, ⟨.shapekey, B.bname, B.uid⟩,
        ⟨.shapekey, D.bname, D.uid⟩] →
      bmE.shapenr = 1 →
      toMeShape bmE me (toMeVerts bmE) =
      (some ⟨(processBlocks true (some me.mvert) (computeOfs bmE.verts B) 1 0 true
          bmE.vlayers [(0, B), (1, D)] (toMeVerts bmE) bmE.verts).1, true, 0⟩,
       (processBlocks true (some me.mvert) (computeOfs bmE.verts B) 1 0 true
          bmE.vlayers [(0, B), (1, D)] (toMeVerts bmE) bmE.verts).2.1,
       (processBlocks true (some me.mvert) (computeOfs bmE.verts B) 1 0 true
          bmE.vlayers [(0, B), (1, D)] (toMeVerts bmE) bmE.verts).2.2) := by
    intro bmE hvlE hnrE
    have hhK : hasLayer [(⟨.keyindex, "", 0⟩ : Layer), ⟨.shapekey, B.bname, B.uid⟩,
        ⟨.shapekey, D.bname, D.uid⟩] CDType.keyindex = true := rfl
    have hsyn := c2_synth B D
    have hbasis := c2_basis B D hrel
    have hmap : mapIdxL (fun j (b : KeyBlock) => (j, b)) [B, D] = [(0, B), (1, D)] := rfl
    simp only [toMeShape, hkey, hvlE, hnrE, hhK, hsyn, hbasis, hmap, Option.isSome_some,
      Bool.true_and, Bool.and_true]
    simp
  have hPBs : ∀ (mvs : List MVert) (bvs : List BMVert) (OFSv : Option (List Q3)),
      processBlocks true (some me.mvert) OFSv 1 0 true
        [⟨.keyindex, "", 0⟩, ⟨.shapekey, B.bname, B.uid⟩, ⟨.shapekey, D.bname, D.uid⟩]
        [(0, B), (1, D)] mvs bvs =
      ((processBlock true (some me.mvert) OFSv 1 0 true
          [⟨.keyindex, "", 0⟩, ⟨.shapekey, B.bname, B.uid⟩, ⟨.shapekey, D.bname, D.uid⟩]
          0 B mvs bvs).1 ::
       (processBlock true (some me.mvert) OFSv 1 0 true
          [⟨.keyindex, "", 0⟩, ⟨.shapekey, B.bname, B.uid⟩, ⟨.shapekey, D.bname, D.uid⟩]
          1 D mvs bvs).1 :: [],
       (processBlock true (some me.mvert) OFSv 1 0 true
          [⟨.keyindex, "", 0⟩, ⟨.shapekey, B.bname, B.uid⟩, ⟨.shapekey, D.bname, D.uid⟩]
          1 D mvs bvs).2.1,
       (processBlock true (some me.mvert) OFSv 1 0 true
          [⟨.keyindex, "", 0⟩, ⟨.shapekey, B.bname, B.uid⟩, ⟨.shapekey, D.bname, D.uid⟩]
          1 D mvs bvs).2.2) := by
    intro mvs bvs OFSv
    have hz := c2_pb0 B D me.mvert OFSv mvs bvs
    simp only [processBlocks, hz]
  constructor
  · intro i hi
    have hm : me.mvert.get? i = some (me.mvert.get ⟨i, hi⟩) := List.get?_eq_get hi
    have hvi := hv1 i _ hm
    have hvlE : (setPositions (BM_mesh_bm_from_me emptyBM me
        (stdFromParams 1)) f).vlayers = [⟨.keyindex, "", 0⟩,
        ⟨.shapekey, B.bname, B.uid⟩, ⟨.shapekey, D.bname, D.uid⟩] := hbmvl
    have hnrE : (setPositions (BM_mesh_bm_from_me emptyBM me
        (stdFromParams 1)) f).shapenr = 1 := hbmnr
    have hts := hTMS _ hvlE hnrE
    have hofsv : computeOfs (setPositions (BM_mesh_bm_from_me emptyBM me
        (stdFromParams 1)) f).verts B =
        some ((setPositions (BM_mesh_bm_from_me emptyBM me (stdFromParams 1)) f).verts.map
          (fun v => q3sub v.co (B.data.getD v.keyindex.toNat q3zero))) := hofs1
    have hpb1 := c2_pb1 B D huid hrel me.mvert
      ((setPositions (BM_mesh_bm_from_me emptyBM me (stdFromParams 1)) f).verts.map
        (fun v => q3sub v.co (B.data.getD v.keyindex.toNat q3zero)))
      (toMeVerts (setPositions (BM_mesh_bm_from_me emptyBM me (stdFromParams 1)) f))
      (setPositions (BM_mesh_bm_from_me emptyBM me (stdFromParams 1)) f).verts
    have hofsl : ((setPositions (BM_mesh_bm_from_me emptyBM me
        (stdFromParams 1)) f).verts.map
          (fun v => q3sub v.co (B.data.getD v.keyindex.toNat q3zero))).getD i q3zero =
        q3sub (f i) (B.data.getD i q3zero) := by
      rw [getD_eq_get?', List.get?_map, hvi]
      show (some (q3sub (f i) (B.data.getD ((i : Int)).toNat q3zero))).getD q3zero = _
      rw [Int.toNat_natCast]
      rfl
    constructor
    · show (toMeShape (setPositions (BM_mesh_bm_from_me emptyBM me (stdFromParams 1)) f)
        me (toMeVerts (setPositions (BM_mesh_bm_from_me emptyBM me
          (stdFromParams 1)) f))).1.map (fun k2 =>
        (k2.blocks.getD 1 ⟨"", 0, 0, []⟩).data.getD i q3zero) = _
      rw [hts, hvlE, hofsv, hPBs, hpb1]
      show some ((((List.range (setPositions (BM_mesh_bm_from_me emptyBM me
          (stdFromParams 1)) f).verts.length).map (fun i2 =>
        match (setPositions (BM_mesh_bm_from_me emptyBM me
            (stdFromParams 1)) f).verts.get? i2 with
        | some eve => q3add (eve.shape.getD 1 q3zero)
            (((setPositions (BM_mesh_bm_from_me emptyBM me (stdFromParams 1)) f).verts.map
              (fun v => q3sub v.co (B.data.getD v.keyindex.toNat q3zero))).getD i2 q3zero)
        | none => q3zero))).getD i q3zero) = _
      rw [getD_range_map _ _ _ _ (by rw [hlen1]; exact hi), hvi, hofsl]
      rfl
    · show ((toMeShape (setPositions (BM_mesh_bm_from_me emptyBM me (stdFromParams 1)) f)
        me (toMeVerts (setPositions (BM_mesh_bm_from_me emptyBM me
          (stdFromParams 1)) f))).2.2.get? i).map
        (fun v => v.shape.getD 1 q3zero) = _
      rw [hts, hvlE, hofsv, hPBs, hpb1]
      rw [mapIdxL_get?, hvi]
      simp only [Option.map_some']
      rw [hofsl]
      rfl
  · intro g hbad i hi
    have hm : me.mvert.get? i = some (me.mvert.get ⟨i, hi⟩) := List.get?_eq_get hi
    have hvi := hv2 g i _ hm
    have hvlE : (setKeyindexes (setPositions (BM_mesh_bm_from_me emptyBM me
        (stdFromParams 1)) f) g).vlayers = [⟨.keyindex, "", 0⟩,
        ⟨.shapekey, B.bname, B.uid⟩, ⟨.shapekey, D.bname, D.uid⟩] := hbmvl
    have hnrE : (setKeyindexes (setPositions (BM_mesh_bm_from_me emptyBM me
        (stdFromParams 1)) f) g).shapenr = 1 := hbmnr
    have hts := hTMS _ hvlE hnrE
    have hofsv := hofs2 g hbad
    have hpb1 := c2_pb1n B D huid me.mvert
      (toMeVerts (setKeyindexes (setPositions (BM_mesh_bm_from_me emptyBM me
        (stdFromParams 1)) f) g))
      (setKeyindexes (setPositions (BM_mesh_bm_from_me emptyBM me
        (stdFromParams 1)) f) g).verts
    constructor
    · show (toMeShape (setKeyindexes (setPositions (BM_mesh_bm_from_me emptyBM me
        (stdFromParams 1)) f) g) me (toMeVerts (setKeyindexes (setPositions
          (BM_mesh_bm_from_me emptyBM me (stdFromParams 1)) f) g))).1.map (fun k2 =>
        (k2.blocks.getD 1 ⟨"", 0, 0, []⟩).data.getD i q3zero) = _
      rw [hts, hvlE, hofsv, hPBs, hpb1]
      show some ((((List.range (setKeyindexes (setPositions (BM_mesh_bm_from_me emptyBM me
          (stdFromParams 1)) f) g).verts.length).map (fun i2 =>
        match (setKeyindexes (setPositions (BM_mesh_bm_from_me emptyBM me
            (stdFromParams 1)) f) g).verts.get? i2 with
        | some eve => eve.shape.getD 1 q3zero
        | none => q3zero))).getD i q3zero) = _
      rw [getD_range_map _ _ _ _ (by rw [hlen2 g]; exact hi), hvi]
      rfl
    · show ((toMeShape (setKeyindexes (setPositions (BM_mesh_bm_from_me emptyBM me
        (stdFromParams 1)) f) g) me (toMeVerts (setKeyindexes (setPositions
          (BM_mesh_bm_from_me emptyBM me (stdFromParams 1)) f) g))).2.2.get? i).map
        (fun v => v.shape.getD 1 q3zero) = _
      rw [hts, hvlE, hofsv, hPBs, hpb1, hvi]
      rfl

/-- C2 witness: the propagation and the resolution-failure fallback at the
concrete one-vertex mesh with basis and dependent blocks. -/
theorem shape_basis_propagation_witness :
    (∀ i, i < shapeMe.mvert.length →
      (BM_mesh_bm_to_me (setPositions (BM_mesh_bm_from_me emptyBM shapeMe
          (stdFromParams 1)) (fun _ => ⟨1, 1, 1⟩)) shapeMe [] stdToParams).me.key.map
        (fun k2 => (k2.blocks.getD 1 ⟨"", 0, 0, []⟩).data.getD i q3zero) =
      some (q3add (shapeD.data.getD i q3zero)
        (q3sub ((fun _ => (⟨1, 1, 1⟩ : Q3)) i) (shapeB.data.getD i q3zero))) ∧
      ((BM_mesh_bm_to_me (setPositions (BM_mesh_bm_from_me emptyBM shapeMe
          (stdFromParams 1)) (fun _ => ⟨1, 1, 1⟩)) shapeMe []
          stdToParams).bm.verts.get? i).map (fun v => v.shape.getD 1 q3zero) =
      some (q3add (shapeD.data.getD i q3zero)
        (q3sub ((fun _ => (⟨1, 1, 1⟩ : Q3)) i) (shapeB.data.getD i q3zero)))) ∧
    (∀ g : Nat → Int,
      (∃ j, j < shapeMe.mvert.length ∧ (g j < 0 ∨ (shapeMe.mvert.length : Int) ≤ g j)) →
      ∀ i, i < shapeMe.mvert.length →
      (BM_mesh_bm_to_me (setKeyindexes (setPositions (BM_mesh_bm_from_me emptyBM shapeMe
          (stdFromParams 1)) (fun _ => ⟨1, 1, 1⟩)) g) shapeMe [] stdToParams).me.key.map
        (fun k2 => (k2.blocks.getD 1 ⟨"", 0, 0, []⟩).data.getD i q3zero) =
      some (shapeD.data.getD i q3zero) ∧
      ((BM_mesh_bm_to_me (setKeyindexes (setPositions (BM_mesh_bm_from_me emptyBM shapeMe
          (stdFromParams 1)) (fun _ => ⟨1, 1, 1⟩)) g) shapeMe []
          stdToParams).bm.verts.get? i).map (fun v => v.shape.getD 1 q3zero) =
      some (shapeD.data.getD i q3zero)) :=
  shape_basis_propagation shapeMe shapeB shapeD (fun _ => ⟨1, 1, 1⟩)
    rfl rfl rfl rfl rfl rfl rfl rfl rfl rfl (by decide)

/-! ## Claim C6: the edge quick-draw flag -/

/-- C6 counterexample to the claim as stated: edge 0 of bmEdgeFan3 borders
three faces, not exactly two, yet because the first two radial faces have
normals whose dot product (= 1) exceeds the 0.9995 threshold the extraction
still marks it not drawn; the claim predicts the draw flag would be set for
any edge not bordered by exactly two such faces. -/
theorem edge_quickdraw_three_faces_still_cleared :
    (edgeRadialNormals bmEdgeFan3 0).length = 3 ∧
    edgeDrawThreshold < dot_v3v3 ⟨0, 0, 1⟩ ⟨0, 0, 1⟩ ∧
    ((BM_mesh_bm_to_me bmEdgeFan3 meshEmptyPlain [] stdToParams).me.medge.get? 0).map
        (fun e => e.draw) = some false := by
  have hdot : edgeDrawThreshold < dot_v3v3 ⟨0, 0, 1⟩ ⟨0, 0, 1⟩ := by
    simp only [edgeDrawThreshold, dot_v3v3]
    norm_num
  have hrad : edgeRadialNormals bmEdgeFan3 0 = [⟨0, 0, 1⟩, ⟨0, 0, 1⟩, ⟨0, 0, 1⟩] := rfl
  have hflag : bmesh_quick_edgedraw_flag bmEdgeFan3 0 = false := by
    unfold bmesh_quick_edgedraw_flag
    rw [hrad]
    simp [hdot]
  refine ⟨by rw [hrad]; rfl, hdot, ?_⟩
  have h1 : (BM_mesh_bm_to_me bmEdgeFan3 meshEmptyPlain [] stdToParams).me.medge =
      toMeEdges bmEdgeFan3 := rfl
  rw [h1]
  unfold toMeEdges
  simp only []
  rw [mapIdxL_get?]
  have h2 : bmEdgeFan3.edges.get? 0 = some (plainBMEdge 0 1) := rfl
  rw [h2]
  simp [hflag]

/-- C6 (amended): during extraction every edge draw flag is recomputed,
independently of its previous value: the edge is marked not drawn exactly
when it has at least two radial loops and the normals of the first two
radial faces have a dot product above the fixed 0.9995 threshold; otherwise
the draw flag is set. -/
theorem to_me_edge_draw_recomputed (bm : BMesh) (me : Mesh) (hooks : List (List Nat))
    (tp : BMeshToMeshParams) (i : Nat) :
    ((BM_mesh_bm_to_me bm me hooks tp).me.medge.get? i).map (fun e => e.draw) =
      (bm.edges.get? i).map (fun _ => bmesh_quick_edgedraw_flag bm i) ∧
    (bmesh_quick_edgedraw_flag bm i = false ↔
      ∃ n1 n2 r, edgeRadialNormals bm i = n1 :: n2 :: r ∧
        edgeDrawThreshold < dot_v3v3 n1 n2) := by
  constructor
  · have h1 : (BM_mesh_bm_to_me bm me hooks tp).me.medge = toMeEdges bm := rfl
    rw [h1]
    unfold toMeEdges
    simp only []
    rw [mapIdxL_get?]
    cases hg : bm.edges.get? i <;> simp [hg]
  · unfold bmesh_quick_edgedraw_flag
    cases hr : edgeRadialNormals bm i with
    | nil => simp
    | cons n1 t =>
      cases t with
      | nil => simp
      | cons n2 r =>
        by_cases hd : edgeDrawThreshold < dot_v3v3 n1 n2
        · simp only [if_pos hd, true_iff]
          exact ⟨n1, n2, r, rfl, hd⟩
        · simp only [if_neg hd]
          constructor
          · intro hf
            exact absurd hf (by simp)
          · rintro ⟨m1, m2, r2, heq, hdd⟩
            have h1 : n1 = m1 := by injection heq
            have h2 : n2 = m2 := by
              have := heq
              injection this with _ h2
              injection h2
            subst h1
            subst h2
            exact absurd hdd hd

/-! ## Claim C7: hook index compaction -/

/-- The per-entry keep predicate of the hook loop: the write cursor advances
for an in-range entry that resolves and for every out-of-range entry. -/
def hookKeeps (vm : List (Option Nat)) (oto : Nat) (v : Nat) : Bool :=
  if v < oto then (vm.getD v none).isSome else true

theorem hookRemapLoop_fst_length (vm : List (Option Nat)) (oto : Nat)
    (l : List Nat) (arr : List Nat) (j : Nat) :
    (hookRemapLoop vm oto l (arr, j)).1.length = arr.length := by
  induction l generalizing arr j with
  | nil => rfl
  | cons v rest ih =>
    simp only [hookRemapLoop]
    by_cases hv : v < oto
    · rw [if_pos hv]
      cases hg : vm.getD v none with
      | none => exact ih arr j
      | some ni => rw [ih]; simp
    · rw [if_neg hv]
      exact ih arr (j + 1)

theorem hookRemapLoop_snd (vm : List (Option Nat)) (oto : Nat)
    (l : List Nat) (arr : List Nat) (j : Nat) :
    (hookRemapLoop vm oto l (arr, j)).2 = j + l.countP (hookKeeps vm oto) := by
  induction l generalizing arr j with
  | nil => simp [hookRemapLoop]
  | cons v rest ih =>
    simp only [hookRemapLoop, List.countP_cons]
    by_cases hv : v < oto
    · rw [if_pos hv]
      cases hg : vm.getD v none with
      | none =>
        have hk : hookKeeps vm oto v = false := by
          simp only [hookKeeps, if_pos hv, hg, Option.isSome_none]
        rw [ih, hk]
        simp
      | some ni =>
        have hk : hookKeeps vm oto v = true := by
          simp only [hookKeeps, if_pos hv, hg, Option.isSome_some]
        rw [ih, hk]
        simp
        omega
    · rw [if_neg hv]
      have hk : hookKeeps vm oto v = true := by
        simp only [hookKeeps, if_neg hv]
      rw [ih, hk]
      simp
      omega

theorem take_succ_set (arr : List α) (j : Nat) (b : α) (h : j < arr.length) :
    (arr.set j b).take (j + 1) = arr.take j ++ [b] := by
  induction arr generalizing j with
  | nil => simp at h
  | cons x xs ih =>
    cases j with
    | zero => simp
    | succ t =>
      simp only [List.set, List.take_succ_cons, List.cons_append]
      rw [ih t (by simpa using h)]

theorem hookRemapLoop_all_in_range (vm : List (Option Nat)) (oto : Nat)
    (l : List Nat) (arr : List Nat) (j : Nat)
    (hlen : j + l.length ≤ arr.length) (hin : ∀ v ∈ l, v < oto) :
    (hookRemapLoop vm oto l (arr, j)).1.take (hookRemapLoop vm oto l (arr, j)).2 =
      arr.take j ++ l.filterMap (fun v => vm.getD v none) := by
  induction l generalizing arr j with
  | nil => simp [hookRemapLoop]
  | cons v rest ih =>
    have hv : v < oto := hin v (List.mem_cons_self v rest)
    simp only [hookRemapLoop, if_pos hv, List.filterMap_cons]
    cases hg : vm.getD v none with
    | none =>
      rw [ih arr j (by simp only [List.length_cons] at hlen; omega)
        (fun w hw => hin w (List.mem_cons_of_mem v hw))]
    | some ni =>
      have hj : j < arr.length := by
        simp only [List.length_cons] at hlen
        omega
      rw [ih (arr.set j ni) (j + 1)
        (by simp only [List.length_set, List.length_cons] at hlen ⊢; omega)
        (fun w hw => hin w (List.mem_cons_of_mem v hw))]
      rw [take_succ_set arr j ni hj]
      simp

/-- C7 counterexample to the claim as stated: with a one-vertex old mesh
whose original-index map resolves nothing, the hook array [0, 5] holds two
entries whose original targets do not resolve; the claim predicts both are
removed (totindex 0), but the loop keeps one slot for the out-of-range entry
5 and the surviving slot still holds the unresolvable value 0. -/
theorem hook_compaction_keeps_out_of_range_entry :
    bm_to_mesh_vertex_map bmStaleIndex 1 = [none] ∧
    (BM_mesh_bm_to_me bmStaleIndex meshOneVert [[0, 5]] remapToParams).hooks = [[0]] := by
  constructor
  · rfl
  · rfl

/-- C7 (amended): with the remap option set and a positive old vertex count,
every hook index array is rewritten by the compaction loop.  In-range
entries that resolve through the original-index map are renumbered and
compacted; in-range entries that do not resolve are removed and the array
shrinks; out-of-range entries keep a slot (advancing the write cursor
without rewriting it).  The resulting length counts resolving and
out-of-range entries, and when every entry is in range the array is exactly
the filter-map of the original through the vertex map. -/
theorem hook_index_compaction (bm : BMesh) (me : Mesh) (hooks : List (List Nat))
    (tp : BMeshToMeshParams)
    (h1 : tp.calc_object_remap = true) (h2 : 0 < me.mvert.length) :
    (BM_mesh_bm_to_me bm me hooks tp).hooks =
      hooks.map (hookRemapArray (bm_to_mesh_vertex_map bm me.mvert.length)
        me.mvert.length) ∧
    (∀ ar ∈ hooks,
      (hookRemapArray (bm_to_mesh_vertex_map bm me.mvert.length) me.mvert.length ar).length =
        ar.countP (hookKeeps (bm_to_mesh_vertex_map bm me.mvert.length) me.mvert.length)) ∧
    (∀ ar ∈ hooks, (∀ v ∈ ar, v < me.mvert.length) →
      hookRemapArray (bm_to_mesh_vertex_map bm me.mvert.length) me.mvert.length ar =
        ar.filterMap (fun v => (bm_to_mesh_vertex_map bm me.mvert.length).getD v none)) := by
  refine ⟨?_, ?_, ?_⟩
  · have hh : (BM_mesh_bm_to_me bm me hooks tp).hooks =
        if tp.calc_object_remap && decide (0 < me.mvert.length) then
          hooks.map (hookRemapArray (bm_to_mesh_vertex_map bm me.mvert.length)
            me.mvert.length)
        else hooks := rfl
    rw [hh, h1]
    simp [h2]
  · intro ar _
    unfold hookRemapArray
    simp only [List.length_take, hookRemapLoop_fst_length, hookRemapLoop_snd]
    have hc : ar.countP (hookKeeps (bm_to_mesh_vertex_map bm me.mvert.length)
        me.mvert.length) ≤ ar.length := List.countP_le_length _
    omega
  · intro ar _ hin
    unfold hookRemapArray
    simp only []
    rw [hookRemapLoop_all_in_range _ _ ar ar 0 (by simp) hin]
    simp

/-- C7 witness: the amended compaction behaviour at the concrete stale-index
BMesh, one-vertex old mesh and the single hook array [0, 5]. -/
theorem hook_index_compaction_witness :
    (BM_mesh_bm_to_me bmStaleIndex meshOneVert [[0, 5]] remapToParams).hooks =
      [[0, 5]].map (hookRemapArray (bm_to_mesh_vertex_map bmStaleIndex
        meshOneVert.mvert.length) meshOneVert.mvert.length) ∧
    (∀ ar ∈ [[0, 5]],
      (hookRemapArray (bm_to_mesh_vertex_map bmStaleIndex meshOneVert.mvert.length)
          meshOneVert.mvert.length ar).length =
        ar.countP (hookKeeps (bm_to_mesh_vertex_map bmStaleIndex
          meshOneVert.mvert.length) meshOneVert.mvert.length)) ∧
    (∀ ar ∈ [[0, 5]], (∀ v ∈ ar, v < meshOneVert.mvert.length) →
      hookRemapArray (bm_to_mesh_vertex_map bmStaleIndex meshOneVert.mvert.length)
          meshOneVert.mvert.length ar =
        ar.filterMap (fun v =>
          (bm_to_mesh_vertex_map bmStaleIndex meshOneVert.mvert.length).getD v none)) :=
  hook_index_compaction bmStaleIndex meshOneVert [[0, 5]] remapToParams rfl (by decide)

end Blender
